import Mathlib

/-!
Verification of the graphtty terminal graph renderer.

This file gives a shallow embedding, in Lean 4, of the core of the
graphtty repository (src/graphtty: types.py, canvas.py, layout.py,
renderer.py, truncate.py) and proves properties of that embedding.

Conventions of the embedding:
* Python ints are modelled as Lean Int (coordinates may be negative);
  Python floats arising from barycenter averaging are modelled as Rat
  (exact rational arithmetic; the code only ever averages integers and
  compares the results, and no claim below depends on the rounding of
  IEEE doubles).
* Python dicts keyed by node id are modelled as association lists
  (List (String × _)) preserving insertion order; Python sets that are
  used only for membership tests are modelled as lists with membership.
* The mutable Canvas grid is modelled as a structure holding the cell
  and color planes as functions from coordinates, together with the
  incrementally tracked bounding box, exactly as in canvas.py.
* Unbounded loops (BFS over components, the cycle-breaking DFS, Kahn
  topological sort) are modelled with an explicit fuel parameter; the
  fuel chosen at each call site is proved sufficient, so the
  fuel-exhaustion branches are unreachable.
-/

set_option maxHeartbeats 1000000

/-- Directed edge of the graph, from types.py (AsciiEdge). -/
structure AsciiEdge where
  source : String
  target : String
  label : Option String
deriving DecidableEq, Repr

mutual

/-- A node of the graph, from types.py (AsciiNode): id, name, type,
description and an optional nested subgraph. -/
inductive AsciiNode where
  | mk (id name type description : String) (subgraph : Option AsciiGraph)

/-- A directed graph, from types.py (AsciiGraph): ordered node and edge
lists. -/
inductive AsciiGraph where
  | mk (nodes : List AsciiNode) (edges : List AsciiEdge)

end

/-- Projection: node id. -/
def AsciiNode.id : AsciiNode → String
  | .mk i _ _ _ _ => i

/-- Projection: node display name. -/
def AsciiNode.name : AsciiNode → String
  | .mk _ n _ _ _ => n

/-- Projection: node type tag. -/
def AsciiNode.type : AsciiNode → String
  | .mk _ _ t _ _ => t

/-- Projection: node description text. -/
def AsciiNode.description : AsciiNode → String
  | .mk _ _ _ d _ => d

/-- Projection: optional nested subgraph. -/
def AsciiNode.subgraph : AsciiNode → Option AsciiGraph
  | .mk _ _ _ _ s => s

/-- Projection: node list of a graph. -/
def AsciiGraph.nodes : AsciiGraph → List AsciiNode
  | .mk ns _ => ns

/-- Projection: edge list of a graph. -/
def AsciiGraph.edges : AsciiGraph → List AsciiEdge
  | .mk _ es => es

/-- Character set record, from canvas.py (the UNICODE_CHARS and
ASCII_CHARS dictionaries). -/
structure CharSet where
  tl : Char
  tr : Char
  bl : Char
  br : Char
  h : Char
  v : Char
  jt : Char
  jb : Char
  jl : Char
  jr : Char
  jx : Char
  arrowDown : Char
  arrowUp : Char
  arrowRight : Char
  arrowLeft : Char
deriving DecidableEq, Repr

/-- Unicode box-drawing character set (canvas.py UNICODE_CHARS). -/
def UNICODE_CHARS : CharSet :=
  { tl := '┌', tr := '┐', bl := '└', br := '┘', h := '─', v := '│'
    jt := '┬', jb := '┴', jl := '├', jr := '┤', jx := '┼'
    arrowDown := '▼', arrowUp := '▲', arrowRight := '▶', arrowLeft := '◀' }

/-- Plain ASCII fallback character set (canvas.py ASCII_CHARS). -/
def ASCII_CHARS : CharSet :=
  { tl := '+', tr := '+', bl := '+', br := '+', h := '-', v := '|'
    jt := '+', jb := '+', jl := '+', jr := '+', jx := '+'
    arrowDown := 'v', arrowUp := '^', arrowRight := '>', arrowLeft := '<' }

/-- Character set selection (canvas.py chars). -/
def chars (useUnicode : Bool) : CharSet :=
  if useUnicode then UNICODE_CHARS else ASCII_CHARS

/-! ## Metadata lines (renderer.py) -/

/-- Maximum number of comma items shown (renderer.py _MAX_ITEMS_SHOWN). -/
def MAX_ITEMS_SHOWN : Nat := 5

/-- Default maximum metadata line width (renderer.py _META_MAX_LINE). -/
def META_MAX_LINE : Int := 40

/-- Straight-edge tolerance in characters (renderer.py
_STRAIGHT_TOLERANCE). -/
def STRAIGHT_TOLERANCE : Int := 2

/-- Python-style join with a comma-space separator: the expression
", ".join(row) used by renderer.py _metadata_lines. -/
def joinComma : List String → String
  | [] => ""
  | [x] => x
  | x :: y :: xs => x ++ ", " ++ joinComma (y :: xs)

/-- Helper for pySplit: accumulate the current piece (reversed) while
scanning the character list. -/
def splitChAux (sep : Char) : List Char → List Char → List String
  | [], acc => [String.mk acc.reverse]
  | c :: cs, acc =>
    if c = sep then String.mk acc.reverse :: splitChAux sep cs []
    else splitChAux sep cs (c :: acc)

/-- Python str.split(sep) for a single-character separator: splits at
every occurrence, keeping empty pieces ("".split(",") is [""]). -/
def pySplit (sep : Char) (s : String) : List String := splitChAux sep s.data []

/-- Python default whitespace class for str.strip. -/
def isPySpace (c : Char) : Bool :=
  c = ' ' ∨ c = '\t' ∨ c = '\n' ∨ c = '\r' ∨ c = '\x0b' ∨ c = '\x0c'

/-- Python str.strip(): remove leading and trailing whitespace. -/
def pyStrip (s : String) : String :=
  String.mk (((s.data.dropWhile isPySpace).reverse.dropWhile isPySpace).reverse)

/-- Comma-item extraction of renderer.py _metadata_lines: the list
comprehension [s.strip() for s in description.split(",") if s.strip()]. -/
def splitItems (description : String) : List String :=
  ((pySplit ',' description).map (fun s => pyStrip s)).filter (fun s => s ≠ "")

/-- Modelled from the spec: Python's stdlib textwrap.wrap (the repository
calls it for descriptions without commas; the stdlib source is not part
of the repository).  Per the spec this is plain greedy word-wrapping of
whitespace-separated words at the given width; words are kept whole.
Returns no lines when the text holds no words. -/
def textwrapWrap (text : String) (width : Int) : List String :=
  let words := (pySplit ' ' text).filter (fun w => w ≠ "")
  let step := fun (st : List String × String) (w : String) =>
    let (lines, cur) := st
    if cur = "" then (lines, w)
    else if (cur.length : Int) + 1 + (w.length : Int) ≤ width then
      (lines, cur ++ " " ++ w)
    else (lines ++ [cur], w)
  let (lines, cur) := words.foldl step ([], "")
  if cur = "" then lines else lines ++ [cur]

/-- Accumulator step of the item-packing loop of renderer.py
_metadata_lines (state: lines built so far, current row, current row
length). -/
def packStep (maxLine : Int) (st : List String × List String × Int)
    (name : String) : List String × List String × Int :=
  let (lines, row, rowLen) := st
  let added : Int := (name.length : Int) + (if row ≠ [] then 2 else 0)
  if row ≠ [] ∧ rowLen + added > maxLine then
    (lines ++ [joinComma row], [name], (name.length : Int))
  else
    (lines, row ++ [name], rowLen + added)

/-- Item-list part of renderer.py _metadata_lines, operating on the
already-extracted comma items. -/
def metadataLinesOfItems (items : List String) (maxLine : Int) : List String :=
  match items with
  | [] => []
  | [single] =>
    let w := textwrapWrap single maxLine
    if w = [] then [single] else w
  | _ :: _ :: _ =>
    let shown := items.take MAX_ITEMS_SHOWN
    let remainder : Nat := items.length - shown.length
    let (lines, row, rowLen) := shown.foldl (packStep maxLine) ([], [], 0)
    if remainder > 0 then
      let suffix := "+" ++ toString remainder ++ " more"
      let added : Int := (suffix.length : Int) + (if row ≠ [] then 2 else 0)
      if row ≠ [] ∧ rowLen + added > maxLine then
        lines ++ [joinComma row, suffix]
      else
        lines ++ [joinComma (row ++ [suffix])]
    else if row ≠ [] then lines ++ [joinComma row]
    else lines

/-- Metadata detail lines of a node (renderer.py _metadata_lines):
comma-separated descriptions are packed (at most MAX_ITEMS_SHOWN items,
with a "+K more" suffix); descriptions without commas are word-wrapped. -/
def metadataLines (node : AsciiNode) (maxLine : Int) : List String :=
  if node.description = "" ∨ maxLine ≤ 0 then []
  else metadataLinesOfItems (splitItems node.description) maxLine

/-! ## Association-list helpers

Python dicts keyed by node id are modelled as insertion-ordered
association lists: assignment to an existing key keeps its position,
assignment to a new key appends, exactly like a Python dict. -/

/-- Dict lookup (returns none for a missing key). -/
def alookup {α : Type} : List (String × α) → String → Option α
  | [], _ => none
  | (k2, v) :: rest, k => if k2 = k then some v else alookup rest k

/-- Dict lookup with a default. -/
def aget {α : Type} (m : List (String × α)) (k : String) (d : α) : α :=
  (alookup m k).getD d

/-- Dict assignment: replace in place, or append a new key. -/
def aset {α : Type} : List (String × α) → String → α → List (String × α)
  | [], k, v => [(k, v)]
  | (k2, w) :: rest, k, v =>
    if k2 = k then (k2, v) :: rest else (k2, w) :: aset rest k v

/-- First-occurrence deduplication helper. -/
def dedupFirstAux : List String → List String → List String
  | [], _ => []
  | x :: xs, seen =>
    if x ∈ seen then dedupFirstAux xs seen else x :: dedupFirstAux xs (x :: seen)

/-- Set construction from a list, keeping first occurrences (used where
the Python code builds a set of node ids; only membership and a
deterministic enumeration order are relied upon). -/
def dedupFirst (l : List String) : List String := dedupFirstAux l []

/-! ## Graph truncation (truncate.py) -/

/-- Placeholder node id for depth truncation (truncate.py
_DEPTH_PLACEHOLDER_ID). -/
def DEPTH_PLACEHOLDER_ID : String := "__truncated_depth__"

/-- Adjacency and in-degree accumulation of truncate.py truncate_graph:
edges with both endpoints present and source different from target. -/
def truncAdjStep (ids : List String)
    (st : List (String × List String) × List (String × Int)) (e : AsciiEdge) :
    List (String × List String) × List (String × Int) :=
  let (forward, indeg) := st
  if e.source ∈ ids ∧ e.target ∈ ids ∧ e.source ≠ e.target then
    (aset forward e.source (aget forward e.source [] ++ [e.target]),
     aset indeg e.target (aget indeg e.target 0 + 1))
  else st

/-- Child-processing step of the truncate.py Kahn loop: bump the child
layer to parent layer + 1 when larger, decrement the remaining count and
enqueue the child when it reaches zero. -/
def truncKahnStep (nid : String)
    (st : List (String × Int) × List (String × Int) × List String)
    (child : String) :
    List (String × Int) × List (String × Int) × List String :=
  let (layers, remaining, queue) := st
  let nl := aget layers nid 0 + 1
  let layers2 := if nl > aget layers child 0 then aset layers child nl else layers
  let rem2 := aget remaining child 0 - 1
  let remaining2 := aset remaining child rem2
  let queue2 := if rem2 = 0 then queue ++ [child] else queue
  (layers2, remaining2, queue2)

/-- Fuelled Kahn longest-path loop of truncate.py truncate_graph.  The
fuel only bounds the number of queue pops; the call site passes enough
fuel for the loop to drain the queue. -/
def truncKahn (forward : List (String × List String)) :
    Nat → List (String × Int) → List (String × Int) → List String →
    List (String × Int)
  | 0, layers, _, _ => layers
  | _ + 1, layers, _, [] => layers
  | fuel + 1, layers, remaining, nid :: rest =>
    let (layers2, remaining2, queue2) :=
      (aget forward nid []).foldl (truncKahnStep nid) (layers, remaining, rest)
    truncKahn forward fuel layers2 remaining2 queue2

/-- Breadth-truncation step of truncate.py truncate_graph for one layer
(state: surviving keep list, replacement map, depth-truncation parent
set). -/
def truncBreadthStep (mb : Int)
    (st : List String × List (String × String) × List String)
    (p : Nat × List String) :
    List String × List (String × String) × List String :=
  let (keep, brepl, dtp) := st
  let (layerIdx, layerNodes) := p
  let surviving := layerNodes.filter (fun nid => nid ∈ keep)
  if (surviving.length : Int) ≤ mb then st
  else
    let removed := surviving.drop (mb - 1).toNat
    let pid := "__truncated_breadth_" ++ toString layerIdx ++ "__"
    (keep.filter (fun nid => nid ∉ removed),
     removed.foldl (fun m rid => aset m rid pid) brepl,
     dtp.filter (fun nid => nid ∉ removed))

/-- Size bound used for recursion into subgraphs. -/
lemma sizeOf_subgraph_lt (n : AsciiNode) (sub : AsciiGraph)
    (hs : n.subgraph = some sub) : sizeOf sub < sizeOf n := by
  cases n with
  | mk i nm ty d s =>
    simp only [AsciiNode.subgraph] at hs
    subst hs
    simp
    omega

mutual

/-- Graph truncation, from truncate.py truncate_graph: prune by depth
(layers beyond max_depth collapse into one placeholder) and by breadth
(excess nodes per layer collapse into per-layer placeholders); recurses
into subgraphs.  With both limits absent the input graph itself is
returned. -/
def truncate_graph (g : AsciiGraph) (maxDepth maxBreadth : Option Int) :
    AsciiGraph :=
  if maxDepth = none ∧ maxBreadth = none then g
  else
    let node_ids := dedupFirst (g.nodes.map (fun n => n.id))
    let forward0 : List (String × List String) := node_ids.map (fun nid => (nid, []))
    let indeg0 : List (String × Int) := node_ids.map (fun nid => (nid, 0))
    let (forward, indeg) := g.edges.foldl (truncAdjStep node_ids) (forward0, indeg0)
    let roots := node_ids.filter (fun nid => aget indeg nid 0 = 0)
    let layers0 : List (String × Int) := node_ids.map (fun nid => (nid, 0))
    let layers :=
      if roots = [] then layers0
      else
        let fuel := indeg.foldl (fun (a : Nat) (p : String × Int) => a + p.2.toNat) 0
          + roots.length + 1
        truncKahn forward fuel layers0 indeg roots
    let keep0 :=
      match maxDepth with
      | some md => (layers.filter (fun p => p.2 ≤ md)).map (fun p => p.1)
      | none => node_ids
    let dtp0 :=
      match maxDepth with
      | some _ =>
        keep0.filter (fun nid => (aget forward nid []).any (fun c => c ∉ keep0))
      | none => []
    let (keep, brepl, dtp) :=
      match maxBreadth with
      | some mb =>
        if mb ≥ 1 then
          let maxLayer := layers.foldl (fun (a : Int) (p : String × Int) => max a p.2) 0
          let byLayer0 : List (List String) :=
            List.replicate (maxLayer.toNat + 1) []
          let byLayer := g.nodes.foldl
            (fun (acc : List (List String)) (n : AsciiNode) =>
              let li := (aget layers n.id 0).toNat
              acc.set li ((acc.getD li []) ++ [n.id]))
            byLayer0
          byLayer.enum.foldl (truncBreadthStep mb) (keep0, [], dtp0)
        else (keep0, [], dtp0)
      | none => (keep0, [], dtp0)
    let (resultNodes0, _) := truncateResultNodes maxDepth maxBreadth keep brepl g.nodes []
    let resultNodes :=
      if dtp ≠ [] then
        resultNodes0 ++ [AsciiNode.mk DEPTH_PLACEHOLDER_ID "..." "__truncated__" "" none]
      else resultNodes0
    let resultIds := resultNodes.map (fun n => n.id)
    let resultEdges := (g.edges.foldl
      (fun (st : List (String × String) × List AsciiEdge) (e : AsciiEdge) =>
        let (seen, acc) := st
        let src := (alookup brepl e.source).getD e.source
        let tgt0 := (alookup brepl e.target).getD e.target
        let tgt :=
          if src ∈ resultIds ∧ tgt0 ∉ resultIds ∧ src ∈ dtp then
            DEPTH_PLACEHOLDER_ID
          else tgt0
        if src ∉ resultIds ∨ tgt ∉ resultIds then st
        else if src = tgt then st
        else if (src, tgt) ∈ seen then st
        else
          let label := if src = e.source ∧ tgt = e.target then e.label else none
          (seen ++ [(src, tgt)], acc ++ [AsciiEdge.mk src tgt label]))
      ([], [])).2
    AsciiGraph.mk resultNodes resultEdges
termination_by sizeOf g
decreasing_by
  cases g with
  | mk ns es => simp [AsciiGraph.nodes]; omega

/-- Result-node construction loop of truncate.py truncate_graph: kept
nodes are emitted (recursing into non-empty subgraphs), breadth-removed
nodes are replaced by their per-layer placeholder exactly once. -/
def truncateResultNodes (maxDepth maxBreadth : Option Int)
    (keep : List String) (brepl : List (String × String)) :
    List AsciiNode → List String → List AsciiNode × List String
  | [], added => ([], added)
  | n :: rest, added =>
    if n.id ∈ keep then
      match hs : n.subgraph with
      | some sub =>
        match sub.nodes with
        | _ :: _ =>
          let subT := truncate_graph sub maxDepth maxBreadth
          let (tail, added2) := truncateResultNodes maxDepth maxBreadth keep brepl rest added
          (AsciiNode.mk n.id n.name n.type n.description (some subT) :: tail, added2)
        | [] =>
          let (tail, added2) := truncateResultNodes maxDepth maxBreadth keep brepl rest added
          (n :: tail, added2)
      | none =>
        let (tail, added2) := truncateResultNodes maxDepth maxBreadth keep brepl rest added
        (n :: tail, added2)
    else
      match alookup brepl n.id with
      | some pid =>
        if pid ∈ added then truncateResultNodes maxDepth maxBreadth keep brepl rest added
        else
          let (tail, added2) :=
            truncateResultNodes maxDepth maxBreadth keep brepl rest (added ++ [pid])
          (AsciiNode.mk pid "..." "__truncated__" "" none :: tail, added2)
      | none => truncateResultNodes maxDepth maxBreadth keep brepl rest added
termination_by ns added => sizeOf ns
decreasing_by
  all_goals simp
  all_goals try omega
  all_goals (have hlt := sizeOf_subgraph_lt n sub hs; omega)

end

/-! ## Canvas (canvas.py) -/

/-- ANSI reset escape (themes.py RESET). -/
def RESET : String := "\x1b[0m"

/-- Python range(a, b) as a list of integers. -/
def intRange (a b : Int) : List Int :=
  (List.range (b - a).toNat).map (fun (k : Nat) => a + (k : Int))

/-- Separator join, the Python sep.join(list). -/
def joinSep (sep : String) : List String → String
  | [] => ""
  | [x] => x
  | x :: y :: xs => x ++ sep ++ joinSep sep (y :: xs)

/-- The character canvas of canvas.py: a width×height grid of cells with
optional per-cell ANSI colors, plus the incrementally maintained
bounding box of non-space content (inclusive coordinates; an empty box
is represented by bbX1 = -1 exactly as in the source). -/
structure Canvas where
  width : Int
  height : Int
  cells : Int → Int → Char
  colors : Int → Int → Option String
  bbX0 : Int
  bbX1 : Int
  bbY0 : Int
  bbY1 : Int

/-- Fresh blank canvas (canvas.py Canvas.__init__). -/
def Canvas.init (width height : Int) : Canvas :=
  { width := width, height := height
    cells := fun _ _ => ' '
    colors := fun _ _ => none
    bbX0 := width, bbX1 := -1, bbY0 := height, bbY1 := -1 }

/-- Bounded cell read (canvas.py Canvas.get): spaces outside the grid. -/
def Canvas.get (c : Canvas) (x y : Int) : Char :=
  if 0 ≤ x ∧ x < c.width ∧ 0 ≤ y ∧ y < c.height then c.cells x y else ' '

/-- Visual size from the bounding box (canvas.py Canvas.visual_size). -/
def Canvas.visualSize (c : Canvas) : Int × Int :=
  if c.bbX1 < 0 then (0, 0) else (c.bbX1 + 1, c.bbY1 + 1)

/-- Raw single-cell write of the cell plane (a rows[y][x] assignment). -/
def Canvas.setCell (c : Canvas) (x y : Int) (ch : Char) : Canvas :=
  { c with cells := fun a b => if a = x ∧ b = y then ch else c.cells a b }

/-- Raw single-cell write of the color plane. -/
def Canvas.setColor (c : Canvas) (x y : Int) (col : Option String) : Canvas :=
  { c with colors := fun a b => if a = x ∧ b = y then col else c.colors a b }

/-- Bounding-box expansion by one point, the four independent updates of
canvas.py Canvas.put. -/
def Canvas.bbInclude (c : Canvas) (x y : Int) : Canvas :=
  { c with
    bbX0 := if x < c.bbX0 then x else c.bbX0
    bbX1 := if x > c.bbX1 then x else c.bbX1
    bbY0 := if y < c.bbY0 then y else c.bbY0
    bbY1 := if y > c.bbY1 then y else c.bbY1 }

/-- Single character write with clipping (canvas.py Canvas.put). -/
def Canvas.put (c : Canvas) (x y : Int) (ch : Char) (color : Option String) :
    Canvas :=
  if 0 ≤ x ∧ x < c.width ∧ 0 ≤ y ∧ y < c.height then
    let c1 := c.setCell x y ch
    let c2 := match color with
      | some col => c1.setColor x y (some col)
      | none => c1
    if ch ≠ ' ' then c2.bbInclude x y else c2
  else c

/-- Horizontal run write of characters (a rows[y][x0:x1] slice
assignment; the caller is responsible for clipping, as in the source). -/
def Canvas.writeRun (c : Canvas) (y x : Int) (cs : List Char) : Canvas :=
  { c with cells := fun a b =>
      if b = y ∧ x ≤ a ∧ a < x + (cs.length : Int) then
        cs.getD (a - x).toNat ' '
      else c.cells a b }

/-- Horizontal run write of one color (a colors[y][x0:x1] slice
assignment of [color] * n). -/
def Canvas.writeColorRun (c : Canvas) (y x len : Int) (col : Option String) :
    Canvas :=
  { c with colors := fun a b =>
      if b = y ∧ x ≤ a ∧ a < x + len then col else c.colors a b }

/-- Horizontal string write with clipping (canvas.py Canvas.puts). -/
def Canvas.putsStr (c : Canvas) (x y : Int) (text : String)
    (color : Option String) : Canvas :=
  if text = "" ∨ y < 0 ∨ y ≥ c.height then c
  else
    let start : Int := max 0 (-x)
    let stop : Int := min (text.length : Int) (c.width - x)
    if start ≥ stop then c
    else
      let x0 := x + start
      let x1idx := x + stop
      let n := stop - start
      let c1 := c.writeRun y x0 (((text.data.drop start.toNat).take n.toNat))
      let c2 := match color with
        | some col => c1.writeColorRun y x0 n (some col)
        | none => c1
      let x1 := x1idx - 1
      { c2 with
        bbX0 := if x0 < c2.bbX0 then x0 else c2.bbX0
        bbX1 := if x1 > c2.bbX1 then x1 else c2.bbX1
        bbY0 := if y < c2.bbY0 then y else c2.bbY0
        bbY1 := if y > c2.bbY1 then y else c2.bbY1 }

/-- Multi-line text paste (canvas.py Canvas.blit): every non-space
character of the block is put at its offset position. -/
def Canvas.blit (c : Canvas) (x y : Int) (block : String)
    (color : Option String) : Canvas :=
  ((pySplit '\n' block).enum).foldl
    (fun c1 p =>
      (p.2.data.enum).foldl
        (fun c2 q =>
          if q.2 ≠ ' ' then c2.put (x + (q.1 : Int)) (y + (p.1 : Int)) q.2 color
          else c2)
        c1)
    c

/-- Sub-canvas composition (canvas.py Canvas.blit_canvas): copy the
non-space cells (and their colors) of the source bounding box onto this
canvas at an offset, clipped to the destination grid, then widen the
bounding box by the (clamped) translated source box. -/
def Canvas.blitCanvas (c : Canvas) (src : Canvas) (x y : Int) : Canvas :=
  if src.bbX1 < 0 then c
  else
    let inCopy : Int → Int → Bool := fun a b =>
      decide (src.bbY0 ≤ b - y ∧ b - y ≤ src.bbY1 ∧ 0 ≤ b ∧ b < c.height ∧
        src.bbX0 ≤ a - x ∧ a - x ≤ src.bbX1 ∧ 0 ≤ a ∧ a < c.width ∧
        src.cells (a - x) (b - y) ≠ ' ')
    let c1 : Canvas :=
      { c with
        cells := fun a b =>
          if inCopy a b then src.cells (a - x) (b - y) else c.cells a b
        colors := fun a b =>
          if inCopy a b then src.colors (a - x) (b - y) else c.colors a b }
    let dx0 := x + src.bbX0
    let dx1 := x + src.bbX1
    let dy0 := y + src.bbY0
    let dy1 := y + src.bbY1
    { c1 with
      bbX0 := if dx0 < c.bbX0 then max 0 dx0 else c.bbX0
      bbX1 := if dx1 > c.bbX1 then min (c.width - 1) dx1 else c.bbX1
      bbY0 := if dy0 < c.bbY0 then max 0 dy0 else c.bbY0
      bbY1 := if dy1 > c.bbY1 then min (c.height - 1) dy1 else c.bbY1 }

/-! ### Canvas serialization (canvas.py Canvas.to_string) -/

/-- Backwards scan for the last non-space cell of a row, the while loop
of canvas.py Canvas.to_string. -/
def scanLast (rowAt : Int → Char) (i : Int) : Int :=
  if i < 0 then i
  else if rowAt i = ' ' then scanLast rowAt (i - 1)
  else i
termination_by (i + 1).toNat
decreasing_by omega

/-- Row prefix row[:last+1] as characters. -/
def Canvas.rowChars (c : Canvas) (y last : Int) : List Char :=
  (intRange 0 (last + 1)).map (fun a => c.cells a y)

/-- List slice as a string (the row_str[a:b] slices of to_string). -/
def sliceStr (l : List Char) (a b : Int) : String :=
  String.mk ((l.drop a.toNat).take (b - a).toNat)

/-- One step of the color-run grouping loop of to_string. -/
def colorRunStep (rowList : List Char) (colAt : Int → Option String)
    (st : List String × Option String × Int) (x : Int) :
    List String × Option String × Int :=
  let (parts, currentColor, runStart) := st
  let cellColor := colAt x
  if cellColor ≠ currentColor then
    let parts := if x > runStart then parts ++ [sliceStr rowList runStart x] else parts
    let parts := match currentColor with
      | some _ => parts ++ [RESET]
      | none => parts
    let parts := match cellColor with
      | some col => parts ++ [col]
      | none => parts
    (parts, cellColor, x)
  else st

/-- Colored rendering of one row prefix (the use_color branch of
to_string): contiguous runs of one color wrapped in color/reset pairs. -/
def colorRow (rowList : List Char) (colAt : Int → Option String)
    (stop : Int) : String :=
  let (parts, currentColor, runStart) :=
    (intRange 0 stop).foldl (colorRunStep rowList colAt) ([], none, 0)
  let parts := if stop > runStart then parts ++ [sliceStr rowList runStart stop] else parts
  let parts := match currentColor with
    | some _ => parts ++ [RESET]
    | none => parts
  joinSep "" parts

/-- Rendering of one canvas row inside to_string: scan back from the
bounding-box hint for the last non-space cell, then emit the plain or
colored row prefix; a blank row yields the empty line. -/
def Canvas.renderRow (c : Canvas) (useColor : Bool) (y : Int) : String :=
  let last0 := min c.bbX1 (c.width - 1)
  let last := scanLast (fun a => c.cells a y) last0
  if last < 0 then ""
  else if useColor then colorRow (c.rowChars y last) (fun a => c.colors a y) (last + 1)
  else String.mk (c.rowChars y last)

/-- Line list of to_string before joining: bounding-box rows rendered,
then fully blank leading and trailing lines trimmed. -/
def Canvas.toStringCore (c : Canvas) (useColor : Bool) : List String :=
  if c.bbX1 < 0 then []
  else
    let lines := (intRange c.bbY0 (c.bbY1 + 1)).map (c.renderRow useColor)
    ((lines.dropWhile (fun l => l = "")).reverse.dropWhile (fun l => l = "")).reverse

/-- Canvas serialization (canvas.py Canvas.to_string): trimmed lines
joined with newlines. -/
def Canvas.toStr (c : Canvas) (useColor : Bool) : String :=
  joinSep "\n" (c.toStringCore useColor)

/-! ### Boxes and drawing primitives (canvas.py) -/

/-- A positioned rectangle in character coordinates (canvas.py Box). -/
structure Box where
  x : Int
  y : Int
  w : Int
  h : Int
deriving DecidableEq, Repr

/-- Center x-coordinate (canvas.py Box.cx, floor division). -/
def Box.cx (b : Box) : Int := b.x + b.w / 2

/-- Top y-coordinate (canvas.py Box.top). -/
def Box.top (b : Box) : Int := b.y

/-- Bottom y-coordinate (canvas.py Box.bottom). -/
def Box.bottom (b : Box) : Int := b.y + b.h - 1

/-- Bordered box with centered text lines (canvas.py draw_box).  The
source writes rows directly without clipping; the embedding mirrors
those raw writes. -/
def drawBoxTop (canvas : Canvas) (box : Box) (useUnicode : Bool)
    (typeLabel : Option String) (borderColor typeColor : Option String) :
    Canvas :=
  let ch := chars useUnicode
  let x := box.x
  let y := box.y
  let w := box.w
  let inner := w - 2
  let plainTop : Canvas :=
    let topChars := [ch.tl] ++ List.replicate inner.toNat ch.h ++ [ch.tr]
    let ca := canvas.writeRun y x topChars
    match borderColor with
    | some bc => ca.writeColorRun y x w (some bc)
    | none => ca
  match typeLabel with
  | some lbl =>
    if lbl ≠ "" ∧ (lbl.length : Int) + 2 ≤ inner then
      let fill := inner - (lbl.length : Int) - 2
      let topChars := [ch.tl, ' '] ++ lbl.data ++ [' ']
        ++ List.replicate fill.toNat ch.h ++ [ch.tr]
      let ca := canvas.writeRun y x topChars
      let cb := match borderColor with
        | some bc => ca.writeColorRun y x w (some bc)
        | none => ca
      let tc := match typeColor with
        | some t => if t ≠ "" then some t else borderColor
        | none => borderColor
      match tc with
      | some t => cb.writeColorRun y (x + 2) (lbl.length : Int) (some t)
      | none => cb
    else plainTop
  | none => plainTop

/-- One content row of draw_box: border cells at both sides, then the
centered text written raw at tx0 = x + 1 + (inner - len) // 2. -/
def drawBoxContentStep (box : Box) (useUnicode : Bool)
    (borderColor textColor : Option String) (cc : Canvas)
    (p : Nat × String) : Canvas :=
  let ch := chars useUnicode
  let x := box.x
  let xRight := box.x + box.w - 1
  let inner := box.w - 2
  let rowY := box.y + 1 + (p.1 : Int)
  let text := p.2
  let ca := (cc.setCell x rowY ch.v).setCell xRight rowY ch.v
  let padTotal := inner - (text.length : Int)
  let padL := padTotal / 2
  let tx0 := x + 1 + padL
  let cb := ca.writeRun rowY tx0 text.data
  let ccol := match borderColor with
    | some bc => (cb.setColor x rowY (some bc)).setColor xRight rowY (some bc)
    | none => cb
  match textColor with
  | some t => ccol.writeColorRun rowY tx0 (text.length : Int) (some t)
  | none => ccol

/-- One filler row of draw_box between content and bottom border. -/
def drawBoxFillStep (box : Box) (useUnicode : Bool)
    (borderColor : Option String) (cc : Canvas) (ry : Int) : Canvas :=
  let chV := (chars useUnicode).v
  let x := box.x
  let xRight := box.x + box.w - 1
  let ca := (cc.setCell x ry chV).setCell xRight ry chV
  match borderColor with
  | some bc => (ca.setColor x ry (some bc)).setColor xRight ry (some bc)
  | none => ca

/-- Bottom border of draw_box. -/
def drawBoxBottom (cc : Canvas) (box : Box) (useUnicode : Bool)
    (borderColor : Option String) : Canvas :=
  let ch := chars useUnicode
  let x := box.x
  let w := box.w
  let inner := w - 2
  let botY := box.y + box.h - 1
  let botChars := [ch.bl] ++ List.replicate inner.toNat ch.h ++ [ch.br]
  let c4 := cc.writeRun botY x botChars
  match borderColor with
  | some bc => c4.writeColorRun botY x w (some bc)
  | none => c4

/-- The final once-per-box bounding-box widening of draw_box (and the
same four-conditional shape used by every other drawing routine). -/
def bbExpand (cc : Canvas) (dx0 dx1 dy0 dy1 : Int) : Canvas :=
  { cc with
    bbX0 := if dx0 < cc.bbX0 then dx0 else cc.bbX0
    bbX1 := if dx1 > cc.bbX1 then dx1 else cc.bbX1
    bbY0 := if dy0 < cc.bbY0 then dy0 else cc.bbY0
    bbY1 := if dy1 > cc.bbY1 then dy1 else cc.bbY1 }

def draw_box (canvas : Canvas) (box : Box) (lines : List String)
    (useUnicode : Bool) (typeLabel : Option String)
    (borderColor textColor typeColor : Option String) : Canvas :=
  let c1 := drawBoxTop canvas box useUnicode typeLabel borderColor typeColor
  let c2 := lines.enum.foldl
    (drawBoxContentStep box useUnicode borderColor textColor) c1
  let c3 := (intRange (box.y + 1 + (lines.length : Int))
      (box.y + box.h - 1)).foldl
    (drawBoxFillStep box useUnicode borderColor) c2
  let c4 := drawBoxBottom c3 box useUnicode borderColor
  bbExpand c4 box.x (box.x + box.w - 1) box.y (box.y + box.h - 1)

/-- Horizontal line (canvas.py draw_hline). -/
def draw_hline (canvas : Canvas) (x1 x2 y : Int) (useUnicode : Bool)
    (color : Option String) : Canvas :=
  let ch := chars useUnicode
  let start := min x1 x2
  let stop := max x1 x2
  canvas.putsStr start y (String.mk (List.replicate (stop - start + 1).toNat ch.h))
    color

/-- Vertical line with clipping (canvas.py draw_vline). -/
def draw_vline (canvas : Canvas) (x y1 y2 : Int) (useUnicode : Bool)
    (color : Option String) : Canvas :=
  if x < 0 ∨ x ≥ canvas.width then canvas
  else
    let chV := (chars useUnicode).v
    let start := max (min y1 y2) 0
    let stop := min (max y1 y2) (canvas.height - 1)
    if start > stop then canvas
    else
      let c1 : Canvas := { canvas with
        cells := fun a b =>
          if a = x ∧ start ≤ b ∧ b ≤ stop then chV else canvas.cells a b }
      let c2 : Canvas := match color with
        | some col =>
          { c1 with colors := fun a b =>
              if a = x ∧ start ≤ b ∧ b ≤ stop then some col else c1.colors a b }
        | none => c1
      { c2 with
        bbX0 := if x < c2.bbX0 then x else c2.bbX0
        bbX1 := if x > c2.bbX1 then x else c2.bbX1
        bbY0 := if start < c2.bbY0 then start else c2.bbY0
        bbY1 := if stop > c2.bbY1 then stop else c2.bbY1 }

/-! ## Layout engine (layout.py) -/

/-- Stable insertion: x is placed after every element it does not
strictly precede, matching the stability of Python list.sort. -/
def insertLe {α : Type} (le : α → α → Bool) (x : α) : List α → List α
  | [] => [x]
  | y :: ys => if le y x then y :: insertLe le x ys else x :: y :: ys

/-- Stable sort (models Python sorted / list.sort, which are stable). -/
def sortStable {α : Type} (le : α → α → Bool) (l : List α) : List α :=
  l.foldl (fun acc x => insertLe le x acc) []

/-- Stable sort of node ids by a rational key. -/
def sortByKey (key : String → Rat) (l : List String) : List String :=
  sortStable (fun a b => key a ≤ key b) l

/-- Python int() conversion of a float: truncation toward zero. -/
def pyTrunc (q : Rat) : Int := Int.tdiv q.num (q.den : Int)

/-- Minimum of a list of integers (Python min over a non-empty dict
value view; the default for the empty list is never reached on the
calls made by layout). -/
def listMin : List Int → Int
  | [] => 0
  | x :: xs => xs.foldl min x

/-- Maximum of a list of integers (Python max, same convention). -/
def listMax : List Int → Int
  | [] => 0
  | x :: xs => xs.foldl max x

/-- Adjacency construction of layout.py layout: one forward and one
reverse adjacency list per node; edges with a missing endpoint or equal
endpoints (self-loops) are skipped. -/
def layoutAdj (node_ids : List String) (edges : List AsciiEdge) :
    List (String × List String) × List (String × List String) :=
  let children0 := node_ids.map (fun nid => (nid, ([] : List String)))
  let parents0 := node_ids.map (fun nid => (nid, ([] : List String)))
  edges.foldl
    (fun (st : List (String × List String) × List (String × List String)) e =>
      let (children, parents) := st
      if e.source ∈ node_ids ∧ e.target ∈ node_ids ∧ e.source ≠ e.target then
        (aset children e.source (aget children e.source [] ++ [e.target]),
         aset parents e.target (aget parents e.target [] ++ [e.source]))
      else st)
    (children0, parents0)

/-! ### Connected components (layout.py _find_components) -/

/-- Neighbor expansion of the BFS: mark unvisited neighbors visited and
enqueue them (children first, then parents, in list order). -/
def bfsNeighbors (st : List String × List String) (nbs : List String) :
    List String × List String :=
  nbs.foldl
    (fun (st2 : List String × List String) nb =>
      let (visited, queue) := st2
      if nb ∈ visited then st2 else (visited ++ [nb], queue ++ [nb]))
    st

/-- Fuelled BFS queue loop of one component.  Returns the visited set
and the component in pop order. -/
def bfsLoop (children parents : List (String × List String)) :
    Nat → List String → List String → List String → List String × List String
  | 0, visited, _, comp => (visited, comp)
  | _ + 1, visited, [], comp => (visited, comp)
  | fuel + 1, visited, cur :: rest, comp =>
    let (v1, q1) :=
      bfsNeighbors (visited, rest) (aget children cur [] ++ aget parents cur [])
    bfsLoop children parents fuel v1 q1 (comp ++ [cur])

/-- Fuel for one BFS run: one unit per possible push (every pushed id is
newly visited and comes from the start node or an adjacency value). -/
def bfsFuel (node_ids : List String)
    (children parents : List (String × List String)) : Nat :=
  node_ids.length
    + children.foldr (fun p acc => p.2.length + acc) 0
    + parents.foldr (fun p acc => p.2.length + acc) 0
    + 2

/-- Component discovery (layout.py _find_components): BFS from each
unvisited node over the undirected adjacency. -/
def findComponents (node_ids : List String)
    (children parents : List (String × List String)) : List (List String) :=
  (node_ids.foldl
    (fun (st : List String × List (List String)) nid =>
      let (visited, components) := st
      if nid ∈ visited then st
      else
        let (v2, comp) :=
          bfsLoop children parents (bfsFuel node_ids children parents)
            (visited ++ [nid]) [nid] []
        (v2, components ++ [comp]))
    ([], [])).2

/-! ### Cycle breaking (layout.py _break_cycles) -/

/-- Removal of the first occurrence (Python list.remove). -/
def removeFirst : List String → String → List String
  | [], _ => []
  | x :: xs, v => if x = v then xs else x :: removeFirst xs v

/-- Mutable state of the cycle-breaking DFS: the three-color map
(0 white, 1 gray, 2 black), both adjacency maps, and the reversed
back-edge list. -/
structure DfsState where
  color : List (String × Int)
  children : List (String × List String)
  parents : List (String × List String)
  reversedEdges : List (String × String)

mutual

/-- DFS visit of layout.py _break_cycles: color the node gray, process a
snapshot of its child list, then color it black.  The fuel bounds the
visit depth; callers pass more fuel than there are white nodes. -/
def dfsVisit : Nat → DfsState → String → DfsState
  | 0, st, _ => st
  | fuel + 1, st, u =>
    let st1 := { st with color := aset st.color u 1 }
    let st2 := dfsChildren fuel st1 u (aget st1.children u [])
    { st2 with color := aset st2.color u 2 }
termination_by fuel st u => (fuel, 0)

/-- Child-snapshot loop of the DFS: a gray child is a back edge and the
edge is reversed in both adjacency maps; a white child is visited
recursively; a black child is skipped. -/
def dfsChildren : Nat → DfsState → String → List String → DfsState
  | _, st, _, [] => st
  | fuel, st, u, v :: rest =>
    let cv := aget st.color v 0
    if cv = 1 then
      let st1 := { st with
        children := aset st.children u (removeFirst (aget st.children u []) v)
        parents := aset st.parents v (removeFirst (aget st.parents v []) u) }
      let st2 := { st1 with
        children := aset st1.children v (aget st1.children v [] ++ [u])
        parents := aset st1.parents u (aget st1.parents u [] ++ [v])
        reversedEdges := st1.reversedEdges ++ [(u, v)] }
      dfsChildren fuel st2 u rest
    else if cv = 0 then
      let st1 := dfsVisit fuel st v
      dfsChildren fuel st1 u rest
    else dfsChildren fuel st u rest
termination_by fuel st u snapshot => (fuel, snapshot.length + 1)

end

/-- Cycle breaking (layout.py _break_cycles): DFS from every white node
in order, reversing back edges in place. -/
def break_cycles (node_ids : List String)
    (children parents : List (String × List String)) : DfsState :=
  let st0 : DfsState :=
    { color := node_ids.map (fun nid => (nid, 0))
      children := children, parents := parents, reversedEdges := [] }
  node_ids.foldl
    (fun st nid =>
      if aget st.color nid 0 = 0 then dfsVisit (node_ids.length + 1) st nid
      else st)
    st0

/-! ### Layer assignment (layout.py _assign_layers) -/

/-- Child-processing step of the Kahn loop: raise the child layer to the
parent layer + 1 when larger, decrement the in-degree, enqueue at 0. -/
def kahnChildStep (u : String)
    (st : List (String × Int) × List (String × Int) × List String)
    (v : String) :
    List (String × Int) × List (String × Int) × List String :=
  let (layerOf, indeg, queue) := st
  let newL := max (aget layerOf v 0) (aget layerOf u 0 + 1)
  let layerOf2 := aset layerOf v newL
  let indeg2 := aset indeg v (aget indeg v 0 - 1)
  let queue2 := if aget indeg2 v 0 = 0 then queue ++ [v] else queue
  (layerOf2, indeg2, queue2)

/-- Fuelled Kahn topological loop of layout.py _assign_layers.  Returns
the layer map and the topological visit order. -/
def kahnLoop (children : List (String × List String)) :
    Nat → List (String × Int) → List String → List (String × Int) →
    List String → List (String × Int) × List String
  | 0, layerOf, topo, _, _ => (layerOf, topo)
  | _ + 1, layerOf, topo, _, [] => (layerOf, topo)
  | fuel + 1, layerOf, topo, indeg, u :: rest =>
    let (lo2, indeg2, q2) :=
      (aget children u []).foldl (kahnChildStep u) (layerOf, indeg, rest)
    kahnLoop children fuel lo2 (topo ++ [u]) indeg2 q2

/-- Layer assignment (layout.py _assign_layers): Kahn topological sort
computing longest-path layers, leftover nodes repaired to layer 0, then
nodes grouped by layer in topological order. -/
def assign_layers (node_ids : List String)
    (children parents : List (String × List String)) : List (List String) :=
  let indeg := node_ids.map (fun nid => (nid, ((aget parents nid []).length : Int)))
  let queue0 := node_ids.filter (fun nid => aget indeg nid 0 = 0)
  let layer0 := queue0.map (fun nid => (nid, (0 : Int)))
  let fuel := node_ids.length
    + indeg.foldl (fun (a : Nat) p => a + p.2.toNat) 0 + 1
  let (layerOf, topo) := kahnLoop children fuel layer0 [] indeg queue0
  let (layerOf2, topo2) := node_ids.foldl
    (fun (st : List (String × Int) × List String) nid =>
      let (lo, tp) := st
      if (alookup lo nid).isNone then (aset lo nid 0, tp ++ [nid]) else st)
    (layerOf, topo)
  let maxLayer := layerOf2.foldl (fun (a : Int) p => max a p.2) 0
  let layers0 : List (List String) := List.replicate (maxLayer.toNat + 1) []
  topo2.foldl
    (fun ls nid =>
      let li := (aget layerOf2 nid 0).toNat
      ls.set li (ls.getD li [] ++ [nid]))
    layers0

/-! ### Crossing minimisation (layout.py _minimise_crossings) -/

/-- Mean position of the neighbors present in the adjacent layer, or 0
(the barycenter value of _minimise_crossings). -/
def baryOf (pmap : List (String × Int)) (nbrs : List String) : Rat :=
  let ps := nbrs.filterMap (fun p => alookup pmap p)
  match ps with
  | [] => 0
  | _ :: _ => ((ps.foldl (fun a b => a + b) 0 : Int) : Rat) / (ps.length : Rat)

/-- Position map of a layer (the pos_map helper). -/
def posMap (layer : List String) : List (String × Int) :=
  layer.enum.map (fun p => (p.2, (p.1 : Int)))

/-- One barycenter re-sort of layer i against the fixed adjacent layer
(parents for a down pass, children for an up pass). -/
def baryPassStep (adj : List (String × List String))
    (ls : List (List String)) (i adjIdx : Nat) : List (List String) :=
  let pmap := posMap (ls.getD adjIdx [])
  let layer := ls.getD i []
  let bary := layer.map (fun nid => (nid, baryOf pmap (aget adj nid [])))
  let sorted := sortByKey
    (fun nid => ((alookup bary nid).getD 0)) layer
  ls.set i sorted

/-- Crossing minimisation (layout.py _minimise_crossings): three-pass
barycenter heuristic, down then up then down, each pass re-sorting a
layer by the mean position of its neighbors in the already-ordered
adjacent layer. -/
def minimise_crossings (children parents : List (String × List String))
    (layers : List (List String)) : List (List String) :=
  if layers.length ≤ 1 then layers
  else
    let down := fun (ls : List (List String)) =>
      ((List.range ls.length).drop 1).foldl
        (fun ls2 i => baryPassStep parents ls2 i (i - 1)) ls
    let up := fun (ls : List (List String)) =>
      ((List.range (ls.length - 1)).reverse).foldl
        (fun ls2 i => baryPassStep children ls2 i (i + 1)) ls
    down (up (down layers))

/-! ### Coordinate assignment (layout.py _assign_coordinates) -/

/-- Phase 1 of _assign_coordinates: initial left-to-right placement of
one layer with accumulated widths (x positions and rational centers). -/
def phase1Layer (node_sizes : String → Int × Int) (xspace : Int)
    (layer : List String) : List (String × Int) × List (String × Rat) :=
  let st := layer.foldl
    (fun (st : List (String × Int) × List (String × Rat) × Int) nid =>
      let (xs, cs, cx) := st
      let w := (node_sizes nid).1
      (xs ++ [(nid, cx)], cs ++ [(nid, (cx : Rat) + (w : Rat) / 2)],
       cx + w + xspace))
    ([], [], 0)
  (st.1, st.2.1)

/-- Phase 2 packing of one layer in desired order: each node is placed
at the truncated ideal position or flush after the previous node. -/
def phase2Pack (node_sizes : String → Int × Int) (xspace : Int)
    (desired : List (String × Rat)) (order : List String) :
    List (String × Int) × List (String × Rat) :=
  let st := order.foldl
    (fun (st : List (String × Int) × List (String × Rat) × Int) nid =>
      let (nx, ncs, cx) := st
      let w := (node_sizes nid).1
      let idealX := pyTrunc ((aget desired nid 0) - (w : Rat) / 2)
      let x := max idealX cx
      (nx ++ [(nid, x)], ncs ++ [(nid, (x : Rat) + (w : Rat) / 2)],
       x + w + xspace))
    ([], [], 0)
  (st.1, st.2.1)

/-- Phase 2 of _assign_coordinates for one layer index: desired centers
from parent means, stable re-sort by desired center, packing with
overlap prevention, then a block shift toward the average desired
center (clamped so no x goes below zero). -/
def phase2Step (node_sizes : String → Int × Int)
    (parents : List (String × List String)) (xspace : Int)
    (st : List (List String) × List (List (String × Int)) × List (List (String × Rat)))
    (li : Nat) :
    List (List String) × List (List (String × Int)) × List (List (String × Rat)) :=
  let (layers, layerX, layerCenters) := st
  let prevLayer := layers.getD (li - 1) []
  let prevCenters := layerCenters.getD (li - 1) []
  let layer := layers.getD li []
  let desired := layer.map
    (fun nid =>
      let parentCx := (aget parents nid []).filterMap
        (fun p => if p ∈ prevLayer then alookup prevCenters p else none)
      match parentCx with
      | [] => (nid, aget (layerCenters.getD li []) nid 0)
      | _ :: _ =>
        (nid, (parentCx.foldl (fun a b => a + b) 0) / (parentCx.length : Rat)))
  let order := sortByKey (fun nid => aget desired nid 0) layer
  let (newX0, newCenters0) := phase2Pack node_sizes xspace desired order
  let (newX, newCenters) :=
    match order with
    | [] => (newX0, newCenters0)
    | [_] => (newX0, newCenters0)
    | first :: _ :: _ =>
      let last := order.getLastD first
      let avgDesired := (order.foldl (fun a nid => a + aget desired nid 0) 0)
        / (order.length : Rat)
      let actualCenter : Rat :=
        ((aget newX0 first 0 : Int) + (aget newX0 last 0 : Int)
          + ((node_sizes last).1) : Int) / (2 : Rat)
      let shift0 := pyTrunc (avgDesired - actualCenter)
      let minXVal := listMin (newX0.map (fun p => p.2))
      let shift := if shift0 < 0 then max shift0 (-minXVal) else shift0
      if shift ≠ 0 then
        (newX0.map (fun p => (p.1, p.2 + shift)),
         newCenters0.map (fun p => (p.1, p.2 + (shift : Rat))))
      else (newX0, newCenters0)
  (layers.set li order, layerX.set li newX, layerCenters.set li newCenters)

/-- Phase 3 step of _assign_coordinates (bottom-up, single-node layers
only): recenter the lone node over its children in the next layer. -/
def phase3Step (node_sizes : String → Int × Int)
    (children : List (String × List String))
    (layers : List (List String))
    (st : List (List (String × Int)) × List (List (String × Rat)))
    (li : Nat) :
    List (List (String × Int)) × List (List (String × Rat)) :=
  let (layerX, layerCenters) := st
  match layers.getD li [] with
  | [nid] =>
    let nextLayer := layers.getD (li + 1) []
    let childCx := (aget children nid []).filterMap
      (fun c => if c ∈ nextLayer then alookup (layerCenters.getD (li + 1) []) c
                else none)
    match childCx with
    | [] => st
    | _ :: _ =>
      let desiredCenter := (childCx.foldl (fun a b => a + b) 0) / (childCx.length : Rat)
      let w := (node_sizes nid).1
      let x := max (pyTrunc (desiredCenter - (w : Rat) / 2)) 0
      (layerX.set li [(nid, x)],
       layerCenters.set li [(nid, (x : Rat) + (w : Rat) / 2)])
  | _ => st

/-- Phase 4 step of _assign_coordinates (top-down, single-node layers
only): recenter the lone node under its parents in the previous layer. -/
def phase4Step (node_sizes : String → Int × Int)
    (parents : List (String × List String))
    (layers : List (List String))
    (st : List (List (String × Int)) × List (List (String × Rat)))
    (li : Nat) :
    List (List (String × Int)) × List (List (String × Rat)) :=
  let (layerX, layerCenters) := st
  match layers.getD li [] with
  | [nid] =>
    let prevLayer := layers.getD (li - 1) []
    let parentCx := (aget parents nid []).filterMap
      (fun p => if p ∈ prevLayer then alookup (layerCenters.getD (li - 1) []) p
                else none)
    match parentCx with
    | [] => st
    | _ :: _ =>
      let desiredCenter := (parentCx.foldl (fun a b => a + b) 0) / (parentCx.length : Rat)
      let w := (node_sizes nid).1
      let x := max (pyTrunc (desiredCenter - (w : Rat) / 2)) 0
      (layerX.set li [(nid, x)],
       layerCenters.set li [(nid, (x : Rat) + (w : Rat) / 2)])
  | _ => st

/-- Coordinate assignment (layout.py _assign_coordinates): size-aware
left-to-right placement, parent-centered packing with overlap
prevention, two single-node bottom-up passes, one single-node top-down
pass, then cumulative y placement per layer. -/
def assign_coordinates (layers0 : List (List String))
    (node_sizes : String → Int × Int)
    (children parents : List (String × List String))
    (xspace yspace : Int) : List (String × Box) :=
  let phase1 := layers0.map (phase1Layer node_sizes xspace)
  let layerX0 := phase1.map (fun p => p.1)
  let layerCenters0 := phase1.map (fun p => p.2)
  let (layers, layerX1, layerCenters1) :=
    ((List.range layers0.length).drop 1).foldl
      (phase2Step node_sizes parents xspace) (layers0, layerX0, layerCenters0)
  let (layerX2, layerCenters2) :=
    (List.range 2).foldl
      (fun st _ =>
        ((List.range (layers.length - 1)).reverse).foldl
          (phase3Step node_sizes children layers) st)
      (layerX1, layerCenters1)
  let (layerX3, _) :=
    ((List.range layers.length).drop 1).foldl
      (phase4Step node_sizes parents layers) (layerX2, layerCenters2)
  (layers.enum.foldl
    (fun (st : List (String × Box) × Int) p =>
      let (boxes, y) := st
      let (li, layer) := p
      let maxH := layer.foldl
        (fun mh nid => max mh (node_sizes nid).2) 0
      let boxes2 := layer.foldl
        (fun bs nid =>
          let wh := node_sizes nid
          aset bs nid (Box.mk (aget (layerX3.getD li []) nid 0) y wh.1 wh.2))
        boxes
      (boxes2, y + maxH + yspace))
    ([], 0)).1

/-- General branch of layout.py layout (two or more nodes, or none):
per-component pipeline and final normalisation.  The node list enters
only through its id list. -/
def layoutGeneral (nodes : List AsciiNode) (edges : List AsciiEdge)
    (node_sizes : String → Int × Int) (padding : Int) : List (String × Box) :=
  let node_ids := nodes.map (fun n => n.id)
  let (children, parents) := layoutAdj node_ids edges
  let components := findComponents node_ids children parents
  let all_boxes := (components.foldl
    (fun (st : List (String × Box) × Int) comp_ids =>
      let (allBoxes, xOffset) := st
      let compChildren := comp_ids.map (fun nid => (nid, aget children nid []))
      let compParents := comp_ids.map (fun nid => (nid, aget parents nid []))
      let stD := break_cycles comp_ids compChildren compParents
      let layers := assign_layers comp_ids stD.children stD.parents
      let layers2 := minimise_crossings stD.children stD.parents layers
      let boxes := assign_coordinates layers2 node_sizes stD.children stD.parents 4 2
      let boxes2 :=
        if xOffset > 0 then
          let minX := listMin (boxes.map (fun p => p.2.x))
          let shift := xOffset - minX + 4
          boxes.map (fun p => (p.1, Box.mk (p.2.x + shift) p.2.y p.2.w p.2.h))
        else boxes
      let maxX := listMax (boxes2.map (fun p => p.2.x + p.2.w))
      (boxes2.foldl (fun m p => aset m p.1 p.2) allBoxes, maxX))
    ([], 0)).1
  let minX := listMin (all_boxes.map (fun p => p.2.x))
  let minY := listMin (all_boxes.map (fun p => p.2.y))
  let dx := padding - minX
  let dy := padding - minY
  all_boxes.map (fun p => (p.1, Box.mk (p.2.x + dx) (p.2.y + dy) p.2.w p.2.h))

/-- Box layout for a node/edge list (layout.py layout): a single node is
placed directly at the padding and skips the graph algorithms; any
other node list goes through the general per-component pipeline. -/
def layout : List AsciiNode → List AsciiEdge → (String → Int × Int) → Int →
    List (String × Box)
  | [n], _, node_sizes, padding =>
    let wh := node_sizes n.id
    [(n.id, Box.mk padding padding wh.1 wh.2)]
  | [], edges, node_sizes, padding => layoutGeneral [] edges node_sizes padding
  | n1 :: n2 :: rest, edges, node_sizes, padding =>
    layoutGeneral (n1 :: n2 :: rest) edges node_sizes padding

/-! ## Themes (themes.py) -/

/-- Visual style of a node type (themes.py NodeStyle); empty strings
mean no color, as in the source defaults. -/
structure NodeStyle where
  border : String
  text : String
  type_label : String
deriving DecidableEq, Repr

/-- The FNV-1a string hash of themes.py _stable_hash (32-bit). -/
def stable_hash (s : String) : Nat :=
  s.data.foldl (fun h c => ((h ^^^ c.toNat) * 16777619) % 4294967296) 2166136261

/-- A color theme (themes.py Theme). -/
structure Theme where
  name : String
  palette : List NodeStyle
  default_style : NodeStyle
  edge : String
  edge_label : String
deriving DecidableEq, Repr

/-- Style lookup (themes.py Theme.get_style): hash-indexed palette entry,
or the default style for an empty type or empty palette. -/
def Theme.get_style (t : Theme) (node_type : String) : NodeStyle :=
  if node_type = "" ∨ t.palette = [] then t.default_style
  else t.palette.getD (stable_hash node_type % t.palette.length) t.default_style

/-- The colorless default theme (themes.py DEFAULT). -/
def DEFAULT : Theme :=
  { name := "default", palette := [], default_style := ⟨"", "", ""⟩
    edge := "", edge_label := "" }

/-! ## Renderer (renderer.py) -/

/-- Rendering options (renderer.py RenderOptions). -/
structure RenderOptions where
  use_unicode : Bool := true
  show_types : Bool := true
  padding : Int := 2
  theme : Theme := DEFAULT
  max_width : Option Int := none
deriving DecidableEq, Repr

/-- Structural node types whose border label is hidden (renderer.py
_HIDDEN_TYPE_LABELS). -/
def HIDDEN_TYPE_LABELS : List String := ["__start__", "__end__"]

/-- Border type label (renderer.py _type_label). -/
def type_label_of (node_type : String) (show_types : Bool) : Option String :=
  if ¬ show_types then none
  else if node_type ∈ HIDDEN_TYPE_LABELS then none
  else some node_type

/-- Python truthiness of an optional string (used for "x or None" and
"if x:" patterns on optional color and label strings). -/
def optStr (s : String) : Option String := if s ≠ "" then some s else none

/-- Optional-string truthiness test. -/
def optTruthy : Option String → Bool
  | some s => s ≠ ""
  | none => false

/-! ### Edge corridors (renderer.py) -/

/-- Lexicographic comparison of integer pairs, matching Python tuple
ordering for intervals.sort(). -/
def pairLe (a b : Int × Int) : Bool :=
  a.1 < b.1 ∨ (a.1 = b.1 ∧ a.2 ≤ b.2)

/-- Sorted x-intervals of the boxes (excluding the edge endpoints)
overlapping one row (renderer.py _x_intervals_at_y). -/
def x_intervals_at_y (y : Int) (boxes : List (String × Box)) (src tgt : Box) :
    List (Int × Int) :=
  let intervals := boxes.filterMap
    (fun p =>
      let b := p.2
      if ¬ (b = src ∨ b = tgt) ∧ b.y ≤ y ∧ y < b.y + b.h then
        some (b.x, b.x + b.w)
      else none)
  sortStable pairLe intervals

/-- Membership in the pre-sorted interval list with early exit
(renderer.py _x_in_intervals). -/
def x_in_intervals (x : Int) : List (Int × Int) → Bool
  | [] => false
  | (x0, x1) :: rest =>
    if x0 > x then false
    else if x0 ≤ x ∧ x < x1 then true
    else x_in_intervals x rest

/-- Backward-edge corridor computation (renderer.py
_backward_edge_corridors).  The Python dict from edge index to route x
is modelled as a list of optional routes parallel to the edge list;
the second component is the extra right margin. -/
def backward_edge_corridors (edges : List AsciiEdge)
    (boxes : List (String × Box)) : List (Option Int) × Int :=
  let globalMaxRight := listMax (boxes.map (fun p => p.2.x + p.2.w))
  let corr := (edges.foldl
    (fun (st : List (Option Int) × Nat) e =>
      let (acc, slot) := st
      match alookup boxes e.source, alookup boxes e.target with
      | some src, some tgt =>
        if tgt.bottom < src.top then
          let srcMidY := src.y + src.h / 2
          let tgtMidY := tgt.y + tgt.h / 2
          let yMin := min srcMidY tgtMidY
          let yMax := max srcMidY tgtMidY
          let localMaxRight := boxes.foldl
            (fun m p =>
              let b := p.2
              if b.y < yMax ∧ b.y + b.h > yMin then max m (b.x + b.w) else m)
            0
          (acc ++ [some (localMaxRight + 3 + (slot : Int) * 3)], slot + 1)
        else (acc ++ [none], slot)
      | _, _ => (acc ++ [none], slot))
    ([], 0)).1
  match corr.filterMap id with
  | [] => (corr, 0)
  | v :: vs =>
    let maxRouteX := vs.foldl max v
    let maxLabelW := (edges.zip corr).foldl
      (fun m p =>
        match p.2 with
        | some _ =>
          match p.1.label with
          | some lbl => if lbl ≠ "" then max m ((lbl.length : Int) + 2) else m
          | none => m
        | none => m)
      0
    (corr, max 0 (maxRouteX + maxLabelW - globalMaxRight + 3))

/-- Forward skip-layer corridor computation (renderer.py
_forward_skip_corridors): near-straight forward edges whose vertical at
the target center would pass through an intermediate box are routed
through a right-side corridor. -/
def forward_skip_corridors (edges : List AsciiEdge)
    (boxes : List (String × Box)) (minRouteX : Int) :
    List (Option Int) × Int :=
  let globalMaxRight := listMax (boxes.map (fun p => p.2.x + p.2.w))
  let corr := (edges.foldl
    (fun (st : List (Option Int) × Nat) e =>
      let (acc, slot) := st
      match alookup boxes e.source, alookup boxes e.target with
      | some src, some tgt =>
        if src.bottom ≥ tgt.top then (acc ++ [none], slot)
        else if |src.cx - tgt.cx| > STRAIGHT_TOLERANCE then (acc ++ [none], slot)
        else
          let edgeX := tgt.cx
          let srcBottom := src.bottom
          let tgtTop := tgt.top
          let scan := boxes.foldl
            (fun (cl : Bool × Int) p =>
              let b := p.2
              if b = src ∨ b = tgt then cl
              else
                let bBottom := b.y + b.h
                if bBottom ≤ srcBottom ∨ b.y ≥ tgtTop then cl
                else
                  let bRight := b.x + b.w
                  let collides := cl.1 ∨ (b.x ≤ edgeX ∧ edgeX < bRight)
                  let localMax := if bRight > cl.2 then bRight else cl.2
                  (collides, localMax))
            (false, 0)
          if scan.1 then
            (acc ++ [some (max (scan.2 + 3) minRouteX + (slot : Int) * 3)], slot + 1)
          else (acc ++ [none], slot)
      | _, _ => (acc ++ [none], slot))
    ([], 0)).1
  match corr.filterMap id with
  | [] => (corr, 0)
  | v :: vs =>
    let maxRouteX := vs.foldl max v
    let maxLabelW := (edges.zip corr).foldl
      (fun m p =>
        match p.2 with
        | some _ =>
          match p.1.label with
          | some lbl => if lbl ≠ "" ∧ (lbl.length : Int) + 2 > m then (lbl.length : Int) + 2 else m
          | none => m
        | none => m)
      0
    (corr, max 0 (maxRouteX + maxLabelW - globalMaxRight + 3))

/-! ### Edge drawing (renderer.py) -/

/-- Optional label write: the Python "if label: canvas.puts(x, y, label,
label_color)" pattern of the edge-drawing code (empty or absent labels
write nothing). -/
def labelPuts (c : Canvas) (x y : Int) (label : Option String)
    (lc : Option String) : Canvas :=
  match label with
  | some lbl => if lbl ≠ "" then c.putsStr x y lbl lc else c
  | none => c

/-- Raw vertical run of cells rows[y][x] for y in [y1, y2) with optional
colors, matching the direct row writes of the edge-drawing code (which
deliberately bypass the bounding-box update). -/
def vertRawRun (c : Canvas) (x y1 y2 : Int) (ch : Char)
    (color : Option String) : Canvas :=
  let c1 : Canvas := { c with
    cells := fun a b => if a = x ∧ y1 ≤ b ∧ b < y2 then ch else c.cells a b }
  match color with
  | some col =>
    { c1 with colors := fun a b =>
        if a = x ∧ y1 ≤ b ∧ b < y2 then some col else c1.colors a b }
  | none => c1

/-- Raw horizontal writes rows[y][x] for x in [x1, x2), skipping the x
positions covered by the given occupied intervals (the corridor jog
rows of _draw_forward_corridor). -/
def horizRawSkip (c : Canvas) (y x1 x2 : Int) (intervals : List (Int × Int))
    (ch : Char) (color : Option String) : Canvas :=
  (intRange x1 x2).foldl
    (fun cc x =>
      if intervals ≠ [] ∧ x_in_intervals x intervals then cc
      else
        let c1 := cc.setCell x y ch
        match color with
        | some col => c1.setColor x y (some col)
        | none => c1)
    c

/-- Forward edge through a right-side corridor (renderer.py
_draw_forward_corridor). -/
def draw_forward_corridor (canvas : Canvas) (src tgt : Box)
    (label : Option String) (ch : CharSet) (routeX : Int)
    (edgeColor labelColor : Option String)
    (allBoxes : List (String × Box)) : Canvas :=
  let srcCx := src.cx
  let tgtCx := tgt.cx
  let startY := src.bottom
  let endY := tgt.top
  let topHorizY0 := startY + 2
  let botHorizY0 := endY - 2
  let (topHorizY, botHorizY) :=
    if topHorizY0 ≥ botHorizY0 then
      let mid := (startY + endY) / 2
      (mid, mid + 1)
    else (topHorizY0, botHorizY0)
  let arrowY := if endY - 1 > startY then endY - 1 else endY
  let topIntervals :=
    if allBoxes ≠ [] then x_intervals_at_y topHorizY allBoxes src tgt else []
  let botIntervals :=
    if allBoxes ≠ [] then x_intervals_at_y botHorizY allBoxes src tgt else []
  let c1 := canvas.put srcCx startY ch.jt edgeColor
  let c2 := vertRawRun c1 srcCx (startY + 1) topHorizY ch.v edgeColor
  let c3 := c2.put srcCx topHorizY ch.bl edgeColor
  let c4 := horizRawSkip c3 topHorizY (srcCx + 1) routeX topIntervals ch.h edgeColor
  let c5 := c4.put routeX topHorizY ch.tr edgeColor
  let c6 := vertRawRun c5 routeX (topHorizY + 1) botHorizY ch.v edgeColor
  let c7 := c6.put routeX botHorizY ch.br edgeColor
  let c8 := horizRawSkip c7 botHorizY (tgtCx + 1) routeX botIntervals ch.h edgeColor
  let c9 := c8.put tgtCx botHorizY ch.tl edgeColor
  let c10 := vertRawRun c9 tgtCx (botHorizY + 1) arrowY ch.v edgeColor
  let c11 := c10.put tgtCx arrowY ch.arrowDown edgeColor
  match label with
  | some lbl =>
    if lbl ≠ "" then
      c11.putsStr (routeX + 2) ((topHorizY + botHorizY) / 2) lbl labelColor
    else c11
  | none => c11

/-- Forward edge (renderer.py _draw_forward_edge): straight vertical
connector for near-aligned centers, Z-shaped route otherwise, or the
corridor route when one was assigned. -/
def draw_forward_edge (canvas : Canvas) (src tgt : Box)
    (label : Option String) (ch : CharSet)
    (edgeColor labelColor : Option String) (routeX : Option Int)
    (allBoxes : List (String × Box)) : Canvas :=
  match routeX with
  | some rx =>
    draw_forward_corridor canvas src tgt label ch rx edgeColor labelColor allBoxes
  | none =>
    let srcCx := src.cx
    let tgtCx := tgt.cx
    let startY := src.bottom
    let endY := tgt.top
    let isUnicode := ch = UNICODE_CHARS
    let arrowY := if endY - 1 > startY then endY - 1 else endY
    if |srcCx - tgtCx| ≤ STRAIGHT_TOLERANCE then
      let cx := tgtCx
      let c1 := canvas.put cx startY ch.jt edgeColor
      let c2 := draw_vline c1 cx (startY + 1) (arrowY - 1) isUnicode edgeColor
      let c3 := labelPuts c2 (cx + 2) ((startY + arrowY) / 2) label labelColor
      c3.put cx arrowY ch.arrowDown edgeColor
    else
      let c1 := canvas.put srcCx startY ch.jt edgeColor
      let midY0 := startY + 2
      let midY := if midY0 ≥ endY - 1 then (startY + endY) / 2 else midY0
      let c2 := vertRawRun c1 srcCx (startY + 1) midY ch.v edgeColor
      let xMin := min srcCx tgtCx
      let xMax := max srcCx tgtCx
      let c3 := c2.putsStr xMin midY
        (String.mk (List.replicate (xMax - xMin + 1).toNat ch.h)) edgeColor
      let c4 :=
        if srcCx < tgtCx then
          (c3.put srcCx midY ch.bl edgeColor).put tgtCx midY ch.tr edgeColor
        else
          (c3.put srcCx midY ch.br edgeColor).put tgtCx midY ch.tl edgeColor
      let c5 := match label with
        | some lbl =>
          if lbl ≠ "" then
            let midX := (srcCx + tgtCx) / 2 - (lbl.length : Int) / 2
            c4.putsStr midX (startY + 1) lbl labelColor
          else c4
        | none => c4
      let c6 := vertRawRun c5 tgtCx (midY + 1) arrowY ch.v edgeColor
      c6.put tgtCx arrowY ch.arrowDown edgeColor

/-- Backward edge via a right-side corridor (renderer.py
_draw_backward_edge). -/
def draw_backward_edge (canvas : Canvas) (src tgt : Box)
    (label : Option String) (ch : CharSet)
    (edgeColor labelColor : Option String) (routeX : Option Int)
    (allBoxes : List (String × Box)) : Canvas :=
  let routeX := routeX.getD (max (src.x + src.w) (tgt.x + tgt.w) + 3)
  let srcMidY := src.y + src.h / 2
  let tgtMidY := tgt.y + tgt.h / 2
  let srcIntervals :=
    if allBoxes ≠ [] then x_intervals_at_y srcMidY allBoxes src tgt else []
  let tgtIntervals :=
    if allBoxes ≠ [] then x_intervals_at_y tgtMidY allBoxes src tgt else []
  let c1 := (intRange (src.x + src.w) (routeX + 1)).foldl
    (fun cc x =>
      if srcIntervals ≠ [] ∧ x_in_intervals x srcIntervals then cc
      else cc.put x srcMidY ch.h edgeColor)
    canvas
  let c2 := c1.put (src.x + src.w - 1) srcMidY ch.jl edgeColor
  let yMin := min srcMidY tgtMidY
  let yMax := max srcMidY tgtMidY
  let c3 := (intRange yMin (yMax + 1)).foldl
    (fun cc y => cc.put routeX y ch.v edgeColor) c2
  let c4 :=
    if srcMidY > tgtMidY then
      (c3.put routeX srcMidY ch.br edgeColor).put routeX tgtMidY ch.tr edgeColor
    else
      (c3.put routeX srcMidY ch.tl edgeColor).put routeX tgtMidY ch.bl edgeColor
  let c5 := (intRange (tgt.x + tgt.w) routeX).foldl
    (fun cc x =>
      if tgtIntervals ≠ [] ∧ x_in_intervals x tgtIntervals then cc
      else cc.put x tgtMidY ch.h edgeColor)
    c4
  let c6 := c5.put (tgt.x + tgt.w - 1) tgtMidY ch.arrowLeft edgeColor
  match label with
  | some lbl =>
    if lbl ≠ "" then
      c6.putsStr (routeX + 2) ((srcMidY + tgtMidY) / 2) lbl labelColor
    else c6
  | none => c6

/-- Side edge for vertically overlapping boxes (renderer.py
_draw_side_edge). -/
def draw_side_edge (canvas : Canvas) (src tgt : Box)
    (label : Option String) (ch : CharSet)
    (edgeColor labelColor : Option String) : Canvas :=
  let c1 :=
    if src.x + src.w ≤ tgt.x then
      let y := max src.y tgt.y + 1
      let span := tgt.x - (src.x + src.w)
      let ca :=
        if span > 0 then
          canvas.putsStr (src.x + src.w) y
            (String.mk (List.replicate span.toNat ch.h)) edgeColor
        else canvas
      ca.put tgt.x y ch.arrowRight edgeColor
    else if tgt.x + tgt.w ≤ src.x then
      let y := max src.y tgt.y + 1
      let span := src.x - (tgt.x + tgt.w)
      let ca :=
        if span > 0 then
          canvas.putsStr (tgt.x + tgt.w) y
            (String.mk (List.replicate span.toNat ch.h)) edgeColor
        else canvas
      ca.put (tgt.x + tgt.w - 1) y ch.arrowLeft edgeColor
    else canvas
  match label with
  | some lbl =>
    if lbl ≠ "" then
      let midX := (src.cx + tgt.cx) / 2 - (lbl.length : Int) / 2
      c1.putsStr midX (max src.y tgt.y) lbl labelColor
    else c1
  | none => c1

/-- Edge dispatch (renderer.py _draw_edge): forward, backward or side
routing based on the vertical relation of the boxes; the edge inherits
the source node border color when one is set. -/
def draw_edge (canvas : Canvas) (src tgt : Box) (label : Option String)
    (useUnicode : Bool) (edgeColor labelColor : Option String)
    (routeX : Option Int) (allBoxes : List (String × Box))
    (srcColor : Option String) : Canvas :=
  let ch := chars useUnicode
  let color := if optTruthy srcColor then srcColor else edgeColor
  if src.bottom < tgt.top then
    draw_forward_edge canvas src tgt label ch color labelColor routeX allBoxes
  else if tgt.bottom < src.top then
    draw_backward_edge canvas src tgt label ch color labelColor routeX allBoxes
  else
    draw_side_edge canvas src tgt label ch color labelColor

/-! ### Render orchestration (renderer.py) -/

/-- Python str.center: pad with spaces on both sides; with an odd margin
the extra space goes right unless both the margin and the width are odd
(the CPython left = marg // 2 + (marg & width & 1) rule). -/
def pyCenter (s : String) (width : Int) : String :=
  let marg := width - (s.length : Int)
  if marg ≤ 0 then s
  else
    let left := marg / 2 + (if marg % 2 = 1 ∧ width % 2 = 1 then 1 else 0)
    String.mk (List.replicate left.toNat ' ' ++ s.data
      ++ List.replicate (marg - left).toNat ' ')

/-- Node box sizing and content of _do_render_canvas step 2: subgraph
nodes take their size from the pre-rendered child canvas, regular nodes
from their name and metadata lines (widened for the type label). -/
def nodeSizing (subgraphCanvases : List (String × Canvas)) (showTypes : Bool)
    (metaMaxLine : Int) (nodes : List AsciiNode) :
    List (String × (Int × Int)) × List (String × List String)
      × List (String × (Nat × Int × Int)) :=
  nodes.foldl
    (fun (st : List (String × (Int × Int)) × List (String × List String)
              × List (String × (Nat × Int × Int))) node =>
      let (sizes, contents, metas) := st
      let metaLines := metadataLines node metaMaxLine
      match alookup subgraphCanvases node.id with
      | some subCanvas =>
        let wh := subCanvas.visualSize
        let subW := wh.1
        let subH := wh.2
        let headerW := metaLines.foldl (fun m ml => max m (ml.length : Int))
          (node.name.length : Int)
        let innerW := max (subW + 2) headerW
        let boxW := innerW + 2
        let header := [pyCenter node.name innerW]
          ++ metaLines.map (fun ml => pyCenter ml innerW)
        let headerCount := header.length
        let content := header
          ++ List.replicate subH.toNat (String.mk (List.replicate innerW.toNat ' '))
        let boxH := (content.length : Int) + 2
        (aset sizes node.id (boxW, boxH), aset contents node.id content,
         aset metas node.id (headerCount, subW, subH))
      | none =>
        let content := [node.name] ++ metaLines
        let innerW0 := listMax (content.map (fun line => (line.length : Int)))
        let typeLbl := type_label_of node.type showTypes
        let innerW := match typeLbl with
          | some l => if l ≠ "" then max innerW0 ((l.length : Int) + 2) else innerW0
          | none => innerW0
        let boxW := innerW + 4
        let boxH := (content.length : Int) + 2
        (aset sizes node.id (boxW, boxH), aset contents node.id content, metas))
    ([], [], [])

/-- Node-drawing loop of _do_render_canvas step 5: draw every node box
with its theme style and blit its pre-rendered subgraph canvas, while
collecting the per-node border colors for edge drawing. -/
def drawNodes (options : RenderOptions) (theme : Theme)
    (boxes : List (String × Box)) (node_content : List (String × List String))
    (subgraph_meta : List (String × (Nat × Int × Int)))
    (subgraphCanvases : List (String × Canvas)) (canvas0 : Canvas)
    (nodes : List AsciiNode) : Canvas × List (String × Option String) :=
  nodes.foldl
    (fun (st : Canvas × List (String × Option String)) node =>
      let (cv, nbc) := st
      let box := aget boxes node.id (Box.mk 0 0 0 0)
      let typeLbl := type_label_of node.type options.show_types
      let style := theme.get_style node.type
      let borderC := optStr style.border
      let nbc2 := aset nbc node.id borderC
      let cv2 := draw_box cv box (aget node_content node.id [])
        options.use_unicode typeLbl borderC (optStr style.text)
        (optStr style.type_label)
      let cv3 := match alookup subgraphCanvases node.id with
        | some subC =>
          let headerCount := (aget subgraph_meta node.id (0, 0, 0)).1
          cv2.blitCanvas subC (box.x + 1 + 1) (box.y + 1 + (headerCount : Int))
        | none => cv2
      (cv3, nbc2))
    (canvas0, [])

mutual

/-- Core rendering (renderer.py _do_render_canvas): render subgraphs
bottom-up, size the node boxes, lay out, allocate the canvas with the
corridor margin, draw boxes (blitting subgraph canvases), then draw the
edges (the per-type style cache of the source is a pure memoization of
get_style and is inlined here). -/
def do_render_canvas (g : AsciiGraph) (options : RenderOptions)
    (metaMaxLine : Int) : Canvas :=
  let theme := options.theme
  let subOptions : RenderOptions :=
    { use_unicode := options.use_unicode, show_types := options.show_types
      padding := 0, theme := options.theme, max_width := options.max_width }
  let subgraphCanvases := renderSubCanvases subOptions metaMaxLine g.nodes
  let sizing := nodeSizing subgraphCanvases options.show_types metaMaxLine g.nodes
  let node_sizes := sizing.1
  let node_content := sizing.2.1
  let subgraph_meta := sizing.2.2
  let boxes := layout g.nodes g.edges (fun nid => aget node_sizes nid (0, 0))
    options.padding
  let bwd := backward_edge_corridors g.edges boxes
  let corridorMap0 := bwd.1
  let extraRight0 := bwd.2
  let minFwd := match corridorMap0.filterMap id with
    | [] => (0 : Int)
    | v :: vs => (vs.foldl max v) + 3
  let fwd := forward_skip_corridors g.edges boxes minFwd
  let corridorMap := (corridorMap0.zip fwd.1).map
    (fun p => match p.2 with
      | some v => some v
      | none => p.1)
  let extraRight := max extraRight0 fwd.2
  let maxX := listMax (boxes.map (fun p => p.2.x + p.2.w)) + extraRight
    + options.padding
  let maxY := listMax (boxes.map (fun p => p.2.y + p.2.h)) + options.padding
  let canvas0 := Canvas.init maxX maxY
  let drawn := drawNodes options theme boxes node_content subgraph_meta
    subgraphCanvases canvas0 g.nodes
  let canvas1 := drawn.1
  let node_border_colors := drawn.2
  let edgeColor := optStr theme.edge
  let labelColor := optStr theme.edge_label
  (g.edges.zip corridorMap).foldl
    (fun cv p =>
      let edge := p.1
      let corr := p.2
      match alookup boxes edge.source, alookup boxes edge.target with
      | some srcBox, some tgtBox =>
        draw_edge cv srcBox tgtBox edge.label options.use_unicode edgeColor
          labelColor corr boxes ((alookup node_border_colors edge.source).getD none)
      | _, _ => cv)
    canvas1
termination_by sizeOf g
decreasing_by
  cases g with
  | mk ns es => simp [AsciiGraph.nodes]; omega

/-- Recursive subgraph rendering of _do_render_canvas step 1: every node
owning a non-empty subgraph is rendered to its own canvas first. -/
def renderSubCanvases (options : RenderOptions) (metaMaxLine : Int) :
    List AsciiNode → List (String × Canvas)
  | [] => []
  | .mk nid _ _ _ (some (.mk (s :: ss) ses)) :: rest =>
    (nid, do_render_canvas (.mk (s :: ss) ses) options metaMaxLine)
      :: renderSubCanvases options metaMaxLine rest
  | .mk _ _ _ _ (some (.mk [] _)) :: rest =>
    renderSubCanvases options metaMaxLine rest
  | .mk _ _ _ _ none :: rest =>
    renderSubCanvases options metaMaxLine rest
termination_by ns => sizeOf ns
decreasing_by
  all_goals simp
  all_goals omega

end

/-- Adaptive width loop (renderer.py _render_canvas): up to three
renders, shrinking the metadata wrap width by the overflow ratio; the
canvas of the final attempt is returned even if still too wide. -/
def render_canvas (g : AsciiGraph) (options : RenderOptions) :
    Nat → Int → Canvas
  | 0, metaMax => do_render_canvas g options metaMax
  | k + 1, metaMax =>
    let canvas := do_render_canvas g options metaMax
    match options.max_width with
    | none => canvas
    | some mw =>
      if canvas.width ≤ mw then canvas
      else if metaMax ≤ 0 then canvas
      else if k = 0 then canvas
      else
        let ratio : Rat := (mw : Rat) / (canvas.width : Rat)
        render_canvas g options k (max 0 (pyTrunc ((metaMax : Rat) * ratio) - 1))

/-- Top-level rendering (renderer.py render): empty string for a graph
without nodes, otherwise the serialized canvas; colors are emitted
exactly when the theme differs from the colorless default. -/
def render (graph : AsciiGraph) (options : RenderOptions) : String :=
  if graph.nodes.isEmpty then ""
  else
    let use_color := options.theme ≠ DEFAULT
    let canvas := render_canvas graph options 3 META_MAX_LINE
    canvas.toStr use_color

/-! ## Lemmas about joinComma and the item-packing loop -/

lemma joinComma_cons (x : String) (l : List String) (h : l ≠ []) :
    joinComma (x :: l) = x ++ ", " ++ joinComma l := by
  cases l with
  | nil => exact absurd rfl h
  | cons y ys => rfl

lemma joinComma_append (a b : List String) (ha : a ≠ []) (hb : b ≠ []) :
    joinComma (a ++ b) = joinComma a ++ ", " ++ joinComma b := by
  induction a with
  | nil => exact absurd rfl ha
  | cons x xs ih =>
    cases xs with
    | nil => simpa using joinComma_cons x b hb
    | cons y ys =>
      have h1 : (y :: ys : List String) ≠ [] := by simp
      have h2 : (y :: ys) ++ b ≠ [] := by simp
      rw [List.cons_append, joinComma_cons x ((y :: ys) ++ b) h2, ih h1,
        joinComma_cons x (y :: ys) h1]
      simp [String.append_assoc]

lemma joinComma_snoc (l : List String) (y z : String) :
    joinComma (l ++ [y ++ ", " ++ z]) = joinComma (l ++ [y]) ++ ", " ++ z := by
  cases l with
  | nil => rfl
  | cons a as =>
    have hl : (a :: as : List String) ≠ [] := by simp
    rw [joinComma_append (a :: as) [y ++ ", " ++ z] hl (by simp),
      joinComma_append (a :: as) [y] hl (by simp)]
    simp [joinComma, String.append_assoc]

lemma pack_fold_join (maxLine : Int) (names : List String) :
    ∀ (lines row : List String) (rowLen : Int), row ≠ [] →
    ∃ lines2 row2 rowLen2,
      names.foldl (packStep maxLine) (lines, row, rowLen) = (lines2, row2, rowLen2) ∧
      row2 ≠ [] ∧
      joinComma (lines2 ++ [joinComma row2])
        = joinComma (lines ++ [joinComma (row ++ names)]) := by
  induction names with
  | nil =>
    intro lines row rowLen h
    exact ⟨lines, row, rowLen, rfl, h, by simp⟩
  | cons n rest ih =>
    intro lines row rowLen h
    rw [List.foldl_cons]
    have hcons : (n :: rest : List String) ≠ [] := by simp
    by_cases hc : rowLen + ((n.length : Int) + (if row ≠ [] then 2 else 0)) > maxLine
    · have hstep : packStep maxLine (lines, row, rowLen) n
          = (lines ++ [joinComma row], [n], (n.length : Int)) := by
        simp only [packStep]
        rw [if_pos ⟨h, hc⟩]
      rw [hstep]
      obtain ⟨l2, r2, rl2, heq, hr2, hj⟩ :=
        ih (lines ++ [joinComma row]) [n] (n.length : Int) (by simp)
      refine ⟨l2, r2, rl2, heq, hr2, ?_⟩
      rw [hj]
      have h1 : joinComma (row ++ n :: rest)
          = joinComma row ++ ", " ++ joinComma (n :: rest) :=
        joinComma_append row (n :: rest) h hcons
      have h2 : ([n] ++ rest : List String) = n :: rest := by simp
      rw [h2, h1, joinComma_snoc lines (joinComma row) (joinComma (n :: rest)),
        joinComma_append (lines ++ [joinComma row]) [joinComma (n :: rest)]
          (by simp) (by simp)]
      simp [joinComma]
    · have hstep : packStep maxLine (lines, row, rowLen) n
          = (lines, row ++ [n], rowLen + ((n.length : Int) + (if row ≠ [] then 2 else 0))) := by
        simp only [packStep]
        rw [if_neg (by rintro ⟨-, hgt⟩; exact hc hgt)]
      rw [hstep]
      obtain ⟨l2, r2, rl2, heq, hr2, hj⟩ :=
        ih lines (row ++ [n]) _ (by simp)
      refine ⟨l2, r2, rl2, heq, hr2, ?_⟩
      rw [hj]
      simp

/-- C6: for a node description with more than five non-empty comma items,
the metadata lines show exactly the first five items in input order
followed by a "+K more" suffix with K the number of remaining items; no
item beyond the fifth appears.  Joining the produced lines with ", "
(which is exactly how the lines are assembled) yields the join of the
first five items and the suffix. -/
theorem C6_metadata_truncation (node : AsciiNode) (maxLine : Int)
    (hml : 0 < maxLine)
    (h5 : MAX_ITEMS_SHOWN < (splitItems node.description).length) :
    joinComma (metadataLines node maxLine)
      = joinComma ((splitItems node.description).take MAX_ITEMS_SHOWN
          ++ ["+" ++ toString ((splitItems node.description).length - MAX_ITEMS_SHOWN)
              ++ " more"]) := by
  have hdesc : node.description ≠ "" := by
    intro he
    rw [he] at h5
    revert h5
    decide
  rw [metadataLines, if_neg (by push_neg; exact ⟨hdesc, by omega⟩)]
  have h5' : 5 < (splitItems node.description).length := h5
  obtain ⟨i1, t, hi⟩ : ∃ i1 t, splitItems node.description = i1 :: t := by
    cases hx : splitItems node.description with
    | nil => rw [hx] at h5'; simp at h5'
    | cons a b => exact ⟨a, b, rfl⟩
  obtain ⟨i2, r, ht⟩ : ∃ i2 r, t = i2 :: r := by
    cases hx : t with
    | nil => rw [hx] at hi; rw [hi] at h5'; simp at h5'
    | cons a b => exact ⟨a, b, rfl⟩
  rw [hi, ht] at h5' ⊢
  have hlen5 : ((i1 :: i2 :: r).take MAX_ITEMS_SHOWN).length = 5 := by
    rw [List.length_take]
    simp only [MAX_ITEMS_SHOWN]
    omega
  obtain ⟨s2, srest, hshown⟩ :
      ∃ s2 srest, (i1 :: i2 :: r).take MAX_ITEMS_SHOWN = i1 :: s2 :: srest := by
    simp only [MAX_ITEMS_SHOWN, List.take_succ_cons]
    exact ⟨i2, (r.take 3), rfl⟩
  have hstep1 : packStep maxLine ([], [], 0) i1 = ([], [i1], (0 : Int) + ((i1.length : Int) + 0)) := by
    simp [packStep]
  obtain ⟨l2, r2, rl2, heq, hr2, hj⟩ :=
    pack_fold_join maxLine (s2 :: srest) [] [i1] ((0 : Int) + ((i1.length : Int) + 0)) (by simp)
  have hfold : ((i1 :: i2 :: r).take MAX_ITEMS_SHOWN).foldl (packStep maxLine) ([], [], 0)
      = (l2, r2, rl2) := by
    rw [hshown, List.foldl_cons, hstep1, heq]
  have hjoin2 : joinComma (l2 ++ [joinComma r2])
      = joinComma ((i1 :: i2 :: r).take MAX_ITEMS_SHOWN) := by
    rw [hj, hshown]
    simp only [List.nil_append, List.singleton_append]
    rfl
  have hrem : (i1 :: i2 :: r).length - ((i1 :: i2 :: r).take MAX_ITEMS_SHOWN).length
      = (i1 :: i2 :: r).length - MAX_ITEMS_SHOWN := by
    rw [hlen5]; rfl
  have hrempos : 0 < (i1 :: i2 :: r).length - MAX_ITEMS_SHOWN := by
    simp only [MAX_ITEMS_SHOWN] at h5' ⊢
    omega
  simp only [metadataLinesOfItems, hfold, hrem]
  rw [if_pos hrempos]
  set suffix := "+" ++ toString ((i1 :: i2 :: r).length - MAX_ITEMS_SHOWN) ++ " more" with hsuf
  have hshne : (i1 :: i2 :: r).take MAX_ITEMS_SHOWN ≠ [] := by rw [hshown]; simp
  have hrhs : joinComma ((i1 :: i2 :: r).take MAX_ITEMS_SHOWN ++ [suffix])
      = joinComma ((i1 :: i2 :: r).take MAX_ITEMS_SHOWN) ++ ", " ++ suffix := by
    rw [joinComma_append _ [suffix] hshne (by simp)]
    rfl
  by_cases hb : r2 ≠ [] ∧ rl2 + ((suffix.length : Int) + (if r2 ≠ [] then 2 else 0)) > maxLine
  · rw [if_pos hb, hrhs]
    have : (l2 ++ [joinComma r2, suffix] : List String)
        = (l2 ++ [joinComma r2]) ++ [suffix] := by simp
    rw [this, joinComma_append (l2 ++ [joinComma r2]) [suffix] (by simp) (by simp),
      hjoin2]
    rfl
  · rw [if_neg hb, hrhs]
    have hr2s : joinComma (r2 ++ [suffix]) = joinComma r2 ++ ", " ++ suffix :=
      joinComma_append r2 [suffix] hr2 (by simp)
    rw [hr2s, joinComma_snoc l2 (joinComma r2) suffix, hjoin2]

/-- Witness for C6 at the spec scenario "x,y,z,w,v,u": six items yield
five items plus a "+1 more" suffix, on one packed line at width 40. -/
theorem C6_metadata_truncation_witness :
    joinComma (metadataLines (.mk "n" "N" "" "x,y,z,w,v,u" none) 40)
      = joinComma ((splitItems (AsciiNode.mk "n" "N" "" "x,y,z,w,v,u" none).description).take
          MAX_ITEMS_SHOWN
          ++ ["+" ++ toString ((splitItems (AsciiNode.mk "n" "N" "" "x,y,z,w,v,u" none).description).length
                - MAX_ITEMS_SHOWN) ++ " more"])
    ∧ metadataLines (.mk "n" "N" "" "x,y,z,w,v,u" none) 40 = ["x, y, z, w, v, +1 more"] :=
  ⟨C6_metadata_truncation (.mk "n" "N" "" "x,y,z,w,v,u" none) 40 (by decide) (by decide),
   by decide⟩

/-! ## C3: determinism of rendering -/

/-- C3: rendering is deterministic — the embedding of the full pipeline
is a pure function, so two renders of the same graph with options that
agree field by field (unicode, type display, padding, theme, max width)
produce byte-identical strings.  All internal ordering (stable sorts,
corridor slot assignment) is a function of the input alone. -/
theorem C3_render_deterministic (g : AsciiGraph) (o1 o2 : RenderOptions)
    (hu : o1.use_unicode = o2.use_unicode)
    (hs : o1.show_types = o2.show_types)
    (hp : o1.padding = o2.padding)
    (ht : o1.theme = o2.theme)
    (hw : o1.max_width = o2.max_width) :
    render g o1 = render g o2 := by
  have : o1 = o2 := by
    cases o1
    cases o2
    simp_all
  rw [this]

/-- Witness for C3 at a concrete graph and options value. -/
theorem C3_render_deterministic_witness :
    render (.mk [.mk "a" "A" "" "" none] []) { padding := 2 }
      = render (.mk [.mk "a" "A" "" "" none] []) { padding := 2 } :=
  C3_render_deterministic (.mk [.mk "a" "A" "" "" none] [])
    { padding := 2 } { padding := 2 } rfl rfl rfl rfl rfl

/-! ## C9: truncation with both limits absent -/

/-- C9 counterexample: with both max_depth and max_breadth absent,
truncate_graph returns the input graph itself (the source executes
"return graph"), not a new copy — here at a concrete two-node graph. -/
theorem C9_truncate_counterexample :
    truncate_graph
      (.mk [.mk "a" "A" "" "" none, .mk "b" "B" "" "" none]
        [.mk "a" "b" none]) none none
      = .mk [.mk "a" "A" "" "" none, .mk "b" "B" "" "" none]
        [.mk "a" "b" none] := by
  rw [truncate_graph]
  simp

/-- C9 (amended): truncate_graph never mutates its input (it is a pure
construction in this embedding, and the source only builds new lists);
when both limits are absent it returns the input graph itself,
unchanged — not a fresh copy. -/
theorem C9_truncate_no_limits_identity (g : AsciiGraph) :
    truncate_graph g none none = g := by
  rw [truncate_graph]
  simp

/-! ## C1: empty graphs render to nothing, at any depth -/

lemma renderSubCanvases_empty_sub (o : RenderOptions) (m : Int)
    (i nm ty d : String) (ses : List AsciiEdge) (post : List AsciiNode)
    (pre : List AsciiNode) :
    renderSubCanvases o m
        (pre ++ AsciiNode.mk i nm ty d (some (.mk [] ses)) :: post)
      = renderSubCanvases o m (pre ++ AsciiNode.mk i nm ty d none :: post) := by
  induction pre with
  | nil => simp only [List.nil_append, renderSubCanvases]
  | cons n pre2 ih =>
    obtain ⟨ni, nn, nt, nd, s⟩ := n
    cases s with
    | none => simpa only [List.cons_append, renderSubCanvases] using ih
    | some sub =>
      obtain ⟨snodes, ses2⟩ := sub
      cases snodes with
      | nil => simpa only [List.cons_append, renderSubCanvases] using ih
      | cons s1 srest =>
        simp only [List.cons_append, renderSubCanvases]
        rw [ih]

lemma nodeSizing_empty_sub (sc : List (String × Canvas)) (stp : Bool) (m : Int)
    (i nm ty d : String) (ses : List AsciiEdge)
    (pre post : List AsciiNode) :
    nodeSizing sc stp m (pre ++ AsciiNode.mk i nm ty d (some (.mk [] ses)) :: post)
      = nodeSizing sc stp m (pre ++ AsciiNode.mk i nm ty d none :: post) := by
  simp only [nodeSizing]
  rw [List.foldl_append, List.foldl_append]
  rfl

lemma drawNodes_empty_sub (o : RenderOptions) (theme : Theme)
    (boxes : List (String × Box)) (content : List (String × List String))
    (meta : List (String × (Nat × Int × Int))) (sc : List (String × Canvas))
    (c0 : Canvas) (i nm ty d : String) (ses : List AsciiEdge)
    (pre post : List AsciiNode) :
    drawNodes o theme boxes content meta sc c0
        (pre ++ AsciiNode.mk i nm ty d (some (.mk [] ses)) :: post)
      = drawNodes o theme boxes content meta sc c0
        (pre ++ AsciiNode.mk i nm ty d none :: post) := by
  simp only [drawNodes]
  rw [List.foldl_append, List.foldl_append]
  rfl

lemma map_id_empty_sub (i nm ty d : String) (ses : List AsciiEdge)
    (pre post : List AsciiNode) :
    (pre ++ AsciiNode.mk i nm ty d (some (.mk [] ses)) :: post).map
        (fun n => n.id)
      = (pre ++ AsciiNode.mk i nm ty d none :: post).map (fun n => n.id) := by
  simp [AsciiNode.id]

lemma layoutGeneral_empty_sub (i nm ty d : String) (ses : List AsciiEdge)
    (pre post : List AsciiNode) (es : List AsciiEdge)
    (szs : String → Int × Int) (p : Int) :
    layoutGeneral (pre ++ AsciiNode.mk i nm ty d (some (.mk [] ses)) :: post)
        es szs p
      = layoutGeneral (pre ++ AsciiNode.mk i nm ty d none :: post) es szs p := by
  simp only [layoutGeneral]
  rw [map_id_empty_sub]

lemma layout_empty_sub (i nm ty d : String) (ses : List AsciiEdge)
    (pre post : List AsciiNode) (es : List AsciiEdge)
    (szs : String → Int × Int) (p : Int) :
    layout (pre ++ AsciiNode.mk i nm ty d (some (.mk [] ses)) :: post) es szs p
      = layout (pre ++ AsciiNode.mk i nm ty d none :: post) es szs p := by
  cases pre with
  | nil =>
    cases post with
    | nil => rfl
    | cons q qs =>
      simp only [List.nil_append, layout]
      exact layoutGeneral_empty_sub i nm ty d ses [] (q :: qs) es szs p
  | cons p1 ps =>
    cases ps with
    | nil =>
      simp only [List.cons_append, List.nil_append, layout]
      exact layoutGeneral_empty_sub i nm ty d ses [p1] post es szs p
    | cons p2 ps2 =>
      simp only [List.cons_append, layout]
      exact layoutGeneral_empty_sub i nm ty d ses (p1 :: p2 :: ps2) post es szs p

lemma do_render_empty_sub (o : RenderOptions) (m : Int)
    (i nm ty d : String) (ses : List AsciiEdge)
    (pre post : List AsciiNode) (es : List AsciiEdge) :
    do_render_canvas (.mk (pre ++ AsciiNode.mk i nm ty d (some (.mk [] ses)) :: post) es) o m
      = do_render_canvas (.mk (pre ++ AsciiNode.mk i nm ty d none :: post) es) o m := by
  simp only [do_render_canvas, AsciiGraph.nodes, AsciiGraph.edges]
  rw [renderSubCanvases_empty_sub, nodeSizing_empty_sub, layout_empty_sub,
    drawNodes_empty_sub]

lemma render_canvas_empty_sub (o : RenderOptions)
    (i nm ty d : String) (ses : List AsciiEdge)
    (pre post : List AsciiNode) (es : List AsciiEdge) :
    ∀ (k : Nat) (mline : Int),
    render_canvas (.mk (pre ++ AsciiNode.mk i nm ty d (some (.mk [] ses)) :: post) es) o k mline
      = render_canvas (.mk (pre ++ AsciiNode.mk i nm ty d none :: post) es) o k mline := by
  intro k
  induction k with
  | zero =>
    intro mline
    simp only [render_canvas]
    exact do_render_empty_sub o mline i nm ty d ses pre post es
  | succ k ih =>
    intro mline
    simp only [render_canvas]
    rw [do_render_empty_sub o mline i nm ty d ses pre post es]
    cases hmw : o.max_width with
    | none => rfl
    | some mw =>
      split
      · rfl
      · split
        · rfl
        · split
          · rfl
          · rw [ih]

/-- C1: a graph with an empty node list renders to the empty string for
every option combination; and at any nesting position, a node whose
subgraph has zero nodes renders exactly as if it had no subgraph at all
(so an empty subgraph contributes no content at any depth). -/
theorem C1_empty_graph_renders_empty :
    (∀ (es : List AsciiEdge) (o : RenderOptions), render (.mk [] es) o = "")
    ∧ (∀ (o : RenderOptions) (i nm ty d : String) (ses : List AsciiEdge)
        (pre post : List AsciiNode) (es : List AsciiEdge),
        render (.mk (pre ++ AsciiNode.mk i nm ty d (some (.mk [] ses)) :: post) es) o
          = render (.mk (pre ++ AsciiNode.mk i nm ty d none :: post) es) o) := by
  constructor
  · intro es o
    rfl
  · intro o i nm ty d ses pre post es
    simp only [render, AsciiGraph.nodes]
    rw [render_canvas_empty_sub]
    have h1 : (pre ++ AsciiNode.mk i nm ty d (some (.mk [] ses)) :: post).isEmpty
        = false := by simp
    have h2 : (pre ++ AsciiNode.mk i nm ty d none :: post).isEmpty = false := by
      simp
    rw [h1, h2]

/-! ## Canvas read lemmas -/

lemma Canvas.cells_put (c : Canvas) (x y : Int) (ch : Char)
    (col : Option String) :
    (c.put x y ch col).cells =
      if 0 ≤ x ∧ x < c.width ∧ 0 ≤ y ∧ y < c.height then
        (fun a b => if a = x ∧ b = y then ch else c.cells a b)
      else c.cells := by
  rw [Canvas.put]
  by_cases hin : 0 ≤ x ∧ x < c.width ∧ 0 ≤ y ∧ y < c.height
  · rw [if_pos hin, if_pos hin]
    cases col with
    | none =>
      by_cases hch : ch ≠ ' '
      · rw [if_pos hch]
        try rfl
      · rw [if_neg hch]
        try rfl
    | some cv =>
      by_cases hch : ch ≠ ' '
      · rw [if_pos hch]
        try rfl
      · rw [if_neg hch]
        try rfl
  · rw [if_neg hin, if_neg hin]

lemma Canvas.width_put (c : Canvas) (x y : Int) (ch : Char)
    (col : Option String) : (c.put x y ch col).width = c.width := by
  rw [Canvas.put]
  by_cases hin : 0 ≤ x ∧ x < c.width ∧ 0 ≤ y ∧ y < c.height
  · rw [if_pos hin]
    cases col with
    | none =>
      by_cases hch : ch ≠ ' '
      · rw [if_pos hch]
        try rfl
      · rw [if_neg hch]
        try rfl
    | some cv =>
      by_cases hch : ch ≠ ' '
      · rw [if_pos hch]
        try rfl
      · rw [if_neg hch]
        try rfl
  · rw [if_neg hin]

lemma Canvas.height_put (c : Canvas) (x y : Int) (ch : Char)
    (col : Option String) : (c.put x y ch col).height = c.height := by
  rw [Canvas.put]
  by_cases hin : 0 ≤ x ∧ x < c.width ∧ 0 ≤ y ∧ y < c.height
  · rw [if_pos hin]
    cases col with
    | none =>
      by_cases hch : ch ≠ ' '
      · rw [if_pos hch]
        try rfl
      · rw [if_neg hch]
        try rfl
    | some cv =>
      by_cases hch : ch ≠ ' '
      · rw [if_pos hch]
        try rfl
      · rw [if_neg hch]
        try rfl
  · rw [if_neg hin]

lemma Canvas.get_put (c : Canvas) (x y : Int) (ch : Char)
    (col : Option String) (a b : Int) :
    (c.put x y ch col).get a b =
      if a = x ∧ b = y ∧ 0 ≤ x ∧ x < c.width ∧ 0 ≤ y ∧ y < c.height then ch
      else c.get a b := by
  rw [Canvas.get, Canvas.width_put, Canvas.height_put, Canvas.cells_put,
    Canvas.get]
  by_cases hin : 0 ≤ x ∧ x < c.width ∧ 0 ≤ y ∧ y < c.height
  · rw [if_pos hin]
    by_cases hab : a = x ∧ b = y
    · obtain ⟨hax, hby⟩ := hab
      subst hax hby
      simp [hin]
    · have hcond : ¬(a = x ∧ b = y ∧ 0 ≤ x ∧ x < c.width ∧ 0 ≤ y ∧ y < c.height) :=
        fun h => hab ⟨h.1, h.2.1⟩
      rw [if_neg hcond]
      by_cases hgrid : 0 ≤ a ∧ a < c.width ∧ 0 ≤ b ∧ b < c.height
      · rw [if_pos hgrid, if_pos hgrid]
        simp [hab]
      · rw [if_neg hgrid, if_neg hgrid]
  · have hcond : ¬(a = x ∧ b = y ∧ 0 ≤ x ∧ x < c.width ∧ 0 ≤ y ∧ y < c.height) :=
      fun h => hin h.2.2
    rw [if_neg hin, if_neg hcond]

lemma Canvas.width_putsStr (c : Canvas) (x y : Int) (t : String)
    (col : Option String) : (c.putsStr x y t col).width = c.width := by
  cases col <;>
    simp only [Canvas.putsStr, Canvas.writeRun, Canvas.writeColorRun] <;>
    split <;> try rfl
  all_goals split <;> rfl

lemma Canvas.height_putsStr (c : Canvas) (x y : Int) (t : String)
    (col : Option String) : (c.putsStr x y t col).height = c.height := by
  cases col <;>
    simp only [Canvas.putsStr, Canvas.writeRun, Canvas.writeColorRun] <;>
    split <;> try rfl
  all_goals split <;> rfl

lemma Canvas.cells_putsStr_out (c : Canvas) (x y : Int) (t : String)
    (col : Option String) (a b : Int) (h : b ≠ y ∨ a < x) :
    (c.putsStr x y t col).cells a b = c.cells a b := by
  have hx0 : x ≤ x + max 0 (-x) := by omega
  cases col <;>
    simp only [Canvas.putsStr, Canvas.writeRun, Canvas.writeColorRun] <;>
    split <;> try rfl
  all_goals split
  all_goals try rfl
  all_goals show (if b = y ∧ x + max 0 (-x) ≤ a ∧ _ then _ else c.cells a b) = c.cells a b
  all_goals rw [if_neg]
  all_goals rintro ⟨hby, hxa, -⟩
  all_goals rcases h with h | h
  all_goals first
    | exact h hby
    | omega

lemma Canvas.get_putsStr_out (c : Canvas) (x y : Int) (t : String)
    (col : Option String) (a b : Int) (h : b ≠ y ∨ a < x) :
    (c.putsStr x y t col).get a b = c.get a b := by
  rw [Canvas.get, Canvas.get, Canvas.width_putsStr, Canvas.height_putsStr,
    Canvas.cells_putsStr_out c x y t col a b h]

lemma Canvas.width_draw_vline (c : Canvas) (x y1 y2 : Int) (u : Bool)
    (col : Option String) : (draw_vline c x y1 y2 u col).width = c.width := by
  cases col <;> simp only [draw_vline] <;> split <;> try rfl
  all_goals split <;> rfl

lemma Canvas.height_draw_vline (c : Canvas) (x y1 y2 : Int) (u : Bool)
    (col : Option String) : (draw_vline c x y1 y2 u col).height = c.height := by
  cases col <;> simp only [draw_vline] <;> split <;> try rfl
  all_goals split <;> rfl

lemma Canvas.cells_draw_vline (c : Canvas) (x y1 y2 : Int) (u : Bool)
    (col : Option String) (a b : Int) :
    (draw_vline c x y1 y2 u col).cells a b =
      if a = x ∧ 0 ≤ x ∧ x < c.width ∧ max (min y1 y2) 0 ≤ b
          ∧ b ≤ min (max y1 y2) (c.height - 1) then
        (chars u).v
      else c.cells a b := by
  by_cases hx : x < 0 ∨ x ≥ c.width
  · rw [if_neg (by rintro ⟨-, h1, h2, -⟩; omega)]
    cases col <;> simp only [draw_vline] <;> rw [if_pos hx]
  · by_cases hse : max (min y1 y2) 0 > min (max y1 y2) (c.height - 1)
    · rw [if_neg (by rintro ⟨-, -, -, h1, h2⟩; omega)]
      cases col <;> simp only [draw_vline] <;> rw [if_neg hx, if_pos hse]
    · cases col <;> simp only [draw_vline] <;> rw [if_neg hx, if_neg hse] <;>
        show (if a = x ∧ max (min y1 y2) 0 ≤ b ∧ b ≤ min (max y1 y2) (c.height - 1)
            then _ else c.cells a b) = _
      all_goals by_cases hc : a = x ∧ max (min y1 y2) 0 ≤ b
          ∧ b ≤ min (max y1 y2) (c.height - 1)
      all_goals try (rw [if_pos hc, if_pos ⟨hc.1, by omega, by omega, hc.2⟩])
      all_goals rw [if_neg hc, if_neg (by rintro ⟨h1, -, -, h2, h3⟩; exact hc ⟨h1, h2, h3⟩)]

lemma Canvas.get_draw_vline (c : Canvas) (x y1 y2 : Int) (u : Bool)
    (col : Option String) (a b : Int) :
    (draw_vline c x y1 y2 u col).get a b =
      if a = x ∧ 0 ≤ x ∧ x < c.width ∧ max (min y1 y2) 0 ≤ b
          ∧ b ≤ min (max y1 y2) (c.height - 1) then
        (chars u).v
      else c.get a b := by
  rw [Canvas.get, Canvas.width_draw_vline, Canvas.height_draw_vline,
    Canvas.cells_draw_vline, Canvas.get]
  by_cases hc : a = x ∧ 0 ≤ x ∧ x < c.width ∧ max (min y1 y2) 0 ≤ b
      ∧ b ≤ min (max y1 y2) (c.height - 1)
  · rw [if_pos hc, if_pos hc, if_pos (by obtain ⟨h1, h2, h3, h4, h5⟩ := hc; subst h1; omega)]
  · rw [if_neg hc, if_neg hc]

/-! ## C7: forward straight edges and the arrow row -/

/-- C7 counterexample: for the forward edge between vertically adjacent
boxes (target top exactly one row below source bottom), the down-arrow
is written on the target's top border row itself (row 3 here), which the
claim says never happens.  The edge is forward (bottom 2 < top 3), has
zero center offset, and no corridor. -/
theorem C7_arrow_on_border_counterexample :
    (Box.mk 1 0 5 3).bottom < (Box.mk 1 3 5 3).top
    ∧ |(Box.mk 1 0 5 3).cx - (Box.mk 1 3 5 3).cx| ≤ STRAIGHT_TOLERANCE
    ∧ (draw_forward_edge (Canvas.init 9 9) (Box.mk 1 0 5 3) (Box.mk 1 3 5 3)
        none UNICODE_CHARS none none none []).get 3 (Box.mk 1 3 5 3).top
      = UNICODE_CHARS.arrowDown := by
  refine ⟨by decide, by decide, ?_⟩
  decide

lemma labelPuts_get_out (c : Canvas) (x y : Int) (label lc : Option String)
    (a b : Int) (h : b ≠ y ∨ a < x) :
    (labelPuts c x y label lc).get a b = c.get a b := by
  cases label with
  | none => rfl
  | some lbl =>
    rw [labelPuts]
    by_cases hlbl : lbl ≠ ""
    · rw [if_pos hlbl]
      exact Canvas.get_putsStr_out c x y lbl lc a b h
    · rw [if_neg hlbl]

lemma labelPuts_width (c : Canvas) (x y : Int) (label lc : Option String) :
    (labelPuts c x y label lc).width = c.width := by
  cases label with
  | none => rfl
  | some lbl =>
    rw [labelPuts]
    by_cases hlbl : lbl ≠ ""
    · rw [if_pos hlbl, Canvas.width_putsStr]
    · rw [if_neg hlbl]

lemma labelPuts_height (c : Canvas) (x y : Int) (label lc : Option String) :
    (labelPuts c x y label lc).height = c.height := by
  cases label with
  | none => rfl
  | some lbl =>
    rw [labelPuts]
    by_cases hlbl : lbl ≠ ""
    · rw [if_pos hlbl, Canvas.height_putsStr]
    · rw [if_neg hlbl]

/-- C7 (amended): for a forward edge drawn without a corridor whose
horizontal center offset is at most 2 and whose target top leaves at
least two clear rows below the source bottom (always the case for
layout-produced boxes, whose layers are separated by at least three
rows), the edge is a straight vertical connector: the junction glyph
sits on the source's bottom border row at the target center column, the
cells strictly between carry the vertical glyph, the down-arrow is
written exactly one row above the target's top border, and no cell of
the target's top border row is touched.  In the degenerate adjacent
case (gap one) the source places the arrow on the border row, as the
counterexample records. -/
theorem C7_forward_straight_edge (c : Canvas) (src tgt : Box)
    (label : Option String) (u : Bool) (ec lc : Option String)
    (boxes : List (String × Box))
    (hstraight : |src.cx - tgt.cx| ≤ STRAIGHT_TOLERANCE)
    (hgap : src.bottom + 2 < tgt.top)
    (hx1 : 0 ≤ tgt.cx) (hx2 : tgt.cx < c.width)
    (hy1 : 0 ≤ src.bottom) (hy2 : tgt.top ≤ c.height) :
    (draw_forward_edge c src tgt label (chars u) ec lc none boxes).get
        tgt.cx src.bottom = (chars u).jt
    ∧ (∀ y, src.bottom < y → y < tgt.top - 1 →
        (draw_forward_edge c src tgt label (chars u) ec lc none boxes).get
          tgt.cx y = (chars u).v)
    ∧ (draw_forward_edge c src tgt label (chars u) ec lc none boxes).get
        tgt.cx (tgt.top - 1) = (chars u).arrowDown
    ∧ (∀ a, (draw_forward_edge c src tgt label (chars u) ec lc none boxes).get
        a tgt.top = c.get a tgt.top) := by
  have hdecu : (decide (chars u = UNICODE_CHARS)) = u := by cases u <;> decide
  have harr : src.bottom < tgt.top - 1 := by omega
  simp only [draw_forward_edge, hdecu]
  rw [if_pos hstraight, if_pos harr]
  refine ⟨?_, ?_, ?_, ?_⟩
  · rw [Canvas.get_put, if_neg (by rintro ⟨-, h, -⟩; omega),
      labelPuts_get_out _ _ _ _ _ _ _ (Or.inr (by omega)),
      Canvas.get_draw_vline, if_neg (by rintro ⟨-, -, -, h, -⟩; omega),
      Canvas.get_put, if_pos ⟨rfl, rfl, hx1, hx2, hy1, by omega⟩]
  · intro y hyl hyr
    rw [Canvas.get_put, if_neg (by rintro ⟨-, h, -⟩; omega),
      labelPuts_get_out _ _ _ _ _ _ _ (Or.inr (by omega)),
      Canvas.get_draw_vline, Canvas.width_put, Canvas.height_put,
      if_pos ⟨rfl, hx1, hx2, by omega, by omega⟩]
  · rw [Canvas.get_put, labelPuts_width, labelPuts_height,
      Canvas.width_draw_vline, Canvas.height_draw_vline, Canvas.width_put,
      Canvas.height_put, if_pos ⟨rfl, rfl, hx1, hx2, by omega, by omega⟩]
  · intro a
    rw [Canvas.get_put, if_neg (by rintro ⟨-, h, -⟩; omega),
      labelPuts_get_out _ _ _ _ _ _ _ (Or.inl (by omega)),
      Canvas.get_draw_vline, if_neg (by rintro ⟨-, -, -, -, h⟩; omega),
      Canvas.get_put, if_neg (by rintro ⟨-, h, -⟩; omega)]

/-- Witness for C7 at concrete boxes five rows apart on a 9x9 canvas. -/
theorem C7_forward_straight_edge_witness :
    ((draw_forward_edge (Canvas.init 9 9) (Box.mk 1 0 5 3) (Box.mk 1 5 5 3)
        none (chars true) none none none []).get 3 2 = (chars true).jt)
    ∧ ((draw_forward_edge (Canvas.init 9 9) (Box.mk 1 0 5 3) (Box.mk 1 5 5 3)
        none (chars true) none none none []).get 3 4 = (chars true).arrowDown) :=
  ⟨(C7_forward_straight_edge (Canvas.init 9 9) (Box.mk 1 0 5 3) (Box.mk 1 5 5 3)
      none true none none [] (by decide) (by decide) (by decide) (by decide)
      (by decide) (by decide)).1,
   (C7_forward_straight_edge (Canvas.init 9 9) (Box.mk 1 0 5 3) (Box.mk 1 5 5 3)
      none true none none [] (by decide) (by decide) (by decide) (by decide)
      (by decide) (by decide)).2.2.1⟩

/-! ## C10: the canvas bounding-box invariant -/

/-- The canvas bounding-box invariant: the grid dimensions are
non-negative, every non-space cell of the grid lies inside the tracked
bounding box, cells outside the grid are blank, and the tracked box is
itself inside the grid once non-empty (the box may over-approximate:
overwriting ink with a space never shrinks it). -/
structure CanvasInv (c : Canvas) : Prop where
  wNonneg : 0 ≤ c.width
  hNonneg : 0 ≤ c.height
  ink : ∀ x y, 0 ≤ x → x < c.width → 0 ≤ y → y < c.height →
    c.cells x y ≠ ' ' →
    c.bbX0 ≤ x ∧ x ≤ c.bbX1 ∧ c.bbY0 ≤ y ∧ y ≤ c.bbY1
  outBlank : ∀ x y, ¬(0 ≤ x ∧ x < c.width ∧ 0 ≤ y ∧ y < c.height) →
    c.cells x y = ' '
  bbx : 0 ≤ c.bbX1 → 0 ≤ c.bbX0 ∧ c.bbX1 < c.width
  bby : 0 ≤ c.bbY1 → 0 ≤ c.bbY0 ∧ c.bbY1 < c.height
  bbx0 : 0 ≤ c.bbX0
  bby0 : 0 ≤ c.bbY0

lemma inv_init (w h : Int) (hw : 0 ≤ w) (hh : 0 ≤ h) :
    CanvasInv (Canvas.init w h) := by
  refine ⟨hw, hh, ?_, ?_, ?_, ?_, hw, hh⟩
  · intro x y _ _ _ _ hne
    exact absurd rfl hne
  · intro x y _
    rfl
  · intro hge
    exact absurd hge (show ¬(0:Int) ≤ -1 by omega)
  · intro hge
    exact absurd hge (show ¬(0:Int) ≤ -1 by omega)

lemma put_bb_spec (c : Canvas) (x y : Int) (ch : Char) (col : Option String) :
    ((c.put x y ch col).bbX0, (c.put x y ch col).bbX1,
     (c.put x y ch col).bbY0, (c.put x y ch col).bbY1)
    = if (0 ≤ x ∧ x < c.width ∧ 0 ≤ y ∧ y < c.height) ∧ ch ≠ ' ' then
        (if x < c.bbX0 then x else c.bbX0, if x > c.bbX1 then x else c.bbX1,
         if y < c.bbY0 then y else c.bbY0, if y > c.bbY1 then y else c.bbY1)
      else (c.bbX0, c.bbX1, c.bbY0, c.bbY1) := by
  by_cases hin : 0 ≤ x ∧ x < c.width ∧ 0 ≤ y ∧ y < c.height
  · by_cases hch : ch ≠ ' '
    · have hcomp : (0 ≤ x ∧ x < c.width ∧ 0 ≤ y ∧ y < c.height) ∧ ch ≠ ' ' :=
        And.intro hin hch
      cases col with
      | none =>
        simp only [Canvas.put, if_pos hin, if_pos hch, if_pos hcomp,
          Canvas.setCell, Canvas.bbInclude]
      | some cv =>
        simp only [Canvas.put, if_pos hin, if_pos hch, if_pos hcomp,
          Canvas.setCell, Canvas.setColor, Canvas.bbInclude]
    · have hcomp : ¬((0 ≤ x ∧ x < c.width ∧ 0 ≤ y ∧ y < c.height) ∧ ch ≠ ' ') :=
        fun hk => hch hk.2
      cases col with
      | none =>
        simp only [Canvas.put, if_pos hin, if_neg hch, if_neg hcomp,
          Canvas.setCell]
      | some cv =>
        simp only [Canvas.put, if_pos hin, if_neg hch, if_neg hcomp,
          Canvas.setCell, Canvas.setColor]
  · have hcomp : ¬((0 ≤ x ∧ x < c.width ∧ 0 ≤ y ∧ y < c.height) ∧ ch ≠ ' ') :=
      fun hk => hin hk.1
    simp only [Canvas.put, if_neg hin, if_neg hcomp]

lemma inv_put (c : Canvas) (x y : Int) (ch : Char) (col : Option String)
    (h : CanvasInv c) : CanvasInv (c.put x y ch col) := by
  have hc := Canvas.cells_put c x y ch col
  have hw := Canvas.width_put c x y ch col
  have hh := Canvas.height_put c x y ch col
  have hbb := put_bb_spec c x y ch col
  by_cases hcond : (0 ≤ x ∧ x < c.width ∧ 0 ≤ y ∧ y < c.height) ∧ ch ≠ ' '
  · rw [if_pos hcond] at hbb
    simp only [Prod.mk.injEq] at hbb
    obtain ⟨hbb0, hbb1, hbb2, hbb3⟩ := hbb
    obtain ⟨hin, hch⟩ := hcond
    obtain ⟨hx0, hx1, hy0, hy1⟩ := hin
    refine ⟨?_, ?_, ?_, ?_, ?_, ?_, ?_, ?_⟩
    · rw [hw]; exact h.wNonneg
    · rw [hh]; exact h.hNonneg
    · intro a b ha0 ha1 hb0 hb1 hne
      rw [hw] at ha1; rw [hh] at hb1
      rw [hbb0, hbb1, hbb2, hbb3]
      rw [hc, if_pos ⟨hx0, hx1, hy0, hy1⟩] at hne
      by_cases heq : a = x ∧ b = y
      · obtain ⟨hax, hby⟩ := heq
        subst hax; subst hby
        split_ifs <;> omega
      · rw [if_neg heq] at hne
        obtain ⟨g1, g2, g3, g4⟩ := h.ink a b ha0 ha1 hb0 hb1 hne
        split_ifs <;> omega
    · intro a b hout
      rw [hw, hh] at hout
      rw [hc, if_pos ⟨hx0, hx1, hy0, hy1⟩]
      by_cases heq : a = x ∧ b = y
      · obtain ⟨hax, hby⟩ := heq
        subst hax; subst hby
        exact absurd ⟨hx0, hx1, hy0, hy1⟩ hout
      · rw [if_neg heq]
        exact h.outBlank a b hout
    · intro hge
      rw [hbb1] at hge
      rw [hbb0, hbb1, hw]
      have hA := h.bbx0
      by_cases hgt : x > c.bbX1
      · constructor
        · split_ifs <;> omega
        · rw [if_pos hgt]; omega
      · rw [if_neg hgt] at hge
        obtain ⟨hB, hC⟩ := h.bbx hge
        constructor
        · split_ifs <;> omega
        · rw [if_neg hgt]; omega
    · intro hge
      rw [hbb3] at hge
      rw [hbb2, hbb3, hh]
      have hA := h.bby0
      by_cases hgt : y > c.bbY1
      · constructor
        · split_ifs <;> omega
        · rw [if_pos hgt]; omega
      · rw [if_neg hgt] at hge
        obtain ⟨hB, hC⟩ := h.bby hge
        constructor
        · split_ifs <;> omega
        · rw [if_neg hgt]; omega
    · rw [hbb0]
      have := h.bbx0
      split_ifs <;> omega
    · rw [hbb2]
      have := h.bby0
      split_ifs <;> omega
  · rw [if_neg hcond] at hbb
    simp only [Prod.mk.injEq] at hbb
    obtain ⟨hbb0, hbb1, hbb2, hbb3⟩ := hbb
    refine ⟨?_, ?_, ?_, ?_, ?_, ?_, ?_, ?_⟩
    · rw [hw]; exact h.wNonneg
    · rw [hh]; exact h.hNonneg
    · intro a b ha0 ha1 hb0 hb1 hne
      rw [hw] at ha1; rw [hh] at hb1
      rw [hbb0, hbb1, hbb2, hbb3]
      rw [hc] at hne
      by_cases hin : 0 ≤ x ∧ x < c.width ∧ 0 ≤ y ∧ y < c.height
      · rw [if_pos hin] at hne
        by_cases heq : a = x ∧ b = y
        · rw [if_pos heq] at hne
          exact absurd ⟨hin, hne⟩ hcond
        · rw [if_neg heq] at hne
          exact h.ink a b ha0 ha1 hb0 hb1 hne
      · rw [if_neg hin] at hne
        exact h.ink a b ha0 ha1 hb0 hb1 hne
    · intro a b hout
      rw [hw, hh] at hout
      rw [hc]
      by_cases hin : 0 ≤ x ∧ x < c.width ∧ 0 ≤ y ∧ y < c.height
      · rw [if_pos hin]
        by_cases heq : a = x ∧ b = y
        · by_cases hch : ch = ' '
          · rw [if_pos heq, hch]
          · exact absurd ⟨hin, hch⟩ hcond
        · rw [if_neg heq]
          exact h.outBlank a b hout
      · rw [if_neg hin]
        exact h.outBlank a b hout
    · intro hge
      rw [hbb1] at hge
      rw [hbb0, hbb1, hw]
      exact h.bbx hge
    · intro hge
      rw [hbb3] at hge
      rw [hbb2, hbb3, hh]
      exact h.bby hge
    · rw [hbb0]
      exact h.bbx0
    · rw [hbb2]
      exact h.bby0

lemma putsStr_spec (c : Canvas) (x y : Int) (t : String) (col : Option String) :
    c.putsStr x y t col = c
    ∨ (0 ≤ y ∧ y < c.height
       ∧ max 0 (-x) < min ((t.length : Int)) (c.width - x)
       ∧ (c.putsStr x y t col).width = c.width
       ∧ (c.putsStr x y t col).height = c.height
       ∧ (∀ a b, (c.putsStr x y t col).cells a b ≠ c.cells a b →
            b = y ∧ x + max 0 (-x) ≤ a
              ∧ a < x + min ((t.length : Int)) (c.width - x))
       ∧ (c.putsStr x y t col).bbX0
           = (if x + max 0 (-x) < c.bbX0 then x + max 0 (-x) else c.bbX0)
       ∧ (c.putsStr x y t col).bbX1
           = (if x + min ((t.length : Int)) (c.width - x) - 1 > c.bbX1
               then x + min ((t.length : Int)) (c.width - x) - 1 else c.bbX1)
       ∧ (c.putsStr x y t col).bbY0 = (if y < c.bbY0 then y else c.bbY0)
       ∧ (c.putsStr x y t col).bbY1 = (if y > c.bbY1 then y else c.bbY1)) := by
  by_cases h1 : t = "" ∨ y < 0 ∨ y ≥ c.height
  · left
    simp only [Canvas.putsStr]
    rw [if_pos h1]
  · by_cases h2 : max 0 (-x) ≥ min ((t.length : Int)) (c.width - x)
    · left
      simp only [Canvas.putsStr]
      rw [if_neg h1, if_pos h2]
    · have h1' := h1
      push_neg at h1'
      obtain ⟨ht, hy0, hy1⟩ := h1'
      right
      cases col with
      | none =>
        simp only [Canvas.putsStr, Canvas.writeRun, if_neg h1, if_neg h2]
        refine ⟨hy0, hy1, by omega, by trivial, by trivial, ?_, by trivial, by trivial, by trivial, by trivial⟩
        intro a b hne
        by_cases hcond : b = y ∧ x + max 0 (-x) ≤ a ∧
            a < x + max 0 (-x) + (((t.data.drop (max 0 (-x)).toNat).take
              (min ((t.length : Int)) (c.width - x) - max 0 (-x)).toNat).length : Int)
        · obtain ⟨hb, hlo, hhi⟩ := hcond
          have hlen : ((t.data.drop (max 0 (-x)).toNat).take
              (min ((t.length : Int)) (c.width - x) - max 0 (-x)).toNat).length
              ≤ (min ((t.length : Int)) (c.width - x) - max 0 (-x)).toNat := by
            rw [List.length_take]
            exact min_le_left _ _
          exact ⟨hb, hlo, by omega⟩
        · rw [if_neg hcond] at hne
          exact absurd rfl hne
      | some cv =>
        simp only [Canvas.putsStr, Canvas.writeRun, Canvas.writeColorRun,
          if_neg h1, if_neg h2]
        refine ⟨hy0, hy1, by omega, by trivial, by trivial, ?_, by trivial, by trivial, by trivial, by trivial⟩
        intro a b hne
        by_cases hcond : b = y ∧ x + max 0 (-x) ≤ a ∧
            a < x + max 0 (-x) + (((t.data.drop (max 0 (-x)).toNat).take
              (min ((t.length : Int)) (c.width - x) - max 0 (-x)).toNat).length : Int)
        · obtain ⟨hb, hlo, hhi⟩ := hcond
          have hlen : ((t.data.drop (max 0 (-x)).toNat).take
              (min ((t.length : Int)) (c.width - x) - max 0 (-x)).toNat).length
              ≤ (min ((t.length : Int)) (c.width - x) - max 0 (-x)).toNat := by
            rw [List.length_take]
            exact min_le_left _ _
          exact ⟨hb, hlo, by omega⟩
        · rw [if_neg hcond] at hne
          exact absurd rfl hne

lemma inv_putsStr (c : Canvas) (x y : Int) (t : String) (col : Option String)
    (h : CanvasInv c) : CanvasInv (c.putsStr x y t col) := by
  rcases putsStr_spec c x y t col with heq |
    ⟨hy0, hy1, hss, hw, hh, hcells, hbb0, hbb1, hbb2, hbb3⟩
  · rw [heq]
    exact h
  · refine ⟨?_, ?_, ?_, ?_, ?_, ?_, ?_, ?_⟩
    · rw [hw]; exact h.wNonneg
    · rw [hh]; exact h.hNonneg
    · intro a b ha0 ha1 hb0 hb1 hne
      rw [hw] at ha1; rw [hh] at hb1
      rw [hbb0, hbb1, hbb2, hbb3]
      by_cases hch : (c.putsStr x y t col).cells a b = c.cells a b
      · rw [hch] at hne
        obtain ⟨g1, g2, g3, g4⟩ := h.ink a b ha0 ha1 hb0 hb1 hne
        split_ifs <;> omega
      · obtain ⟨hb, hlo, hhi⟩ := hcells a b hch
        subst hb
        split_ifs <;> omega
    · intro a b hout
      rw [hw, hh] at hout
      by_cases hch : (c.putsStr x y t col).cells a b = c.cells a b
      · rw [hch]
        exact h.outBlank a b hout
      · obtain ⟨hb, hlo, hhi⟩ := hcells a b hch
        subst hb
        exact absurd ⟨by omega, by omega, by omega, by omega⟩ hout
    · intro hge
      rw [hbb1] at hge
      rw [hbb0, hbb1, hw]
      have hA := h.bbx0
      constructor
      · split_ifs <;> omega
      · by_cases hgt : x + min ((t.length : Int)) (c.width - x) - 1 > c.bbX1
        · rw [if_pos hgt]
          omega
        · rw [if_neg hgt] at hge ⊢
          exact (h.bbx hge).2
    · intro hge
      rw [hbb3] at hge
      rw [hbb2, hbb3, hh]
      have hA := h.bby0
      constructor
      · split_ifs <;> omega
      · by_cases hgt : y > c.bbY1
        · rw [if_pos hgt]
          omega
        · rw [if_neg hgt] at hge ⊢
          exact (h.bby hge).2
    · rw [hbb0]
      have := h.bbx0
      split_ifs <;> omega
    · rw [hbb2]
      have := h.bby0
      split_ifs <;> omega

lemma inv_draw_hline (c : Canvas) (x1 x2 y : Int) (u : Bool)
    (col : Option String) (h : CanvasInv c) :
    CanvasInv (draw_hline c x1 x2 y u col) :=
  inv_putsStr c (min x1 x2) y
    (String.mk (List.replicate ((max x1 x2) - (min x1 x2) + 1).toNat
      (chars u).h)) col h

lemma draw_vline_spec (c : Canvas) (x y1 y2 : Int) (u : Bool)
    (col : Option String) :
    draw_vline c x y1 y2 u col = c
    ∨ (0 ≤ x ∧ x < c.width
       ∧ max (min y1 y2) 0 ≤ min (max y1 y2) (c.height - 1)
       ∧ (draw_vline c x y1 y2 u col).width = c.width
       ∧ (draw_vline c x y1 y2 u col).height = c.height
       ∧ (∀ a b, (draw_vline c x y1 y2 u col).cells a b ≠ c.cells a b →
            a = x ∧ max (min y1 y2) 0 ≤ b ∧ b ≤ min (max y1 y2) (c.height - 1))
       ∧ (draw_vline c x y1 y2 u col).bbX0 = (if x < c.bbX0 then x else c.bbX0)
       ∧ (draw_vline c x y1 y2 u col).bbX1 = (if x > c.bbX1 then x else c.bbX1)
       ∧ (draw_vline c x y1 y2 u col).bbY0
           = (if max (min y1 y2) 0 < c.bbY0 then max (min y1 y2) 0 else c.bbY0)
       ∧ (draw_vline c x y1 y2 u col).bbY1
           = (if min (max y1 y2) (c.height - 1) > c.bbY1
               then min (max y1 y2) (c.height - 1) else c.bbY1)) := by
  by_cases h1 : x < 0 ∨ x ≥ c.width
  · left
    simp only [draw_vline]
    rw [if_pos h1]
  · by_cases h2 : max (min y1 y2) 0 > min (max y1 y2) (c.height - 1)
    · left
      simp only [draw_vline]
      rw [if_neg h1, if_pos h2]
    · have h1' := h1
      push_neg at h1'
      obtain ⟨hx0, hx1⟩ := h1'
      right
      cases col with
      | none =>
        simp only [draw_vline, if_neg h1, if_neg h2]
        refine ⟨hx0, hx1, by omega, by trivial, by trivial, ?_,
          by trivial, by trivial, by trivial, by trivial⟩
        intro a b hne
        by_cases hcond : a = x ∧ max (min y1 y2) 0 ≤ b ∧
            b ≤ min (max y1 y2) (c.height - 1)
        · exact hcond
        · rw [if_neg hcond] at hne
          exact absurd rfl hne
      | some cv =>
        simp only [draw_vline, if_neg h1, if_neg h2]
        refine ⟨hx0, hx1, by omega, by trivial, by trivial, ?_,
          by trivial, by trivial, by trivial, by trivial⟩
        intro a b hne
        by_cases hcond : a = x ∧ max (min y1 y2) 0 ≤ b ∧
            b ≤ min (max y1 y2) (c.height - 1)
        · exact hcond
        · rw [if_neg hcond] at hne
          exact absurd rfl hne

lemma inv_draw_vline (c : Canvas) (x y1 y2 : Int) (u : Bool)
    (col : Option String) (h : CanvasInv c) :
    CanvasInv (draw_vline c x y1 y2 u col) := by
  rcases draw_vline_spec c x y1 y2 u col with heq |
    ⟨hx0, hx1, hss, hw, hh, hcells, hbb0, hbb1, hbb2, hbb3⟩
  · rw [heq]
    exact h
  · refine ⟨?_, ?_, ?_, ?_, ?_, ?_, ?_, ?_⟩
    · rw [hw]; exact h.wNonneg
    · rw [hh]; exact h.hNonneg
    · intro a b ha0 ha1 hb0 hb1 hne
      rw [hw] at ha1; rw [hh] at hb1
      rw [hbb0, hbb1, hbb2, hbb3]
      by_cases hch : (draw_vline c x y1 y2 u col).cells a b = c.cells a b
      · rw [hch] at hne
        obtain ⟨g1, g2, g3, g4⟩ := h.ink a b ha0 ha1 hb0 hb1 hne
        split_ifs <;> omega
      · obtain ⟨ha, hlo, hhi⟩ := hcells a b hch
        subst ha
        split_ifs <;> omega
    · intro a b hout
      rw [hw, hh] at hout
      by_cases hch : (draw_vline c x y1 y2 u col).cells a b = c.cells a b
      · rw [hch]
        exact h.outBlank a b hout
      · obtain ⟨ha, hlo, hhi⟩ := hcells a b hch
        subst ha
        exact absurd ⟨by omega, by omega, by omega, by omega⟩ hout
    · intro hge
      rw [hbb1] at hge
      rw [hbb0, hbb1, hw]
      have hA := h.bbx0
      constructor
      · split_ifs <;> omega
      · by_cases hgt : x > c.bbX1
        · rw [if_pos hgt]
          omega
        · rw [if_neg hgt] at hge ⊢
          exact (h.bbx hge).2
    · intro hge
      rw [hbb3] at hge
      rw [hbb2, hbb3, hh]
      have hA := h.bby0
      constructor
      · split_ifs <;> omega
      · by_cases hgt : min (max y1 y2) (c.height - 1) > c.bbY1
        · rw [if_pos hgt]
          omega
        · rw [if_neg hgt] at hge ⊢
          exact (h.bby hge).2
    · rw [hbb0]
      have := h.bbx0
      split_ifs <;> omega
    · rw [hbb2]
      have := h.bby0
      split_ifs <;> omega

lemma inv_blit (c : Canvas) (x y : Int) (block : String)
    (col : Option String) (h : CanvasInv c) :
    CanvasInv (c.blit x y block col) := by
  rw [Canvas.blit]
  generalize (pySplit '\x0a' block).enum = rows
  induction rows generalizing c with
  | nil => exact h
  | cons r rest ih =>
    rw [List.foldl_cons]
    apply ih
    generalize hcs : r.2.data.enum = cols
    clear hcs
    induction cols generalizing c with
    | nil => exact h
    | cons q qs ihq =>
      rw [List.foldl_cons]
      apply ihq
      by_cases hq : q.2 ≠ ' '
      · rw [if_pos hq]
        exact inv_put _ _ _ _ _ h
      · rw [if_neg hq]
        exact h

lemma blitCanvas_spec (c src : Canvas) (x y : Int) :
    c.blitCanvas src x y = c
    ∨ ((c.blitCanvas src x y).width = c.width
       ∧ (c.blitCanvas src x y).height = c.height
       ∧ (∀ a b, (c.blitCanvas src x y).cells a b ≠ c.cells a b →
            x + src.bbX0 ≤ a ∧ a ≤ x + src.bbX1
              ∧ y + src.bbY0 ≤ b ∧ b ≤ y + src.bbY1
              ∧ 0 ≤ a ∧ a < c.width ∧ 0 ≤ b ∧ b < c.height)
       ∧ (c.blitCanvas src x y).bbX0
           = (if x + src.bbX0 < c.bbX0 then max 0 (x + src.bbX0) else c.bbX0)
       ∧ (c.blitCanvas src x y).bbX1
           = (if x + src.bbX1 > c.bbX1
               then min (c.width - 1) (x + src.bbX1) else c.bbX1)
       ∧ (c.blitCanvas src x y).bbY0
           = (if y + src.bbY0 < c.bbY0 then max 0 (y + src.bbY0) else c.bbY0)
       ∧ (c.blitCanvas src x y).bbY1
           = (if y + src.bbY1 > c.bbY1
               then min (c.height - 1) (y + src.bbY1) else c.bbY1)) := by
  by_cases h1 : src.bbX1 < 0
  · left
    simp only [Canvas.blitCanvas]
    rw [if_pos h1]
  · right
    simp only [Canvas.blitCanvas, if_neg h1, decide_eq_true_eq]
    refine ⟨by trivial, by trivial, ?_, by trivial, by trivial, by trivial,
      by trivial⟩
    intro a b hne
    by_cases hcond : src.bbY0 ≤ b - y ∧ b - y ≤ src.bbY1 ∧ 0 ≤ b ∧
        b < c.height ∧ src.bbX0 ≤ a - x ∧ a - x ≤ src.bbX1 ∧ 0 ≤ a ∧
        a < c.width ∧ src.cells (a - x) (b - y) ≠ ' '
    · obtain ⟨q1, q2, q3, q4, q5, q6, q7, q8, q9⟩ := hcond
      exact ⟨by omega, by omega, by omega, by omega, q7, q8, q3, q4⟩
    · rw [if_neg hcond] at hne
      exact absurd rfl hne

lemma inv_blitCanvas (c src : Canvas) (x y : Int) (h : CanvasInv c) :
    CanvasInv (c.blitCanvas src x y) := by
  have hbx1w : c.bbX1 < c.width := by
    rcases le_or_lt 0 c.bbX1 with hc | hc
    · exact (h.bbx hc).2
    · exact lt_of_lt_of_le hc h.wNonneg
  have hby1w : c.bbY1 < c.height := by
    rcases le_or_lt 0 c.bbY1 with hc | hc
    · exact (h.bby hc).2
    · exact lt_of_lt_of_le hc h.hNonneg
  rcases blitCanvas_spec c src x y with heq |
    ⟨hw, hh, hcells, hbb0, hbb1, hbb2, hbb3⟩
  · rw [heq]
    exact h
  · refine ⟨?_, ?_, ?_, ?_, ?_, ?_, ?_, ?_⟩
    · rw [hw]; exact h.wNonneg
    · rw [hh]; exact h.hNonneg
    · intro a b ha0 ha1 hb0 hb1 hne
      rw [hw] at ha1; rw [hh] at hb1
      rw [hbb0, hbb1, hbb2, hbb3]
      by_cases hch : (c.blitCanvas src x y).cells a b = c.cells a b
      · rw [hch] at hne
        obtain ⟨g1, g2, g3, g4⟩ := h.ink a b ha0 ha1 hb0 hb1 hne
        have hA := h.bbx0
        have hB := h.bby0
        split_ifs <;> omega
      · obtain ⟨q1, q2, q3, q4, q5, q6, q7, q8⟩ := hcells a b hch
        split_ifs <;> omega
    · intro a b hout
      rw [hw, hh] at hout
      by_cases hch : (c.blitCanvas src x y).cells a b = c.cells a b
      · rw [hch]
        exact h.outBlank a b hout
      · obtain ⟨q1, q2, q3, q4, q5, q6, q7, q8⟩ := hcells a b hch
        exact absurd ⟨q5, q6, q7, q8⟩ hout
    · intro hge
      rw [hbb1] at hge
      rw [hbb0, hbb1, hw]
      have hA := h.bbx0
      constructor
      · split_ifs <;> omega
      · by_cases hgt : x + src.bbX1 > c.bbX1
        · rw [if_pos hgt]
          have hwpos : 0 ≤ c.width := h.wNonneg
          omega
        · rw [if_neg hgt] at hge ⊢
          exact (h.bbx hge).2
    · intro hge
      rw [hbb3] at hge
      rw [hbb2, hbb3, hh]
      have hA := h.bby0
      constructor
      · split_ifs <;> omega
      · by_cases hgt : y + src.bbY1 > c.bbY1
        · rw [if_pos hgt]
          have hhpos : 0 ≤ c.height := h.hNonneg
          omega
        · rw [if_neg hgt] at hge ⊢
          exact (h.bby hge).2
    · rw [hbb0]
      have := h.bbx0
      split_ifs <;> omega
    · rw [hbb2]
      have := h.bby0
      split_ifs <;> omega

/-! ### Write confinement: draw_box only touches its own rectangle -/

lemma mem_enum_facts {α : Type} {q : Nat × α} {l : List α}
    (h : q ∈ l.enum) : q.1 < l.length ∧ q.2 ∈ l := by
  rw [List.mem_enum_iff_getElem?] at h
  obtain ⟨hlt, hget⟩ := List.getElem?_eq_some.mp h
  exact ⟨hlt, hget ▸ List.getElem_mem hlt⟩

lemma mem_intRange {a b k : Int} (h : k ∈ intRange a b) :
    a ≤ k ∧ k < b := by
  rw [intRange, List.mem_map] at h
  obtain ⟨j, hj, hk⟩ := h
  rw [List.mem_range] at hj
  subst hk
  omega

/-- `cc` agrees with `c` on dimensions, bounding box, and every cell
outside the rectangle [rx0,rx1] x [ry0,ry1]. -/
def SameOutside (c cc : Canvas) (rx0 rx1 ry0 ry1 : Int) : Prop :=
  cc.width = c.width ∧ cc.height = c.height ∧
  cc.bbX0 = c.bbX0 ∧ cc.bbX1 = c.bbX1 ∧
  cc.bbY0 = c.bbY0 ∧ cc.bbY1 = c.bbY1 ∧
  ∀ a b, ¬(rx0 ≤ a ∧ a ≤ rx1 ∧ ry0 ≤ b ∧ b ≤ ry1) →
    cc.cells a b = c.cells a b

lemma sameOutside_refl (c : Canvas) (rx0 rx1 ry0 ry1 : Int) :
    SameOutside c c rx0 rx1 ry0 ry1 :=
  ⟨rfl, rfl, rfl, rfl, rfl, rfl, fun _ _ _ => rfl⟩

lemma sameOutside_trans {c1 c2 c3 : Canvas} {rx0 rx1 ry0 ry1 : Int}
    (h12 : SameOutside c1 c2 rx0 rx1 ry0 ry1)
    (h23 : SameOutside c2 c3 rx0 rx1 ry0 ry1) :
    SameOutside c1 c3 rx0 rx1 ry0 ry1 := by
  obtain ⟨a1, a2, a3, a4, a5, a6, a7⟩ := h12
  obtain ⟨b1, b2, b3, b4, b5, b6, b7⟩ := h23
  exact ⟨b1.trans a1, b2.trans a2, b3.trans a3, b4.trans a4, b5.trans a5,
    b6.trans a6, fun a b hout => (b7 a b hout).trans (a7 a b hout)⟩

lemma sameOutside_writeRun (cc : Canvas) (ry rx : Int) (cs : List Char)
    {rx0 rx1 ry0 ry1 : Int}
    (h1 : rx0 ≤ rx) (h2 : rx + (cs.length : Int) - 1 ≤ rx1)
    (h3 : ry0 ≤ ry) (h4 : ry ≤ ry1) :
    SameOutside cc (cc.writeRun ry rx cs) rx0 rx1 ry0 ry1 := by
  refine ⟨rfl, rfl, rfl, rfl, rfl, rfl, ?_⟩
  intro a b hout
  simp only [Canvas.writeRun]
  have hcond : ¬(b = ry ∧ rx ≤ a ∧ a < rx + (cs.length : Int)) := by
    rintro ⟨hb, hl, hr⟩
    exact hout ⟨by omega, by omega, by omega, by omega⟩
  rw [if_neg hcond]

lemma sameOutside_setCell (cc : Canvas) (x y : Int) (ch : Char)
    {rx0 rx1 ry0 ry1 : Int}
    (h1 : rx0 ≤ x) (h2 : x ≤ rx1) (h3 : ry0 ≤ y) (h4 : y ≤ ry1) :
    SameOutside cc (cc.setCell x y ch) rx0 rx1 ry0 ry1 := by
  refine ⟨rfl, rfl, rfl, rfl, rfl, rfl, ?_⟩
  intro a b hout
  simp only [Canvas.setCell]
  have hcond : ¬(a = x ∧ b = y) := by
    rintro ⟨ha, hb⟩
    exact hout ⟨by omega, by omega, by omega, by omega⟩
  rw [if_neg hcond]

lemma sameOutside_setColor (cc : Canvas) (x y : Int) (col : Option String)
    (rx0 rx1 ry0 ry1 : Int) :
    SameOutside cc (cc.setColor x y col) rx0 rx1 ry0 ry1 :=
  ⟨rfl, rfl, rfl, rfl, rfl, rfl, fun _ _ _ => rfl⟩

lemma sameOutside_writeColorRun (cc : Canvas) (y x len : Int)
    (col : Option String) (rx0 rx1 ry0 ry1 : Int) :
    SameOutside cc (cc.writeColorRun y x len col) rx0 rx1 ry0 ry1 :=
  ⟨rfl, rfl, rfl, rfl, rfl, rfl, fun _ _ _ => rfl⟩

lemma sameOutside_foldl {α : Type} (f : Canvas → α → Canvas) (l : List α)
    (c cc : Canvas) (rx0 rx1 ry0 ry1 : Int)
    (h : SameOutside c cc rx0 rx1 ry0 ry1)
    (hf : ∀ d q, q ∈ l → SameOutside d (f d q) rx0 rx1 ry0 ry1) :
    SameOutside c (l.foldl f cc) rx0 rx1 ry0 ry1 := by
  induction l generalizing cc with
  | nil => exact h
  | cons q qs ih =>
    rw [List.foldl_cons]
    exact ih (f cc q)
      (sameOutside_trans h (hf cc q (List.mem_cons_self q qs)))
      (fun d r hr => hf d r (List.mem_cons_of_mem q hr))

lemma sameOutside_colorOpt {rx0 rx1 ry0 ry1 : Int} (cb : Canvas)
    (o : Option String) (f : Canvas → String → Canvas)
    (hf : ∀ d s, SameOutside d (f d s) rx0 rx1 ry0 ry1) :
    SameOutside cb (match o with | some s => f cb s | none => cb)
      rx0 rx1 ry0 ry1 := by
  cases o with
  | none => exact sameOutside_refl cb rx0 rx1 ry0 ry1
  | some s => exact hf cb s

lemma length_border_chars (a h b : Char) (n : Nat) :
    ([a] ++ List.replicate n h ++ [b]).length = n + 2 := by
  simp only [List.length_append, List.length_replicate,
    List.length_singleton]
  omega

lemma length_label_top (tl : Char) (lbl : List Char) (h tr : Char)
    (n : Nat) :
    ([tl, ' '] ++ lbl ++ [' '] ++ List.replicate n h ++ [tr]).length
      = lbl.length + n + 4 := by
  simp only [List.length_append, List.length_replicate,
    List.length_singleton, List.length_cons, List.length_nil]
  omega

lemma inv_bbExpand (c cc : Canvas) (rx0 rx1 ry0 ry1 : Int)
    (h : CanvasInv c) (hso : SameOutside c cc rx0 rx1 ry0 ry1)
    (h1 : 0 ≤ rx0) (h2 : rx1 < c.width) (h3 : 0 ≤ ry0)
    (h4 : ry1 < c.height) :
    CanvasInv (bbExpand cc rx0 rx1 ry0 ry1) := by
  obtain ⟨sw, sh, s0, s1, s2, s3, scells⟩ := hso
  refine ⟨?_, ?_, ?_, ?_, ?_, ?_, ?_, ?_⟩
  · show 0 ≤ cc.width
    rw [sw]; exact h.wNonneg
  · show 0 ≤ cc.height
    rw [sh]; exact h.hNonneg
  · intro a b ha0 ha1 hb0 hb1 hne
    simp only [bbExpand] at ha1 hb1 hne ⊢
    rw [sw] at ha1
    rw [sh] at hb1
    rw [s0, s1, s2, s3]
    by_cases hin : rx0 ≤ a ∧ a ≤ rx1 ∧ ry0 ≤ b ∧ b ≤ ry1
    · obtain ⟨q1, q2, q3, q4⟩ := hin
      split_ifs <;> omega
    · rw [scells a b hin] at hne
      obtain ⟨g1, g2, g3, g4⟩ := h.ink a b ha0 ha1 hb0 hb1 hne
      split_ifs <;> omega
  · intro a b hout
    simp only [bbExpand] at hout ⊢
    rw [sw, sh] at hout
    by_cases hin : rx0 ≤ a ∧ a ≤ rx1 ∧ ry0 ≤ b ∧ b ≤ ry1
    · obtain ⟨q1, q2, q3, q4⟩ := hin
      exact absurd ⟨by omega, by omega, by omega, by omega⟩ hout
    · rw [scells a b hin]
      exact h.outBlank a b hout
  · intro hge
    simp only [bbExpand] at hge ⊢
    rw [s1] at hge
    rw [s0, s1, sw]
    have hA := h.bbx0
    constructor
    · split_ifs <;> omega
    · by_cases hgt : rx1 > c.bbX1
      · rw [if_pos hgt]
        omega
      · rw [if_neg hgt] at hge ⊢
        exact (h.bbx hge).2
  · intro hge
    simp only [bbExpand] at hge ⊢
    rw [s3] at hge
    rw [s2, s3, sh]
    have hA := h.bby0
    constructor
    · split_ifs <;> omega
    · by_cases hgt : ry1 > c.bbY1
      · rw [if_pos hgt]
        omega
      · rw [if_neg hgt] at hge ⊢
        exact (h.bby hge).2
  · show 0 ≤ (if rx0 < cc.bbX0 then rx0 else cc.bbX0)
    rw [s0]
    have := h.bbx0
    split_ifs <;> omega
  · show 0 ≤ (if ry0 < cc.bbY0 then ry0 else cc.bbY0)
    rw [s2]
    have := h.bby0
    split_ifs <;> omega

lemma sameOutside_drawBoxTop (c : Canvas) (box : Box) (u : Bool)
    (tl : Option String) (bc tyc : Option String)
    (hw2 : 2 ≤ box.w) (hh2 : 2 ≤ box.h) :
    SameOutside c (drawBoxTop c box u tl bc tyc)
      box.x (box.x + box.w - 1) box.y (box.y + box.h - 1) := by
  have hlen := length_border_chars (chars u).tl (chars u).h (chars u).tr
    (box.w - 2).toNat
  cases tl with
  | none =>
    simp only [drawBoxTop]
    exact sameOutside_trans
      (sameOutside_writeRun c box.y box.x _
        (by omega) (by omega) (by omega) (by omega))
      (sameOutside_colorOpt _ bc _
        (fun d s => sameOutside_writeColorRun d box.y box.x box.w (some s)
          _ _ _ _))
  | some lbl =>
    simp only [drawBoxTop]
    by_cases hg : lbl ≠ "" ∧ (lbl.length : Int) + 2 ≤ box.w - 2
    · rw [if_pos hg]
      obtain ⟨hne, hfit⟩ := hg
      have hlen2 := length_label_top (chars u).tl lbl.data (chars u).h
        (chars u).tr (box.w - 2 - (lbl.length : Int) - 2).toNat
      have hdl : lbl.data.length = lbl.length := rfl
      exact sameOutside_trans
        (sameOutside_trans
          (sameOutside_writeRun c box.y box.x _
            (by omega) (by omega) (by omega) (by omega))
          (sameOutside_colorOpt _ bc _
            (fun d s => sameOutside_writeColorRun d box.y box.x box.w
              (some s) _ _ _ _)))
        (sameOutside_colorOpt _ _ _
          (fun d s => sameOutside_writeColorRun d box.y (box.x + 2)
            (lbl.length : Int) (some s) _ _ _ _))
    · rw [if_neg hg]
      exact sameOutside_trans
        (sameOutside_writeRun c box.y box.x _
          (by omega) (by omega) (by omega) (by omega))
        (sameOutside_colorOpt _ bc _
          (fun d s => sameOutside_writeColorRun d box.y box.x box.w (some s)
            _ _ _ _))

lemma sameOutside_drawBoxContentStep (box : Box) (u : Bool)
    (bc tcol : Option String) (d : Canvas) (p : Nat × String)
    (hw2 : 2 ≤ box.w) (hp : (p.1 : Int) ≤ box.h - 3)
    (htext : (p.2.length : Int) ≤ box.w - 2) :
    SameOutside d (drawBoxContentStep box u bc tcol d p)
      box.x (box.x + box.w - 1) box.y (box.y + box.h - 1) := by
  have hdl : p.2.data.length = p.2.length := rfl
  simp only [drawBoxContentStep]
  exact sameOutside_trans
    (sameOutside_trans
      (sameOutside_trans
        (sameOutside_trans
          (sameOutside_setCell d box.x (box.y + 1 + (p.1 : Int)) (chars u).v
            (by omega) (by omega) (by omega) (by omega))
          (sameOutside_setCell _ (box.x + box.w - 1)
            (box.y + 1 + (p.1 : Int)) (chars u).v
            (by omega) (by omega) (by omega) (by omega)))
        (sameOutside_writeRun _ (box.y + 1 + (p.1 : Int))
          (box.x + 1 + (box.w - 2 - (p.2.length : Int)) / 2) p.2.data
          (by omega) (by omega) (by omega) (by omega)))
      (sameOutside_colorOpt _ bc _
        (fun e s => sameOutside_trans
          (sameOutside_setColor e box.x (box.y + 1 + (p.1 : Int)) (some s)
            _ _ _ _)
          (sameOutside_setColor _ (box.x + box.w - 1)
            (box.y + 1 + (p.1 : Int)) (some s) _ _ _ _))))
    (sameOutside_colorOpt _ tcol _
      (fun e s => sameOutside_writeColorRun e (box.y + 1 + (p.1 : Int))
        (box.x + 1 + (box.w - 2 - (p.2.length : Int)) / 2)
        (p.2.length : Int) (some s) _ _ _ _))

lemma sameOutside_drawBoxFillStep (box : Box) (u : Bool)
    (bc : Option String) (d : Canvas) (ry : Int)
    (hw2 : 2 ≤ box.w) (hry0 : box.y ≤ ry)
    (hry1 : ry ≤ box.y + box.h - 1) :
    SameOutside d (drawBoxFillStep box u bc d ry)
      box.x (box.x + box.w - 1) box.y (box.y + box.h - 1) := by
  simp only [drawBoxFillStep]
  exact sameOutside_trans
    (sameOutside_trans
      (sameOutside_setCell d box.x ry (chars u).v
        (by omega) (by omega) (by omega) (by omega))
      (sameOutside_setCell _ (box.x + box.w - 1) ry (chars u).v
        (by omega) (by omega) (by omega) (by omega)))
    (sameOutside_colorOpt _ bc _
      (fun e s => sameOutside_trans
        (sameOutside_setColor e box.x ry (some s) _ _ _ _)
        (sameOutside_setColor _ (box.x + box.w - 1) ry (some s) _ _ _ _)))

lemma sameOutside_drawBoxBottom (d : Canvas) (box : Box) (u : Bool)
    (bc : Option String) (hw2 : 2 ≤ box.w) (hh2 : 2 ≤ box.h) :
    SameOutside d (drawBoxBottom d box u bc)
      box.x (box.x + box.w - 1) box.y (box.y + box.h - 1) := by
  have hlen := length_border_chars (chars u).bl (chars u).h (chars u).br
    (box.w - 2).toNat
  simp only [drawBoxBottom]
  exact sameOutside_trans
    (sameOutside_writeRun d (box.y + box.h - 1) box.x _
      (by omega) (by omega) (by omega) (by omega))
    (sameOutside_colorOpt _ bc _
      (fun e s => sameOutside_writeColorRun e (box.y + box.h - 1) box.x
        box.w (some s) _ _ _ _))

lemma inv_draw_box (c : Canvas) (box : Box) (lines : List String)
    (u : Bool) (tl : Option String) (bc tcol tyc : Option String)
    (h : CanvasInv c)
    (hw2 : 2 ≤ box.w) (hh2 : 2 ≤ box.h)
    (hx0 : 0 ≤ box.x) (hx1 : box.x + box.w - 1 < c.width)
    (hy0 : 0 ≤ box.y) (hy1 : box.y + box.h - 1 < c.height)
    (hcount : (lines.length : Int) ≤ box.h - 2)
    (hlines : ∀ t ∈ lines, (t.length : Int) ≤ box.w - 2) :
    CanvasInv (draw_box c box lines u tl bc tcol tyc) := by
  have so1 := sameOutside_drawBoxTop c box u tl bc tyc hw2 hh2
  have so2 := sameOutside_foldl (drawBoxContentStep box u bc tcol)
    lines.enum c (drawBoxTop c box u tl bc tyc)
    box.x (box.x + box.w - 1) box.y (box.y + box.h - 1) so1
    (fun d q hq => sameOutside_drawBoxContentStep box u bc tcol d q hw2
      (by have := (mem_enum_facts hq).1; omega)
      (hlines q.2 (mem_enum_facts hq).2))
  have so3 := sameOutside_foldl (drawBoxFillStep box u bc)
    (intRange (box.y + 1 + (lines.length : Int)) (box.y + box.h - 1)) c _
    box.x (box.x + box.w - 1) box.y (box.y + box.h - 1) so2
    (fun d ry hry => sameOutside_drawBoxFillStep box u bc d ry hw2
      (by have := (mem_intRange hry).1; omega)
      (by have := (mem_intRange hry).2; omega))
  have so4 := sameOutside_trans so3
    (sameOutside_drawBoxBottom _ box u bc hw2 hh2)
  simp only [draw_box]
  exact inv_bbExpand c _ box.x (box.x + box.w - 1) box.y (box.y + box.h - 1)
    h so4 hx0 hx1 hy0 hy1

/-- One drawing operation of the canvas API (canvas.py write methods and
module-level drawing functions). -/
inductive CanvasOp where
  | put (x y : Int) (ch : Char) (col : Option String)
  | puts (x y : Int) (t : String) (col : Option String)
  | blit (x y : Int) (block : String) (col : Option String)
  | blitC (src : Canvas) (x y : Int)
  | box (b : Box) (lines : List String) (u : Bool) (tl : Option String)
      (bc tc tyc : Option String)
  | hline (x1 x2 y : Int) (u : Bool) (col : Option String)
  | vline (x y1 y2 : Int) (u : Bool) (col : Option String)

def applyOp (c : Canvas) : CanvasOp → Canvas
  | .put x y ch col => c.put x y ch col
  | .puts x y t col => c.putsStr x y t col
  | .blit x y blk col => c.blit x y blk col
  | .blitC src x y => c.blitCanvas src x y
  | .box b ls u tl bc tc tyc => draw_box c b ls u tl bc tc tyc
  | .hline x1 x2 y u col => draw_hline c x1 x2 y u col
  | .vline x y1 y2 u col => draw_vline c x y1 y2 u col

def applyOps (c : Canvas) : List CanvasOp → Canvas
  | [] => c
  | op :: ops => applyOps (applyOp c op) ops

/-- Well-formedness of one operation: every operation is clipped by the
canvas except draw_box, whose raw writes must fit the grid and whose
content must fit the box (exactly what the renderer guarantees by
construction). -/
def OpOK (c : Canvas) : CanvasOp → Prop
  | .box b ls _ _ _ _ _ =>
      2 ≤ b.w ∧ 2 ≤ b.h ∧ 0 ≤ b.x ∧ b.x + b.w - 1 < c.width ∧
      0 ≤ b.y ∧ b.y + b.h - 1 < c.height ∧
      (ls.length : Int) ≤ b.h - 2 ∧ ∀ t ∈ ls, (t.length : Int) ≤ b.w - 2
  | _ => True

def OpsOK (c : Canvas) : List CanvasOp → Prop
  | [] => True
  | op :: ops => OpOK c op ∧ OpsOK (applyOp c op) ops

lemma inv_applyOp (c : Canvas) (op : CanvasOp) (h : CanvasInv c)
    (hok : OpOK c op) : CanvasInv (applyOp c op) := by
  cases op with
  | put x y ch col => exact inv_put c x y ch col h
  | puts x y t col => exact inv_putsStr c x y t col h
  | blit x y blk col => exact inv_blit c x y blk col h
  | blitC src x y => exact inv_blitCanvas c src x y h
  | box b ls u tl bc tc tyc =>
    obtain ⟨k1, k2, k3, k4, k5, k6, k7, k8⟩ := hok
    exact inv_draw_box c b ls u tl bc tc tyc h k1 k2 k3 k4 k5 k6 k7 k8
  | hline x1 x2 y u col => exact inv_draw_hline c x1 x2 y u col h
  | vline x y1 y2 u col => exact inv_draw_vline c x y1 y2 u col h

lemma inv_applyOps (c : Canvas) (ops : List CanvasOp) (h : CanvasInv c)
    (hok : OpsOK c ops) : CanvasInv (applyOps c ops) := by
  induction ops generalizing c with
  | nil => exact h
  | cons op rest ih =>
    obtain ⟨h1, h2⟩ := hok
    exact ih (applyOp c op) (inv_applyOp c op h h1) h2

/-- C10: as stated the bounding-box invariant fails for arbitrary
argument sequences: draw_box writes its content rows raw, so a content
line longer than the inner width spills outside the box rectangle while
the bounding box is widened only by the rectangle. On a 6x4 canvas,
drawing a box at x=1 of width 2 with content line "AAAA" leaves the
non-space cell (0,1) inside the grid but left of bb_x0 = 1. -/
theorem C10_bbox_counterexample :
    (applyOps (Canvas.init 6 4)
        [CanvasOp.box (Box.mk 1 0 2 3) ["AAAA"] false none none none
          none]).cells 0 1 ≠ ' '
    ∧ (0:Int) < (applyOps (Canvas.init 6 4)
        [CanvasOp.box (Box.mk 1 0 2 3) ["AAAA"] false none none none
          none]).width
    ∧ (1:Int) < (applyOps (Canvas.init 6 4)
        [CanvasOp.box (Box.mk 1 0 2 3) ["AAAA"] false none none none
          none]).height
    ∧ ¬((applyOps (Canvas.init 6 4)
        [CanvasOp.box (Box.mk 1 0 2 3) ["AAAA"] false none none none
          none]).bbX0 ≤ 0) := by
  refine ⟨by decide, by decide, by decide, by decide⟩

/-- C10 (amended): for every operation sequence on a freshly allocated
canvas in which each draw_box call fits the grid and its content fits
the box — which is what the renderer always produces — every non-space
cell of the grid lies within the tracked bounding box
[bbX0..bbX1] x [bbY0..bbY1], even though the box may over-approximate
(overwriting ink with a space never shrinks it). -/
theorem C10_bbox_invariant (w h : Int) (ops : List CanvasOp)
    (hw : 0 ≤ w) (hh : 0 ≤ h)
    (hok : OpsOK (Canvas.init w h) ops) :
    ∀ x y, 0 ≤ x → x < (applyOps (Canvas.init w h) ops).width →
      0 ≤ y → y < (applyOps (Canvas.init w h) ops).height →
      (applyOps (Canvas.init w h) ops).cells x y ≠ ' ' →
      (applyOps (Canvas.init w h) ops).bbX0 ≤ x ∧
        x ≤ (applyOps (Canvas.init w h) ops).bbX1 ∧
        (applyOps (Canvas.init w h) ops).bbY0 ≤ y ∧
        y ≤ (applyOps (Canvas.init w h) ops).bbY1 :=
  (inv_applyOps (Canvas.init w h) ops (inv_init w h hw hh) hok).ink

theorem C10_bbox_invariant_witness :
    (applyOps (Canvas.init 6 4) [CanvasOp.put 1 1 '\x41' none]).bbX0 ≤ 1 ∧
    (1:Int) ≤ (applyOps (Canvas.init 6 4)
      [CanvasOp.put 1 1 '\x41' none]).bbX1 ∧
    (applyOps (Canvas.init 6 4) [CanvasOp.put 1 1 '\x41' none]).bbY0 ≤ 1 ∧
    (1:Int) ≤ (applyOps (Canvas.init 6 4)
      [CanvasOp.put 1 1 '\x41' none]).bbY1 :=
  C10_bbox_invariant 6 4 [CanvasOp.put 1 1 '\x41' none] (by decide)
    (by decide) ⟨trivial, trivial⟩ 1 1 (by decide) (by decide) (by decide)
    (by decide) (by decide)

/-! ### C5: to_string trimming -/

theorem scanLast_spec (rowAt : Int → Char) (i : Int) :
    (scanLast rowAt i < 0 ∧ ∀ a, 0 ≤ a → a ≤ i → rowAt a = ' ')
    ∨ (0 ≤ scanLast rowAt i ∧ scanLast rowAt i ≤ i ∧
        rowAt (scanLast rowAt i) ≠ ' ' ∧
        ∀ a, scanLast rowAt i < a → a ≤ i → rowAt a = ' ') := by
  by_cases h0 : i < 0
  · left
    rw [scanLast, if_pos h0]
    exact ⟨h0, fun a ha hai => ((by omega : False).elim)⟩
  · by_cases hsp : rowAt i = ' '
    · rw [scanLast, if_neg h0, if_pos hsp]
      rcases scanLast_spec rowAt (i - 1) with ⟨h1, h2⟩ | ⟨h1, h2, h3, h4⟩
      · left
        refine ⟨h1, fun a ha hai => ?_⟩
        by_cases hai' : a ≤ i - 1
        · exact h2 a ha hai'
        · have haeq : a = i := by omega
          rw [haeq]
          exact hsp
      · right
        refine ⟨h1, by omega, h3, fun a hlt hle => ?_⟩
        by_cases hai' : a ≤ i - 1
        · exact h4 a hlt hai'
        · have haeq : a = i := by omega
          rw [haeq]
          exact hsp
    · rw [scanLast, if_neg h0, if_neg hsp]
      right
      exact ⟨by omega, le_refl i, hsp,
        fun a hlt hle => ((by omega : False).elim)⟩
termination_by (i + 1).toNat
decreasing_by omega

lemma intRange_length (a b : Int) :
    (intRange a b).length = (b - a).toNat := by
  simp [intRange]

lemma intRange_eq_nil {a b : Int} (h : b ≤ a) : intRange a b = [] := by
  rw [intRange]
  have : (b - a).toNat = 0 := by omega
  rw [this]
  rfl

lemma intRange_concat {a b : Int} (h : a < b) :
    intRange a b = intRange a (b - 1) ++ [b - 1] := by
  rw [intRange, intRange]
  have h1 : (b - a).toNat = (b - 1 - a).toNat + 1 := by omega
  rw [h1, List.range_succ, List.map_append]
  congr 1
  simp only [List.map_cons, List.map_nil]
  congr 1
  omega

lemma joinSep_empty_cons (x : String) (l : List String) :
    joinSep "" (x :: l) = x ++ joinSep "" l := by
  cases l with
  | nil => exact (String.append_empty x).symm
  | cons y ys =>
    rw [joinSep, String.append_empty]

lemma joinSep_empty_append (l1 l2 : List String) :
    joinSep "" (l1 ++ l2) = joinSep "" l1 ++ joinSep "" l2 := by
  induction l1 with
  | nil =>
    rw [List.nil_append]
    exact (String.empty_append _).symm
  | cons x xs ih =>
    rw [List.cons_append, joinSep_empty_cons, joinSep_empty_cons, ih,
      String.append_assoc]

lemma joinSep_empty_length (l : List String) :
    (joinSep "" l).length = (l.map String.length).sum := by
  induction l with
  | nil => rfl
  | cons x xs ih =>
    rw [joinSep_empty_cons, String.length_append, ih, List.map_cons,
      List.sum_cons]

lemma rowChars_length (c : Canvas) (y last : Int) :
    (c.rowChars y last).length = (last + 1).toNat := by
  rw [Canvas.rowChars, List.length_map, intRange_length]
  have h : last + 1 - 0 = last + 1 := by omega
  rw [h]

lemma rowChars_getLast (c : Canvas) (y last : Int) (h : 0 ≤ last) :
    (c.rowChars y last).getLast? = some (c.cells last y) := by
  rw [Canvas.rowChars, intRange_concat (by omega : (0:Int) < last + 1),
    List.map_append]
  simp only [List.map_cons, List.map_nil]
  rw [List.getLast?_concat]
  have he : last + 1 - 1 = last := by omega
  rw [he]

lemma colorFold_state (rowList : List Char) (colAt : Int → Option String)
    (l : List Int) (st : List String × Option String × Int) (stop : Int)
    (hst : 0 ≤ st.2.2 ∧ st.2.2 < stop)
    (hl : ∀ x ∈ l, 0 ≤ x ∧ x < stop) :
    0 ≤ (l.foldl (colorRunStep rowList colAt) st).2.2 ∧
      (l.foldl (colorRunStep rowList colAt) st).2.2 < stop := by
  induction l generalizing st with
  | nil => exact hst
  | cons x xs ih =>
    obtain ⟨parts, cur, rs⟩ := st
    rw [List.foldl_cons]
    refine ih (colorRunStep rowList colAt (parts, cur, rs) x) ?_
      (fun z hz => hl z (List.mem_cons_of_mem x hz))
    have hx := hl x (List.mem_cons_self x xs)
    simp only [colorRunStep]
    by_cases hc : colAt x ≠ cur
    · rw [if_pos hc]
      exact ⟨hx.1, hx.2⟩
    · rw [if_neg hc]
      exact hst

lemma colorRow_shape (rowList : List Char) (colAt : Int → Option String)
    (stop : Int) (h : 0 < stop) :
    ∃ pre rs, 0 ≤ rs ∧ rs < stop ∧
      (colorRow rowList colAt stop = pre ++ sliceStr rowList rs stop
       ∨ colorRow rowList colAt stop
           = pre ++ sliceStr rowList rs stop ++ RESET) := by
  have hf := colorFold_state rowList colAt (intRange 0 stop) ([], none, 0)
    stop ⟨le_refl 0, h⟩
    (fun x hx => by
      have := mem_intRange hx
      exact ⟨this.1, this.2⟩)
  rcases hFold : (intRange 0 stop).foldl (colorRunStep rowList colAt)
    ([], none, 0) with ⟨parts, cur, rs⟩
  rw [hFold] at hf
  have hf1 : 0 ≤ rs ∧ rs < stop := hf
  rw [colorRow, hFold]
  refine ⟨joinSep "" parts, rs, hf1.1, hf1.2, ?_⟩
  cases cur with
  | none =>
    left
    show joinSep ""
        (if stop > rs then parts ++ [sliceStr rowList rs stop] else parts)
      = joinSep "" parts ++ sliceStr rowList rs stop
    rw [if_pos (by omega : stop > rs), joinSep_empty_append]
    rfl
  | some cv =>
    right
    show joinSep ""
        ((if stop > rs then parts ++ [sliceStr rowList rs stop] else parts)
          ++ [RESET])
      = joinSep "" parts ++ sliceStr rowList rs stop ++ RESET
    rw [if_pos (by omega : stop > rs), joinSep_empty_append,
      joinSep_empty_append]
    rfl

lemma sliceStr_full (rowList : List Char) (rs stop : Int)
    (h0 : 0 ≤ rs) (h1 : rs < stop) (hlen : rowList.length = stop.toNat) :
    (sliceStr rowList rs stop).data.getLast? = rowList.getLast?
      ∧ sliceStr rowList rs stop ≠ "" := by
  rw [sliceStr]
  have hdrop_len : (rowList.drop rs.toNat).length
      = stop.toNat - rs.toNat := by
    rw [List.length_drop, hlen]
  have htake : (rowList.drop rs.toNat).take (stop - rs).toNat
      = rowList.drop rs.toNat :=
    List.take_of_length_le (by omega)
  have hne : rowList.drop rs.toNat ≠ [] := by
    intro hk
    rw [hk] at hdrop_len
    simp only [List.length_nil] at hdrop_len
    omega
  constructor
  · show ((rowList.drop rs.toNat).take (stop - rs).toNat).getLast?
      = rowList.getLast?
    rw [htake]
    conv_rhs => rw [← List.take_append_drop rs.toNat rowList]
    rw [List.getLast?_append_of_ne_nil _ hne]
  · intro hk
    have hd : ((rowList.drop rs.toNat).take (stop - rs).toNat) = [] := by
      have := congrArg String.data hk
      exact this
    rw [htake] at hd
    exact hne hd

lemma append_ne_empty_right (a b : String) (hb : b ≠ "") : a ++ b ≠ "" := by
  intro h
  apply hb
  have hd := congrArg String.data h
  rw [String.data_append] at hd
  exact String.ext (List.append_eq_nil.mp hd).2

lemma renderRow_spec (c : Canvas) (uc : Bool) (y : Int) :
    (c.renderRow uc y = "" ∧
      ∀ a, 0 ≤ a → a ≤ min c.bbX1 (c.width - 1) → c.cells a y = ' ')
    ∨ (c.renderRow uc y ≠ "" ∧
      (∃ a, 0 ≤ a ∧ a ≤ min c.bbX1 (c.width - 1) ∧ c.cells a y ≠ ' ') ∧
      ∀ ch, (c.renderRow uc y).data.getLast? = some ch → ch ≠ ' ') := by
  rcases scanLast_spec (fun a => c.cells a y) (min c.bbX1 (c.width - 1))
    with ⟨h1, h2⟩ | ⟨h1, h2, h3, h4⟩
  · left
    constructor
    · simp only [Canvas.renderRow]
      rw [if_pos h1]
    · exact h2
  · right
    have hrow_len := rowChars_length c y
      (scanLast (fun a => c.cells a y) (min c.bbX1 (c.width - 1)))
    have hrow_last := rowChars_getLast c y
      (scanLast (fun a => c.cells a y) (min c.bbX1 (c.width - 1))) h1
    cases uc with
    | false =>
      simp only [Canvas.renderRow]
      rw [if_neg (by omega), if_neg (by decide : ¬(false = true))]
      refine ⟨?_, ⟨_, h1, h2, h3⟩, ?_⟩
      · intro hk
        have hd : c.rowChars y
            (scanLast (fun a => c.cells a y) (min c.bbX1 (c.width - 1)))
            = [] := congrArg String.data hk
        rw [hd] at hrow_len
        simp only [List.length_nil] at hrow_len
        omega
      · intro ch hch
        have hch2 : (c.rowChars y
            (scanLast (fun a => c.cells a y)
              (min c.bbX1 (c.width - 1)))).getLast? = some ch := hch
        rw [hrow_last] at hch2
        have := Option.some.inj hch2
        rw [← this]
        exact h3
    | true =>
      simp only [Canvas.renderRow, if_true]
      rw [if_neg (by omega)]
      obtain ⟨pre, rs, hrs0, hrs1, hcase⟩ := colorRow_shape
        (c.rowChars y
          (scanLast (fun a => c.cells a y) (min c.bbX1 (c.width - 1))))
        (fun a => c.colors a y)
        (scanLast (fun a => c.cells a y) (min c.bbX1 (c.width - 1)) + 1)
        (by omega)
      have hslice := sliceStr_full _ rs _ hrs0 hrs1 hrow_len
      have hsdata : (sliceStr
          (c.rowChars y
            (scanLast (fun a => c.cells a y) (min c.bbX1 (c.width - 1))))
          rs
          (scanLast (fun a => c.cells a y) (min c.bbX1 (c.width - 1)) + 1)
          ).data ≠ [] :=
        fun hk => hslice.2 (String.ext hk)
      rcases hcase with heq | heq
      · rw [heq]
        refine ⟨append_ne_empty_right pre _ hslice.2, ⟨_, h1, h2, h3⟩, ?_⟩
        intro ch hch
        rw [String.data_append,
          List.getLast?_append_of_ne_nil _ hsdata] at hch
        rw [hslice.1, hrow_last] at hch
        have := Option.some.inj hch
        rw [← this]
        exact h3
      · rw [heq]
        have hreset : RESET ≠ "" := by decide
        refine ⟨append_ne_empty_right _ _ hreset, ⟨_, h1, h2, h3⟩, ?_⟩
        intro ch hch
        rw [String.data_append,
          List.getLast?_append_of_ne_nil _
            (by decide : RESET.data ≠ [])] at hch
        have hm : RESET.data.getLast? = some '\x6d' := by decide
        rw [hm] at hch
        have := Option.some.inj hch
        rw [← this]
        decide

lemma trim_decomp (M : List String) :
    ∃ p s, M = p ++ ((M.dropWhile (fun l => l = "")).reverse.dropWhile
        (fun l => l = "")).reverse ++ s
      ∧ (∀ l ∈ p, l = "") ∧ (∀ l ∈ s, l = "") := by
  refine ⟨M.takeWhile (fun l => l = ""),
    ((M.dropWhile (fun l => l = "")).reverse.takeWhile
      (fun l => l = "")).reverse, ?_, ?_, ?_⟩
  · have h3 : M.dropWhile (fun l => l = "")
        = ((M.dropWhile (fun l => l = "")).reverse.dropWhile
            (fun l => l = "")).reverse
          ++ ((M.dropWhile (fun l => l = "")).reverse.takeWhile
            (fun l => l = "")).reverse := by
      conv_lhs => rw [← List.reverse_reverse (M.dropWhile (fun l => l = "")),
        ← List.takeWhile_append_dropWhile
          (p := fun l => decide (l = ""))
          (l := (M.dropWhile (fun l => l = "")).reverse),
        List.reverse_append]
    conv_lhs => rw [← List.takeWhile_append_dropWhile
      (p := fun l => decide (l = "")) (l := M), h3]
    rw [List.append_assoc]
  · intro l hl
    have hq := List.mem_takeWhile_imp hl
    exact of_decide_eq_true hq
  · intro l hl
    rw [List.mem_reverse] at hl
    have hq := List.mem_takeWhile_imp hl
    exact of_decide_eq_true hq

lemma trim_last (M : List String) :
    (((M.dropWhile (fun l => l = "")).reverse.dropWhile
        (fun l => l = "")).reverse).getLast? ≠ some "" := by
  intro hc
  rw [List.getLast?_reverse] at hc
  have hk := List.head?_dropWhile_not (fun l => decide (l = ""))
    (M.dropWhile (fun l => l = "")).reverse
  rw [hc] at hk
  have hk2 : decide (("" : String) = "") = false := hk
  rw [decide_eq_true rfl] at hk2
  exact Bool.noConfusion hk2

lemma trim_head (M : List String) :
    (((M.dropWhile (fun l => l = "")).reverse.dropWhile
        (fun l => l = "")).reverse).head? ≠ some "" := by
  intro hc
  obtain ⟨p, s, hdec, hp, hs⟩ := trim_decomp M
  cases hC : ((M.dropWhile (fun l => l = "")).reverse.dropWhile
      (fun l => l = "")).reverse with
  | nil =>
    rw [hC] at hc
    exact Option.noConfusion hc
  | cons c0 C2 =>
    rw [hC] at hc
    have hc0 : c0 = "" := Option.some.inj hc
    have hD : (M.dropWhile (fun l => l = "")).head? = some c0 := by
      have h3 : M.dropWhile (fun l => l = "")
          = ((M.dropWhile (fun l => l = "")).reverse.dropWhile
              (fun l => l = "")).reverse
            ++ ((M.dropWhile (fun l => l = "")).reverse.takeWhile
              (fun l => l = "")).reverse := by
        conv_lhs => rw [← List.reverse_reverse
            (M.dropWhile (fun l => l = "")),
          ← List.takeWhile_append_dropWhile
            (p := fun l => decide (l = ""))
            (l := (M.dropWhile (fun l => l = "")).reverse),
          List.reverse_append]
      rw [h3, hC]
      rfl
    have hk := List.head?_dropWhile_not (fun l => decide (l = "")) M
    rw [hD] at hk
    have hk2 : decide (c0 = "") = false := hk
    rw [hc0, decide_eq_true rfl] at hk2
    exact Bool.noConfusion hk2

/-- C5: to_string trims fully-blank leading and trailing rows (the
output is a contiguous slice of the bounding-box row lines, so interior
blank rows are preserved as empty lines), its first and last lines are
non-blank, no line ends in a space character, and an all-blank canvas
yields the empty string.  The hypothesis scopes the statement to
canvases whose bounding-box rows lie inside the grid, which is where
the Python row indexing is defined. -/
theorem C5_to_string_trim (c : Canvas) (uc : Bool)
    (hbb : 0 ≤ c.bbX1 → 0 ≤ c.bbY0 ∧ c.bbY1 < c.height) :
    ((∀ x y, 0 ≤ x → x < c.width → 0 ≤ y → y < c.height →
        c.cells x y = ' ') → c.toStr uc = "")
    ∧ (∃ p s, (intRange c.bbY0 (c.bbY1 + 1)).map (c.renderRow uc)
        = p ++ c.toStringCore uc ++ s
      ∧ (∀ l ∈ p, l = "") ∧ (∀ l ∈ s, l = ""))
    ∧ (c.toStringCore uc).head? ≠ some ""
    ∧ (c.toStringCore uc).getLast? ≠ some ""
    ∧ (∀ y, c.renderRow uc y = "" ↔
        ∀ a, 0 ≤ a → a ≤ min c.bbX1 (c.width - 1) → c.cells a y = ' ')
    ∧ (∀ l ∈ c.toStringCore uc, l.data.getLast? ≠ some ' ') := by
  have hiff : ∀ y, c.renderRow uc y = "" ↔
      ∀ a, 0 ≤ a → a ≤ min c.bbX1 (c.width - 1) → c.cells a y = ' ' := by
    intro y
    rcases renderRow_spec c uc y with ⟨hA, hB⟩ | ⟨hA, hB, hC⟩
    · exact iff_of_true hA hB
    · refine iff_of_false hA ?_
      obtain ⟨a, ha0, ha1, ha2⟩ := hB
      intro hall
      exact ha2 (hall a ha0 ha1)
  by_cases hfast : c.bbX1 < 0
  · have hcore : c.toStringCore uc = [] := by
      simp only [Canvas.toStringCore]
      rw [if_pos hfast]
    have hallblank : ∀ l ∈ (intRange c.bbY0 (c.bbY1 + 1)).map
        (c.renderRow uc), l = "" := by
      intro l hl
      obtain ⟨y, hy, hyeq⟩ := List.mem_map.mp hl
      rcases renderRow_spec c uc y with ⟨hA, _⟩ | ⟨_, hB, _⟩
      · rw [← hyeq]
        exact hA
      · obtain ⟨a, ha0, ha1, _⟩ := hB
        exact ((by omega : False).elim)
    refine ⟨?_, ⟨(intRange c.bbY0 (c.bbY1 + 1)).map (c.renderRow uc), [],
        ?_, hallblank, ?_⟩, ?_, ?_, hiff, ?_⟩
    · intro hall
      rw [Canvas.toStr, hcore]
      rfl
    · rw [hcore]
      simp
    · intro l hl
      exact absurd hl (List.not_mem_nil l)
    · rw [hcore]
      intro h
      exact Option.noConfusion h
    · rw [hcore]
      intro h
      exact Option.noConfusion h
    · rw [hcore]
      intro l hl
      exact absurd hl (List.not_mem_nil l)
  · have hcore : c.toStringCore uc
        = ((((intRange c.bbY0 (c.bbY1 + 1)).map
            (c.renderRow uc)).dropWhile (fun l => l = "")).reverse.dropWhile
            (fun l => l = "")).reverse := by
      simp only [Canvas.toStringCore]
      rw [if_neg hfast]
    refine ⟨?_, ?_, ?_, ?_, hiff, ?_⟩
    · intro hall
      have hMnil : ((intRange c.bbY0 (c.bbY1 + 1)).map
          (c.renderRow uc)).dropWhile (fun l => l = "") = [] := by
        rw [List.dropWhile_eq_nil_iff]
        intro x hx
        obtain ⟨y, hy, hyeq⟩ := List.mem_map.mp hx
        have hyr := mem_intRange hy
        have hgrid := hbb (by omega)
        apply decide_eq_true
        rw [← hyeq, hiff y]
        intro a ha0 ha1
        exact hall a y ha0 (by omega) (by omega) (by omega)
      rw [Canvas.toStr, hcore, hMnil]
      rfl
    · rw [hcore]
      exact trim_decomp ((intRange c.bbY0 (c.bbY1 + 1)).map
        (c.renderRow uc))
    · rw [hcore]
      exact trim_head ((intRange c.bbY0 (c.bbY1 + 1)).map
        (c.renderRow uc))
    · rw [hcore]
      exact trim_last ((intRange c.bbY0 (c.bbY1 + 1)).map
        (c.renderRow uc))
    · rw [hcore]
      intro l hl hlast
      obtain ⟨p, s, hdec, hp, hs⟩ := trim_decomp
        ((intRange c.bbY0 (c.bbY1 + 1)).map (c.renderRow uc))
      have hlM : l ∈ (intRange c.bbY0 (c.bbY1 + 1)).map
          (c.renderRow uc) := by
        rw [hdec]
        exact List.mem_append.mpr (Or.inl (List.mem_append.mpr (Or.inr hl)))
      obtain ⟨y, hy, hyeq⟩ := List.mem_map.mp hlM
      rcases renderRow_spec c uc y with ⟨hA, _⟩ | ⟨_, _, hC⟩
      · rw [← hyeq, hA] at hlast
        have hnone : (none : Option Char) = some ' ' := hlast
        exact Option.noConfusion hnone
      · refine hC ' ' ?_ rfl
        rw [hyeq]
        exact hlast

theorem C5_to_string_trim_witness :
    (((Canvas.init 3 2).putsStr 0 0 "hi" none).toStringCore false).head?
      ≠ some "" :=
  (C5_to_string_trim ((Canvas.init 3 2).putsStr 0 0 "hi" none) false
    (by decide)).2.2.1

/-! ### C2: assoc-map lemmas -/

lemma alookup_aset {α : Type} (m : List (String × α)) (k : String) (v : α)
    (k' : String) :
    alookup (aset m k v) k' = if k = k' then some v else alookup m k' := by
  induction m with
  | nil =>
    simp only [aset, alookup]
  | cons p rest ih =>
    obtain ⟨k2, w⟩ := p
    rw [aset]
    by_cases h2 : k2 = k
    · rw [if_pos h2]
      subst h2
      simp only [alookup]
      by_cases h : k2 = k'
      · rw [if_pos h, if_pos h]
      · rw [if_neg h, if_neg h, if_neg h]
    · rw [if_neg h2]
      simp only [alookup]
      by_cases h : k2 = k'
      · rw [if_pos h, if_neg (fun hk => h2 (h.trans hk.symm)), if_pos h]
      · rw [if_neg h, if_neg h, ih]

lemma aget_aset_self {α : Type} (m : List (String × α)) (k : String)
    (v d : α) : aget (aset m k v) k d = v := by
  rw [aget, alookup_aset, if_pos rfl]
  rfl

lemma aget_aset_other {α : Type} (m : List (String × α)) (k k' : String)
    (v d : α) (h : k ≠ k') : aget (aset m k v) k' d = aget m k' d := by
  rw [aget, alookup_aset, if_neg h, aget]

lemma alookup_aset_isSome {α : Type} (m : List (String × α)) (k : String)
    (v : α) (k' : String) :
    (alookup (aset m k v) k').isSome ↔ k = k' ∨ (alookup m k').isSome := by
  rw [alookup_aset]
  by_cases h : k = k'
  · rw [if_pos h]
    simp [h]
  · rw [if_neg h]
    simp [h]

lemma alookup_map_self {α : Type} (l : List String) (f : String → α)
    (k : String) :
    alookup (l.map (fun nid => (nid, f nid))) k
      = if k ∈ l then some (f k) else none := by
  induction l with
  | nil =>
    rw [List.map_nil, alookup]
    rw [if_neg (List.not_mem_nil k)]
  | cons x xs ih =>
    rw [List.map_cons, alookup]
    by_cases h : x = k
    · subst h
      rw [if_pos rfl, if_pos (List.mem_cons_self x xs)]
    · rw [if_neg h, ih]
      by_cases hm : k ∈ xs
      · rw [if_pos hm, if_pos (List.mem_cons_of_mem x hm)]
      · rw [if_neg hm, if_neg (fun hk => by
          rcases List.mem_cons.mp hk with hk1 | hk2
          · exact h hk1.symm
          · exact hm hk2)]

/-! ### C2: self-loop exclusion -/

lemma layoutAdj_filter_selfloops (node_ids : List String)
    (edges : List AsciiEdge) :
    layoutAdj node_ids edges
      = layoutAdj node_ids (edges.filter (fun e => e.source ≠ e.target)) := by
  rw [layoutAdj, layoutAdj]
  generalize (node_ids.map (fun nid => (nid, ([] : List String))),
    node_ids.map (fun nid => (nid, ([] : List String)))) = st0
  induction edges generalizing st0 with
  | nil => rfl
  | cons e es ih =>
    obtain ⟨ch, pa⟩ := st0
    rw [List.filter_cons]
    by_cases hp : e.source ≠ e.target
    · rw [if_pos (decide_eq_true hp), List.foldl_cons, List.foldl_cons]
      exact ih _
    · rw [if_neg (fun hk => hp (of_decide_eq_true hk)), List.foldl_cons]
      have hid : (if e.source ∈ node_ids ∧ e.target ∈ node_ids
            ∧ e.source ≠ e.target then
          (aset ch e.source (aget ch e.source [] ++ [e.target]),
            aset pa e.target (aget pa e.target [] ++ [e.source]))
          else (ch, pa)) = (ch, pa) := if_neg (fun hk => hp hk.2.2)
      show List.foldl _ (if e.source ∈ node_ids ∧ e.target ∈ node_ids
            ∧ e.source ≠ e.target then
          (aset ch e.source (aget ch e.source [] ++ [e.target]),
            aset pa e.target (aget pa e.target [] ++ [e.source]))
          else (ch, pa)) es = _
      rw [hid]
      exact ih (ch, pa)

lemma layoutGeneral_edges_congr (nodes : List AsciiNode)
    (e1 e2 : List AsciiEdge) (s : String → Int × Int) (p : Int)
    (h : layoutAdj (nodes.map (fun n => n.id)) e1
        = layoutAdj (nodes.map (fun n => n.id)) e2) :
    layoutGeneral nodes e1 s p = layoutGeneral nodes e2 s p := by
  simp only [layoutGeneral]
  rw [h]

lemma layout_filter_selfloops (nodes : List AsciiNode)
    (edges : List AsciiEdge) (s : String → Int × Int) (p : Int) :
    layout nodes edges s p
      = layout nodes (edges.filter (fun e => e.source ≠ e.target)) s p := by
  cases nodes with
  | nil =>
    simp only [layout]
    exact layoutGeneral_edges_congr [] _ _ s p
      (layoutAdj_filter_selfloops _ _)
  | cons n1 rest =>
    cases rest with
    | nil => rfl
    | cons n2 rest2 =>
      simp only [layout]
      exact layoutGeneral_edges_congr _ _ _ s p
        (layoutAdj_filter_selfloops _ _)

/-! ### C2: generic fold invariants and box sizes -/

lemma foldl_preserve {α β : Type} (P : α → Prop) (f : α → β → α)
    (init : α) (l : List β) (h : P init)
    (hf : ∀ a b, b ∈ l → P a → P (f a b)) : P (l.foldl f init) := by
  induction l generalizing init with
  | nil => exact h
  | cons x xs ih =>
    rw [List.foldl_cons]
    exact ih (f init x) (hf init x (List.mem_cons_self x xs) h)
      (fun a b hb => hf a b (List.mem_cons_of_mem x hb))

lemma alookup_mem {α : Type} {m : List (String × α)} {k : String} {v : α}
    (h : alookup m k = some v) : (k, v) ∈ m := by
  induction m with
  | nil => exact Option.noConfusion h
  | cons p rest ih =>
    obtain ⟨k2, w⟩ := p
    rw [alookup] at h
    by_cases h2 : k2 = k
    · rw [if_pos h2] at h
      have hv := Option.some.inj h
      rw [← hv, h2]
      exact List.mem_cons_self _ _
    · rw [if_neg h2] at h
      exact List.mem_cons_of_mem _ (ih h)

/-- Every entry of a box map has exactly the given node size. -/
def boxSizesOK (sizes : String → Int × Int) (m : List (String × Box)) :
    Prop :=
  ∀ p ∈ m, p.2.w = (sizes p.1).1 ∧ p.2.h = (sizes p.1).2

lemma boxSizesOK_aset (sizes : String → Int × Int)
    (m : List (String × Box)) (k : String) (b : Box)
    (h : boxSizesOK sizes m)
    (hb : b.w = (sizes k).1 ∧ b.h = (sizes k).2) :
    boxSizesOK sizes (aset m k b) := by
  induction m with
  | nil =>
    intro p hp
    rw [aset] at hp
    rcases List.mem_cons.mp hp with hp1 | hp2
    · rw [hp1]
      exact hb
    · exact absurd hp2 (List.not_mem_nil p)
  | cons q rest ih =>
    obtain ⟨k2, w⟩ := q
    intro p hp
    rw [aset] at hp
    by_cases h2 : k2 = k
    · rw [if_pos h2] at hp
      rcases List.mem_cons.mp hp with hp1 | hp2
      · rw [hp1, h2]
        exact hb
      · exact h p (List.mem_cons_of_mem _ hp2)
    · rw [if_neg h2] at hp
      rcases List.mem_cons.mp hp with hp1 | hp2
      · exact h p (hp1 ▸ List.mem_cons_self _ _)
      · exact ih (fun q hq => h q (List.mem_cons_of_mem _ hq)) p hp2

lemma boxSizesOK_map_shift (sizes : String → Int × Int)
    (m : List (String × Box)) (F : Box → Int) (G : Box → Int)
    (h : boxSizesOK sizes m) :
    boxSizesOK sizes
      (m.map (fun p => (p.1, Box.mk (F p.2) (G p.2) p.2.w p.2.h))) := by
  intro p hp
  obtain ⟨q, hq, hqe⟩ := List.mem_map.mp hp
  rw [← hqe]
  exact h q hq

lemma boxSizesOK_map_shiftX (sizes : String → Int × Int)
    (m : List (String × Box)) (dx : Int) (h : boxSizesOK sizes m) :
    boxSizesOK sizes
      (m.map (fun p => (p.1, Box.mk (p.2.x + dx) p.2.y p.2.w p.2.h))) := by
  intro p hp
  obtain ⟨q, hq, hqe⟩ := List.mem_map.mp hp
  rw [← hqe]
  exact h q hq

lemma boxSizesOK_map_shiftXY (sizes : String → Int × Int)
    (m : List (String × Box)) (dx dy : Int) (h : boxSizesOK sizes m) :
    boxSizesOK sizes
      (m.map (fun p =>
        (p.1, Box.mk (p.2.x + dx) (p.2.y + dy) p.2.w p.2.h))) := by
  intro p hp
  obtain ⟨q, hq, hqe⟩ := List.mem_map.mp hp
  rw [← hqe]
  exact h q hq

lemma boxSizesOK_if (sizes : String → Int × Int) {c : Prop} [Decidable c]
    {m1 m2 : List (String × Box)} (h1 : c → boxSizesOK sizes m1)
    (h2 : boxSizesOK sizes m2) :
    boxSizesOK sizes (if c then m1 else m2) := by
  by_cases hc : c
  · rw [if_pos hc]
    exact h1 hc
  · rw [if_neg hc]
    exact h2

lemma boxSizesOK_nil (sizes : String → Int × Int) :
    boxSizesOK sizes [] :=
  fun p hp => absurd hp (List.not_mem_nil p)

lemma boxSizesOK_assign_coordinates (layers0 : List (List String))
    (sizes : String → Int × Int) (ch pa : List (String × List String))
    (xs ys : Int) :
    boxSizesOK sizes (assign_coordinates layers0 sizes ch pa xs ys) := by
  rw [assign_coordinates]
  refine foldl_preserve
    (fun (st : List (String × Box) × Int) => boxSizesOK sizes st.1)
    _ ([], 0) _ (boxSizesOK_nil sizes) ?_
  intro a b hb ha
  obtain ⟨boxes, y⟩ := a
  obtain ⟨li, layer⟩ := b
  refine foldl_preserve (fun bs => boxSizesOK sizes bs) _ boxes layer ha ?_
  intro bs nid hn hbs
  exact boxSizesOK_aset sizes bs nid _ hbs ⟨rfl, rfl⟩

lemma boxSizesOK_layoutGeneral (nodes : List AsciiNode)
    (edges : List AsciiEdge) (sizes : String → Int × Int) (pad : Int) :
    boxSizesOK sizes (layoutGeneral nodes edges sizes pad) := by
  rw [layoutGeneral]
  apply boxSizesOK_map_shiftXY
  refine foldl_preserve
    (fun (st : List (String × Box) × Int) => boxSizesOK sizes st.1)
    _ ([], 0) _ (boxSizesOK_nil sizes) ?_
  intro a b hb ha
  obtain ⟨allBoxes, xOffset⟩ := a
  have h2 : boxSizesOK sizes
      (if xOffset > 0 then
        (assign_coordinates
          (minimise_crossings
            (break_cycles b (b.map (fun nid => (nid,
              aget (layoutAdj (nodes.map (fun n => n.id)) edges).1 nid [])))
              (b.map (fun nid => (nid,
                aget (layoutAdj (nodes.map (fun n => n.id)) edges).2 nid
                  [])))).children
            (break_cycles b (b.map (fun nid => (nid,
              aget (layoutAdj (nodes.map (fun n => n.id)) edges).1 nid [])))
              (b.map (fun nid => (nid,
                aget (layoutAdj (nodes.map (fun n => n.id)) edges).2 nid
                  [])))).parents
            (assign_layers b
              (break_cycles b (b.map (fun nid => (nid,
                aget (layoutAdj (nodes.map (fun n => n.id)) edges).1 nid
                  [])))
                (b.map (fun nid => (nid,
                  aget (layoutAdj (nodes.map (fun n => n.id)) edges).2 nid
                    [])))).children
              (break_cycles b (b.map (fun nid => (nid,
                aget (layoutAdj (nodes.map (fun n => n.id)) edges).1 nid
                  [])))
                (b.map (fun nid => (nid,
                  aget (layoutAdj (nodes.map (fun n => n.id)) edges).2 nid
                    [])))).parents))
          sizes
          (break_cycles b (b.map (fun nid => (nid,
            aget (layoutAdj (nodes.map (fun n => n.id)) edges).1 nid [])))
            (b.map (fun nid => (nid,
              aget (layoutAdj (nodes.map (fun n => n.id)) edges).2 nid
                [])))).children
          (break_cycles b (b.map (fun nid => (nid,
            aget (layoutAdj (nodes.map (fun n => n.id)) edges).1 nid [])))
            (b.map (fun nid => (nid,
              aget (layoutAdj (nodes.map (fun n => n.id)) edges).2 nid
                [])))).parents
          4 2).map (fun p => (p.1, Box.mk
            (p.2.x + (xOffset - listMin ((assign_coordinates
              (minimise_crossings
                (break_cycles b (b.map (fun nid => (nid,
                  aget (layoutAdj (nodes.map (fun n => n.id)) edges).1 nid
                    [])))
                  (b.map (fun nid => (nid,
                    aget (layoutAdj (nodes.map (fun n => n.id)) edges).2 nid
                      [])))).children
                (break_cycles b (b.map (fun nid => (nid,
                  aget (layoutAdj (nodes.map (fun n => n.id)) edges).1 nid
                    [])))
                  (b.map (fun nid => (nid,
                    aget (layoutAdj (nodes.map (fun n => n.id)) edges).2 nid
                      [])))).parents
                (assign_layers b
                  (break_cycles b (b.map (fun nid => (nid,
                    aget (layoutAdj (nodes.map (fun n => n.id)) edges).1 nid
                      [])))
                    (b.map (fun nid => (nid,
                      aget (layoutAdj (nodes.map (fun n => n.id)) edges).2
                        nid [])))).children
                  (break_cycles b (b.map (fun nid => (nid,
                    aget (layoutAdj (nodes.map (fun n => n.id)) edges).1 nid
                      [])))
                    (b.map (fun nid => (nid,
                      aget (layoutAdj (nodes.map (fun n => n.id)) edges).2
                        nid [])))).parents))
              sizes
              (break_cycles b (b.map (fun nid => (nid,
                aget (layoutAdj (nodes.map (fun n => n.id)) edges).1 nid
                  [])))
                (b.map (fun nid => (nid,
                  aget (layoutAdj (nodes.map (fun n => n.id)) edges).2 nid
                    [])))).children
              (break_cycles b (b.map (fun nid => (nid,
                aget (layoutAdj (nodes.map (fun n => n.id)) edges).1 nid
                  [])))
                (b.map (fun nid => (nid,
                  aget (layoutAdj (nodes.map (fun n => n.id)) edges).2 nid
                    [])))).parents
              4 2).map (fun p => p.2.x)) + 4))
            p.2.y p.2.w p.2.h))
      else assign_coordinates
        (minimise_crossings
          (break_cycles b (b.map (fun nid => (nid,
            aget (layoutAdj (nodes.map (fun n => n.id)) edges).1 nid [])))
            (b.map (fun nid => (nid,
              aget (layoutAdj (nodes.map (fun n => n.id)) edges).2 nid
                [])))).children
          (break_cycles b (b.map (fun nid => (nid,
            aget (layoutAdj (nodes.map (fun n => n.id)) edges).1 nid [])))
            (b.map (fun nid => (nid,
              aget (layoutAdj (nodes.map (fun n => n.id)) edges).2 nid
                [])))).parents
          (assign_layers b
            (break_cycles b (b.map (fun nid => (nid,
              aget (layoutAdj (nodes.map (fun n => n.id)) edges).1 nid [])))
              (b.map (fun nid => (nid,
                aget (layoutAdj (nodes.map (fun n => n.id)) edges).2 nid
                  [])))).children
            (break_cycles b (b.map (fun nid => (nid,
              aget (layoutAdj (nodes.map (fun n => n.id)) edges).1 nid [])))
              (b.map (fun nid => (nid,
                aget (layoutAdj (nodes.map (fun n => n.id)) edges).2 nid
                  [])))).parents))
        sizes
        (break_cycles b (b.map (fun nid => (nid,
          aget (layoutAdj (nodes.map (fun n => n.id)) edges).1 nid [])))
          (b.map (fun nid => (nid,
            aget (layoutAdj (nodes.map (fun n => n.id)) edges).2 nid
              [])))).children
        (break_cycles b (b.map (fun nid => (nid,
          aget (layoutAdj (nodes.map (fun n => n.id)) edges).1 nid [])))
          (b.map (fun nid => (nid,
            aget (layoutAdj (nodes.map (fun n => n.id)) edges).2 nid
              [])))).parents
        4 2) :=
    boxSizesOK_if sizes
      (fun _ => boxSizesOK_map_shiftX sizes _ _
        (boxSizesOK_assign_coordinates _ _ _ _ _ _))
      (boxSizesOK_assign_coordinates _ _ _ _ _ _)
  refine foldl_preserve (fun m => boxSizesOK sizes m) _ allBoxes _ ha ?_
  intro m p hp hm
  exact boxSizesOK_aset sizes m p.1 p.2 hm (h2 p hp)

/-! ### C2: adjacency structure of layoutAdj -/

lemma aget_map_nil (ids : List String) (k : String) :
    aget (ids.map (fun nid => (nid, ([] : List String)))) k [] = [] := by
  rw [aget, alookup_map_self]
  by_cases h : k ∈ ids
  · rw [if_pos h]
    rfl
  · rw [if_neg h]
    rfl

/-- Structural facts about an adjacency pair: key sets are the node ids,
child and parent multiplicities agree, all endpoints are node ids, and
there are no self-loops. -/
def layoutAdjInv (ids : List String)
    (st : List (String × List String) × List (String × List String)) :
    Prop :=
  (∀ k, (alookup st.1 k).isSome ↔ k ∈ ids)
  ∧ (∀ k, (alookup st.2 k).isSome ↔ k ∈ ids)
  ∧ (∀ u v, (aget st.1 u []).count v = (aget st.2 v []).count u)
  ∧ (∀ u v, v ∈ aget st.1 u [] → u ∈ ids ∧ v ∈ ids)
  ∧ (∀ u v, v ∈ aget st.2 u [] → u ∈ ids ∧ v ∈ ids)
  ∧ (∀ x, x ∉ aget st.1 x [] ∧ x ∉ aget st.2 x [])

lemma alookup_map_self_isSome (ids : List String)
    (k : String) :
    (alookup (ids.map (fun nid => (nid, ([] : List String)))) k).isSome
      ↔ k ∈ ids := by
  rw [alookup_map_self]
  by_cases h : k ∈ ids
  · rw [if_pos h]
    simp [h]
  · rw [if_neg h]
    simp [h]

lemma layoutAdj_spec (ids : List String) (es : List AsciiEdge) :
    layoutAdjInv ids (layoutAdj ids es) := by
  rw [layoutAdj]
  refine foldl_preserve (layoutAdjInv ids) _ _ _ ?_ ?_
  · refine ⟨?_, ?_, ?_, ?_, ?_, ?_⟩
    · intro k
      exact alookup_map_self_isSome ids k
    · intro k
      exact alookup_map_self_isSome ids k
    · intro u v
      show (aget (ids.map (fun nid => (nid, ([] : List String)))) u []).count v
        = (aget (ids.map (fun nid => (nid, ([] : List String)))) v []).count u
      rw [aget_map_nil ids u, aget_map_nil ids v]
      rfl
    · intro u v hv
      rw [aget_map_nil] at hv
      exact absurd hv (List.not_mem_nil v)
    · intro u v hv
      rw [aget_map_nil] at hv
      exact absurd hv (List.not_mem_nil v)
    · intro x
      rw [aget_map_nil]
      exact ⟨List.not_mem_nil x, List.not_mem_nil x⟩
  · intro a e he ha
    obtain ⟨ch, pa⟩ := a
    obtain ⟨h1, h2, h3, h4, h5, h6⟩ := ha
    replace h1 : ∀ k, (alookup ch k).isSome ↔ k ∈ ids := h1
    replace h2 : ∀ k, (alookup pa k).isSome ↔ k ∈ ids := h2
    replace h3 : ∀ u v, (aget ch u []).count v = (aget pa v []).count u := h3
    replace h4 : ∀ u v, v ∈ aget ch u [] → u ∈ ids ∧ v ∈ ids := h4
    replace h5 : ∀ u v, v ∈ aget pa u [] → u ∈ ids ∧ v ∈ ids := h5
    replace h6 : ∀ x, x ∉ aget ch x [] ∧ x ∉ aget pa x [] := h6
    show layoutAdjInv ids
      (if e.source ∈ ids ∧ e.target ∈ ids ∧ e.source ≠ e.target then
        (aset ch e.source (aget ch e.source [] ++ [e.target]),
          aset pa e.target (aget pa e.target [] ++ [e.source]))
      else (ch, pa))
    by_cases hc : e.source ∈ ids ∧ e.target ∈ ids ∧ e.source ≠ e.target
    · rw [if_pos hc]
      obtain ⟨hs, ht, hne⟩ := hc
      refine ⟨?_, ?_, ?_, ?_, ?_, ?_⟩
      · intro k
        rw [show (aset ch e.source (aget ch e.source [] ++ [e.target]),
            aset pa e.target (aget pa e.target [] ++ [e.source])).1
          = aset ch e.source (aget ch e.source [] ++ [e.target]) from rfl]
        rw [alookup_aset_isSome]
        constructor
        · rintro (hk | hk)
          · exact hk ▸ hs
          · exact (h1 k).mp hk
        · intro hk
          exact Or.inr ((h1 k).mpr hk)
      · intro k
        rw [show (aset ch e.source (aget ch e.source [] ++ [e.target]),
            aset pa e.target (aget pa e.target [] ++ [e.source])).2
          = aset pa e.target (aget pa e.target [] ++ [e.source]) from rfl]
        rw [alookup_aset_isSome]
        constructor
        · rintro (hk | hk)
          · exact hk ▸ ht
          · exact (h2 k).mp hk
        · intro hk
          exact Or.inr ((h2 k).mpr hk)
      · intro u v
        by_cases hu : e.source = u
        · subst hu
          rw [aget_aset_self]
          by_cases hv : e.target = v
          · subst hv
            rw [aget_aset_self, List.count_append, List.count_append, h3,
              List.count_singleton, List.count_singleton]
            simp
          · rw [aget_aset_other _ _ _ _ _ hv, List.count_append, h3]
            have hc1 : ([e.target] : List String).count v = 0 := by
              simp [List.count_singleton', hv]
            omega
        · rw [aget_aset_other _ _ _ _ _ hu]
          by_cases hv : e.target = v
          · subst hv
            rw [aget_aset_self, List.count_append, h3]
            have hc1 : ([e.source] : List String).count u = 0 := by
              simp [List.count_singleton', hu]
            omega
          · rw [aget_aset_other _ _ _ _ _ hv, h3]
      · intro u v hv
        by_cases hu : e.source = u
        · subst hu
          rw [aget_aset_self] at hv
          rcases List.mem_append.mp hv with hv1 | hv2
          · exact h4 _ _ hv1
          · have : v = e.target := List.mem_singleton.mp hv2
            exact ⟨hs, this ▸ ht⟩
        · rw [aget_aset_other _ _ _ _ _ hu] at hv
          exact h4 _ _ hv
      · intro u v hv
        by_cases hu : e.target = u
        · subst hu
          rw [aget_aset_self] at hv
          rcases List.mem_append.mp hv with hv1 | hv2
          · exact h5 _ _ hv1
          · have : v = e.source := List.mem_singleton.mp hv2
            exact ⟨ht, this ▸ hs⟩
        · rw [aget_aset_other _ _ _ _ _ hu] at hv
          exact h5 _ _ hv
      · intro x
        constructor
        · by_cases hu : e.source = x
          · subst hu
            rw [aget_aset_self]
            intro hmem
            rcases List.mem_append.mp hmem with hv1 | hv2
            · exact (h6 e.source).1 hv1
            · exact hne (List.mem_singleton.mp hv2)
          · rw [aget_aset_other _ _ _ _ _ hu]
            exact (h6 x).1
        · by_cases hu : e.target = x
          · subst hu
            rw [aget_aset_self]
            intro hmem
            rcases List.mem_append.mp hmem with hv1 | hv2
            · exact (h6 e.target).2 hv1
            · exact hne (List.mem_singleton.mp hv2).symm
          · rw [aget_aset_other _ _ _ _ _ hu]
            exact (h6 x).2
    · rw [if_neg hc]
      exact ⟨h1, h2, h3, h4, h5, h6⟩

/-! ### C2: the Kahn loop of assign_layers -/

lemma kahnChildFold_spec (u : String) (cs : List String) :
    ∀ lo ind q lo2 ind2 q2,
    cs.foldl (kahnChildStep u) (lo, ind, q) = (lo2, ind2, q2) →
    (∀ v, aget ind2 v 0 = aget ind v 0 - cs.count v)
    ∧ (∀ v ∈ q, v ∈ q2)
    ∧ (∀ v ∈ q2, v ∈ q ∨ (v ∈ cs ∧ 1 ≤ aget ind v 0 ∧ aget ind2 v 0 ≤ 0))
    ∧ (∀ v, v ∉ q2 → 1 ≤ aget ind v 0 → 1 ≤ aget ind2 v 0)
    ∧ (q.Nodup → (∀ v ∈ q, aget ind v 0 ≤ 0) →
        (q2.Nodup ∧ ∀ v ∈ q2, aget ind2 v 0 ≤ 0)) := by
  induction cs with
  | nil =>
    intro lo ind q lo2 ind2 q2 h
    rw [List.foldl_nil] at h
    have hind : ind2 = ind := congrArg (fun p => p.2.1) h.symm
    have hq : q2 = q := congrArg (fun p => p.2.2) h.symm
    subst hind
    subst hq
    refine ⟨?_, ?_, ?_, ?_, ?_⟩
    · intro v
      rw [List.count_nil]
      omega
    · intro v hv
      exact hv
    · intro v hv
      exact Or.inl hv
    · intro v _ h1
      exact h1
    · intro hnd hle
      exact ⟨hnd, hle⟩
  | cons w cs' ih =>
    intro lo ind q lo2 ind2 q2 h
    rw [List.foldl_cons] at h
    have hstep : kahnChildStep u (lo, ind, q) w
        = (aset lo w (max (aget lo w 0) (aget lo u 0 + 1)),
           aset ind w (aget ind w 0 - 1),
           if aget (aset ind w (aget ind w 0 - 1)) w 0 = 0 then q ++ [w]
           else q) := rfl
    rw [hstep] at h
    obtain ⟨hC1, hC2, hC3, hC4, hC5⟩ := ih _ _ _ _ _ _ h
    have hindw : aget (aset ind w (aget ind w 0 - 1)) w 0
        = aget ind w 0 - 1 := aget_aset_self ind w _ 0
    have hindo : ∀ v, w ≠ v →
        aget (aset ind w (aget ind w 0 - 1)) v 0 = aget ind v 0 :=
      fun v hv => aget_aset_other ind w v _ 0 hv
    by_cases hhit : aget ind w 0 = 1
    · have hqe : (if aget (aset ind w (aget ind w 0 - 1)) w 0 = 0
          then q ++ [w] else q) = q ++ [w] := by
        rw [if_pos (by rw [hindw]; omega)]
      rw [hqe] at hC2 hC3 hC5
      refine ⟨?_, ?_, ?_, ?_, ?_⟩
      · intro v
        rw [hC1 v]
        by_cases hwv : w = v
        · subst hwv
          rw [hindw, List.count_cons_self]
          omega
        · rw [hindo v hwv, List.count_cons_of_ne (fun hk => hwv hk.symm)]
      · intro v hv
        exact hC2 v (List.mem_append.mpr (Or.inl hv))
      · intro v hv
        rcases hC3 v hv with hv1 | ⟨hv1, hv2, hv3⟩
        · rcases List.mem_append.mp hv1 with hv2 | hv2
          · exact Or.inl hv2
          · have hvw : v = w := List.mem_singleton.mp hv2
            subst hvw
            refine Or.inr ⟨List.mem_cons_self _ _, by omega, ?_⟩
            rw [hC1 v, hindw]
            have : (0 : Int) ≤ (cs'.count v : Int) := by positivity
            omega
        · refine Or.inr ⟨List.mem_cons_of_mem w hv1, ?_, hv3⟩
          by_cases hwv : w = v
          · subst hwv
            rw [hindw] at hv2
            omega
          · rw [hindo v hwv] at hv2
            exact hv2
      · intro v hv h1
        by_cases hwv : w = v
        · subst hwv
          exact absurd (hC2 w (List.mem_append.mpr (Or.inr
            (List.mem_singleton_self w)))) hv
        · refine hC4 v hv ?_
          rw [hindo v hwv]
          exact h1
      · intro hnd hle
        have hwq : w ∉ q := by
          intro hk
          have := hle w hk
          omega
        refine hC5 ?_ ?_
        · rw [List.nodup_append]
          exact ⟨hnd, List.nodup_singleton w,
            fun a ha hb => hwq ((List.mem_singleton.mp hb) ▸ ha)⟩
        · intro v hv
          rcases List.mem_append.mp hv with hv1 | hv1
          · by_cases hwv : w = v
            · subst hwv
              exact absurd hv1 hwq
            · rw [hindo v hwv]
              exact hle v hv1
          · have hvw : v = w := List.mem_singleton.mp hv1
            subst hvw
            rw [hindw]
            omega
    · have hqe : (if aget (aset ind w (aget ind w 0 - 1)) w 0 = 0
          then q ++ [w] else q) = q := by
        rw [if_neg (by rw [hindw]; omega)]
      rw [hqe] at hC2 hC3 hC5
      refine ⟨?_, ?_, ?_, ?_, ?_⟩
      · intro v
        rw [hC1 v]
        by_cases hwv : w = v
        · subst hwv
          rw [hindw, List.count_cons_self]
          omega
        · rw [hindo v hwv, List.count_cons_of_ne (fun hk => hwv hk.symm)]
      · exact hC2
      · intro v hv
        rcases hC3 v hv with hv1 | ⟨hv1, hv2, hv3⟩
        · exact Or.inl hv1
        · refine Or.inr ⟨List.mem_cons_of_mem w hv1, ?_, hv3⟩
          by_cases hwv : w = v
          · subst hwv
            rw [hindw] at hv2
            omega
          · rw [hindo v hwv] at hv2
            exact hv2
      · intro v hv h1
        by_cases hwv : w = v
        · subst hwv
          refine hC4 w hv ?_
          rw [hindw]
          omega
        · refine hC4 v hv ?_
          rw [hindo v hwv]
          exact h1
      · intro hnd hle
        refine hC5 hnd ?_
        intro v hv
        by_cases hwv : w = v
        · subst hwv
          rw [hindw]
          have := hle w hv
          omega
        · rw [hindo v hwv]
          exact hle v hv

/-- Remaining in-degree budget for `v`: total occurrences of `v` in the
child lists of unpopped component nodes. -/
def kahnRemaining (comp : List String) (ch : List (String × List String))
    (topo : List String) (v : String) : Int :=
  ((comp.filter (fun u => ¬ u ∈ topo)).map
    (fun u => ((aget ch u []).count v : Int))).sum

/-- Loop invariant of the Kahn topological sort in assign_layers. -/
def KahnInv (comp : List String) (ch : List (String × List String))
    (topo : List String) (indeg : List (String × Int))
    (queue : List String) : Prop :=
  (∀ v ∈ topo, v ∈ comp) ∧ (∀ v ∈ queue, v ∈ comp)
  ∧ (topo ++ queue).Nodup
  ∧ (∀ v, (v ∈ topo ∨ v ∈ queue) → aget indeg v 0 ≤ 0)
  ∧ (∀ v ∈ comp, v ∉ topo → v ∉ queue → 1 ≤ aget indeg v 0)
  ∧ (∀ v, v ∉ comp → aget indeg v 0 ≤ 0)
  ∧ (∀ v ∈ comp, aget indeg v 0 ≤ kahnRemaining comp ch topo v)

lemma sum_map_add_split (comp : List String) (f g : String → Int) :
    (comp.map (fun u => f u + g u)).sum
      = (comp.map f).sum + (comp.map g).sum := by
  induction comp with
  | nil => rfl
  | cons c cc ih =>
    simp only [List.map_cons, List.sum_cons]
    rw [ih]
    omega

lemma sum_indicator_one (comp : List String) (x : String)
    (hnd : comp.Nodup) (hx : x ∈ comp) :
    ((comp.map (fun u => if x = u then (1 : Int) else 0)).sum) = 1 := by
  induction comp with
  | nil => exact absurd hx (List.not_mem_nil x)
  | cons c cc ih =>
    rw [List.map_cons, List.sum_cons]
    rcases List.mem_cons.mp hx with hx1 | hx1
    · subst hx1
      rw [if_pos rfl]
      have hz : ((cc.map (fun u => if x = u then (1 : Int) else 0)).sum)
          = 0 := by
        apply List.sum_eq_zero
        intro y hy
        obtain ⟨u, hu, hue⟩ := List.mem_map.mp hy
        rw [← hue, if_neg (fun hk => (List.nodup_cons.mp hnd).1
          (by rw [hk]; exact hu))]
      rw [hz]
      omega
    · rw [if_neg (fun hk => (List.nodup_cons.mp hnd).1
          (by rw [← hk]; exact hx1)),
        ih (List.nodup_cons.mp hnd).2 hx1]
      omega

lemma sum_count_eq_length (l comp : List String)
    (hsub : ∀ x ∈ l, x ∈ comp) (hnd : comp.Nodup) :
    ((comp.map (fun u => (l.count u : Int))).sum) = l.length := by
  induction l with
  | nil =>
    rw [List.length_nil]
    apply List.sum_eq_zero
    intro y hy
    obtain ⟨u, hu, hue⟩ := List.mem_map.mp hy
    rw [← hue, List.count_nil]
    rfl
  | cons x l' ih =>
    have hmap : comp.map (fun u => ((x :: l').count u : Int))
        = comp.map (fun u => (l'.count u : Int)
            + (if x = u then (1 : Int) else 0)) := by
      apply List.map_congr_left
      intro u _
      by_cases hxu : x = u
      · subst hxu
        rw [List.count_cons_self, if_pos rfl]
        omega
      · rw [List.count_cons_of_ne (fun hk => hxu hk.symm), if_neg hxu]
        omega
    rw [hmap, sum_map_add_split comp _ _,
      ih (fun y hy => hsub y (List.mem_cons_of_mem x hy)),
      sum_indicator_one comp x hnd (hsub x (List.mem_cons_self x l')),
      List.length_cons]
    omega

lemma kahnRemaining_snoc (comp : List String)
    (ch : List (String × List String)) (topo : List String) (u v : String)
    (hu : u ∈ comp) (hnd : comp.Nodup) (hut : u ∉ topo) :
    kahnRemaining comp ch (topo ++ [u]) v
      = kahnRemaining comp ch topo v - ((aget ch u []).count v : Int) := by
  induction comp with
  | nil => exact absurd hu (List.not_mem_nil u)
  | cons c cc ih =>
    rw [kahnRemaining, kahnRemaining, List.filter_cons, List.filter_cons]
    rcases List.mem_cons.mp hu with hc | hc
    · subst hc
      rw [if_neg (fun hk => (of_decide_eq_true hk)
          (List.mem_append.mpr (Or.inr (List.mem_singleton_self u)))),
        if_pos (decide_eq_true hut)]
      rw [List.map_cons, List.sum_cons]
      have hfeq : cc.filter (fun x => ¬ x ∈ (topo ++ [u]))
          = cc.filter (fun x => ¬ x ∈ topo) := by
        apply List.filter_congr
        intro x hx
        have hxu : x ≠ u := fun hk => (List.nodup_cons.mp hnd).1
          (by rw [← hk]; exact hx)
        refine decide_eq_decide.mpr ⟨?_, ?_⟩
        · intro hk hk2
          exact hk (List.mem_append.mpr (Or.inl hk2))
        · intro hk hk2
          rcases List.mem_append.mp hk2 with h | h
          · exact hk h
          · exact hxu (List.mem_singleton.mp h)
      rw [hfeq]
      omega
    · have hcu : c ≠ u := fun hk => (List.nodup_cons.mp hnd).1
        (by rw [hk]; exact hc)
      have ihh := ih hc (List.nodup_cons.mp hnd).2
      rw [kahnRemaining, kahnRemaining] at ihh
      by_cases hct : c ∈ topo
      · rw [if_neg (fun hk => (of_decide_eq_true hk)
            (List.mem_append.mpr (Or.inl hct))),
          if_neg (fun hk => (of_decide_eq_true hk) hct)]
        exact ihh
      · rw [if_pos (decide_eq_true (show ¬(c ∈ topo ++ [u]) by
            intro hk
            rcases List.mem_append.mp hk with h | h
            · exact hct h
            · exact hcu (List.mem_singleton.mp h))),
          if_pos (decide_eq_true hct)]
        rw [List.map_cons, List.sum_cons, List.map_cons, List.sum_cons, ihh]
        omega

lemma exists_max_rank (l : List String) (rank : String → Nat)
    (hne : l ≠ []) : ∃ w ∈ l, ∀ x ∈ l, rank x ≤ rank w := by
  induction l with
  | nil => exact absurd rfl hne
  | cons a l' ih =>
    cases l' with
    | nil =>
      refine ⟨a, List.mem_cons_self a [], ?_⟩
      intro x hx
      have : x = a := by
        rcases List.mem_cons.mp hx with h | h
        · exact h
        · exact absurd h (List.not_mem_nil x)
      rw [this]
    | cons b l'' =>
      obtain ⟨w, hw, hmax⟩ := ih (by simp)
      by_cases hcmp : rank a ≤ rank w
      · refine ⟨w, List.mem_cons_of_mem a hw, ?_⟩
        intro x hx
        rcases List.mem_cons.mp hx with h | h
        · exact h ▸ hcmp
        · exact hmax x h
      · refine ⟨a, List.mem_cons_self a _, ?_⟩
        intro x hx
        rcases List.mem_cons.mp hx with h | h
        · exact h ▸ le_refl _
        · exact le_trans (hmax x h) (by omega)

lemma nodup_subset_length (l comp : List String) (hnd : l.Nodup)
    (hsub : ∀ x ∈ l, x ∈ comp) : l.length ≤ comp.length := by
  have h1 : l.toFinset.card = l.length := List.toFinset_card_of_nodup hnd
  have h2 : l.toFinset ⊆ comp.toFinset := by
    intro x hx
    rw [List.mem_toFinset] at hx ⊢
    exact hsub x hx
  have h3 := Finset.card_le_card h2
  have h4 := comp.toFinset_card_le
  omega

/-! ### C2: instrumented cycle-breaking DFS (black finish order) -/

/-- Position of the first occurrence of a string in a list (the DFS
finish rank of a node in the black order). -/
def listIdx : List String → String → Nat
  | [], _ => 0
  | x :: xs, v => if x = v then 0 else listIdx xs v + 1

lemma listIdx_append_left (l l' : List String) (v : String)
    (hv : v ∈ l) : listIdx (l ++ l') v = listIdx l v := by
  induction l with
  | nil => exact absurd hv (List.not_mem_nil v)
  | cons x xs ih =>
    rw [List.cons_append, listIdx, listIdx]
    by_cases h : x = v
    · rw [if_pos h, if_pos h]
    · rw [if_neg h, if_neg h,
        ih (by rcases List.mem_cons.mp hv with h2 | h2
               · exact absurd h2.symm h
               · exact h2)]

lemma listIdx_append_self (l : List String) (u : String)
    (hu : u ∉ l) : listIdx (l ++ [u]) u = l.length := by
  induction l with
  | nil => rw [List.nil_append, listIdx, if_pos rfl, List.length_nil]
  | cons x xs ih =>
    rw [List.cons_append, listIdx,
      if_neg (fun h => hu (by rw [← h]; exact List.mem_cons_self x xs)),
      ih (fun h => hu (List.mem_cons_of_mem x h)), List.length_cons]

lemma listIdx_lt_length (l : List String) (v : String)
    (hv : v ∈ l) : listIdx l v < l.length := by
  induction l with
  | nil => exact absurd hv (List.not_mem_nil v)
  | cons x xs ih =>
    rw [listIdx, List.length_cons]
    by_cases h : x = v
    · rw [if_pos h]
      omega
    · rw [if_neg h]
      have := ih (by rcases List.mem_cons.mp hv with h2 | h2
                     · exact absurd h2.symm h
                     · exact h2)
      omega

lemma count_removeFirst_self (l : List String) (x : String) :
    (removeFirst l x).count x = l.count x - 1 := by
  induction l with
  | nil => rw [removeFirst, List.count_nil]
  | cons y ys ih =>
    rw [removeFirst]
    by_cases h : y = x
    · rw [if_pos h, h, List.count_cons_self]
      omega
    · rw [if_neg h, List.count_cons_of_ne (fun hk => h hk.symm),
        List.count_cons_of_ne (fun hk => h hk.symm), ih]

lemma count_removeFirst_other (l : List String) (x v : String)
    (hv : v ≠ x) : (removeFirst l x).count v = l.count v := by
  induction l with
  | nil => rw [removeFirst]
  | cons y ys ih =>
    rw [removeFirst]
    by_cases h : y = x
    · rw [if_pos h, List.count_cons_of_ne (show v ≠ y from
        fun hk => hv (hk.trans h))]
    · rw [if_neg h]
      by_cases h2 : y = v
      · rw [h2, List.count_cons_self, List.count_cons_self, ih]
      · rw [List.count_cons_of_ne (fun hk => h2 hk.symm),
          List.count_cons_of_ne (fun hk => h2 hk.symm), ih]

lemma mem_removeFirst (l : List String) (x v : String)
    (hv : v ∈ removeFirst l x) : v ∈ l := by
  induction l with
  | nil => exact absurd hv (List.not_mem_nil v)
  | cons y ys ih =>
    rw [removeFirst] at hv
    by_cases h : y = x
    · rw [if_pos h] at hv
      exact List.mem_cons_of_mem y hv
    · rw [if_neg h] at hv
      rcases List.mem_cons.mp hv with h2 | h2
      · exact h2 ▸ List.mem_cons_self y ys
      · exact List.mem_cons_of_mem y (ih h2)

lemma filter_length_le (l : List String) (p q : String → Bool)
    (hmono : ∀ x ∈ l, q x = true → p x = true) :
    (l.filter q).length ≤ (l.filter p).length := by
  induction l with
  | nil => exact le_refl _
  | cons x xs ih =>
    have ih2 := ih (fun y hy => hmono y (List.mem_cons_of_mem x hy))
    rw [List.filter_cons, List.filter_cons]
    by_cases hq : q x = true
    · rw [if_pos hq, if_pos (hmono x (List.mem_cons_self x xs) hq)]
      rw [List.length_cons, List.length_cons]
      omega
    · rw [if_neg hq]
      by_cases hp : p x = true
      · rw [if_pos hp, List.length_cons]
        omega
      · rw [if_neg hp]
        exact ih2

lemma filter_length_lt (l : List String) (p q : String → Bool)
    (hmono : ∀ x ∈ l, q x = true → p x = true) (u : String)
    (hu : u ∈ l) (hp : p u = true) (hq : q u = false) :
    (l.filter q).length < (l.filter p).length := by
  induction l with
  | nil => exact absurd hu (List.not_mem_nil u)
  | cons x xs ih =>
    have hle := filter_length_le xs p q
      (fun y hy => hmono y (List.mem_cons_of_mem x hy))
    rw [List.filter_cons, List.filter_cons]
    by_cases hxu : x = u
    · subst hxu
      rw [if_neg (by rw [hq]; exact Bool.false_ne_true), if_pos hp,
        List.length_cons]
      omega
    · have ih2 := ih (fun y hy => hmono y (List.mem_cons_of_mem x hy))
        (by rcases List.mem_cons.mp hu with h | h
            · exact absurd h.symm hxu
            · exact h)
      by_cases hqx : q x = true
      · rw [if_pos hqx, if_pos (hmono x (List.mem_cons_self x xs) hqx),
          List.length_cons, List.length_cons]
        omega
      · rw [if_neg hqx]
        by_cases hpx : p x = true
        · rw [if_pos hpx, List.length_cons]
          omega
        · rw [if_neg hpx]
          exact ih2

/-- Number of white component nodes in a color map. -/
def whiteCount (comp : List String) (col : List (String × Int)) : Nat :=
  (comp.filter (fun u => aget col u 0 = 0)).length

lemma whiteCount_le (comp : List String) (col : List (String × Int)) :
    whiteCount comp col ≤ comp.length := by
  rw [whiteCount]
  exact List.length_filter_le _ comp

mutual

/-- dfsVisit instrumented with the list of nodes in blackening order. -/
def dfsVisitG : Nat → DfsState → List String → String →
    DfsState × List String
  | 0, st, bl, _ => (st, bl)
  | fuel + 1, st, bl, u =>
    let st1 := { st with color := aset st.color u 1 }
    let r := dfsChildrenG fuel st1 bl u (aget st1.children u [])
    ({ r.1 with color := aset r.1.color u 2 }, r.2 ++ [u])
termination_by fuel st bl u => (fuel, 0)

/-- dfsChildren instrumented with the blackening order. -/
def dfsChildrenG : Nat → DfsState → List String → String → List String →
    DfsState × List String
  | _, st, bl, _, [] => (st, bl)
  | fuel, st, bl, u, v :: rest =>
    let cv := aget st.color v 0
    if cv = 1 then
      let st1 := { st with
        children := aset st.children u (removeFirst (aget st.children u []) v)
        parents := aset st.parents v (removeFirst (aget st.parents v []) u) }
      let st2 := { st1 with
        children := aset st1.children v (aget st1.children v [] ++ [u])
        parents := aset st1.parents u (aget st1.parents u [] ++ [v])
        reversedEdges := st1.reversedEdges ++ [(u, v)] }
      dfsChildrenG fuel st2 bl u rest
    else if cv = 0 then
      let r := dfsVisitG fuel st bl v
      dfsChildrenG fuel r.1 r.2 u rest
    else dfsChildrenG fuel st bl u rest
termination_by fuel st bl u snapshot => (fuel, snapshot.length + 1)

end

lemma dfsChildrenG_fst_aux (fuel : Nat)
    (ihv : ∀ st bl u, (dfsVisitG fuel st bl u).1 = dfsVisit fuel st u) :
    ∀ (cs : List String) (st : DfsState) (bl : List String) (u : String),
    (dfsChildrenG fuel st bl u cs).1 = dfsChildren fuel st u cs := by
  intro cs
  induction cs with
  | nil =>
    intro st bl u
    rw [dfsChildrenG, dfsChildren]
  | cons v rest ih =>
    intro st bl u
    rw [dfsChildrenG, dfsChildren]
    by_cases h1 : aget st.color v 0 = 1
    · rw [if_pos h1, if_pos h1]
      exact ih _ bl u
    · rw [if_neg h1, if_neg h1]
      by_cases h0 : aget st.color v 0 = 0
      · rw [if_pos h0, if_pos h0]
        rw [← ihv st bl v]
        exact ih _ _ u
      · rw [if_neg h0, if_neg h0]
        exact ih st bl u

lemma dfsVisitG_fst : ∀ (fuel : Nat) (st : DfsState) (bl : List String)
    (u : String), (dfsVisitG fuel st bl u).1 = dfsVisit fuel st u := by
  intro fuel
  induction fuel with
  | zero =>
    intro st bl u
    rw [dfsVisitG, dfsVisit]
  | succ f ih =>
    intro st bl u
    rw [dfsVisitG, dfsVisit]
    rw [dfsChildrenG_fst_aux f ih]

/-- break_cycles instrumented with the blackening order. -/
def break_cyclesG (node_ids : List String)
    (children parents : List (String × List String)) :
    DfsState × List String :=
  let st0 : DfsState :=
    { color := node_ids.map (fun nid => (nid, 0))
      children := children, parents := parents, reversedEdges := [] }
  node_ids.foldl
    (fun r nid =>
      if aget r.1.color nid 0 = 0 then
        dfsVisitG (node_ids.length + 1) r.1 r.2 nid
      else r)
    (st0, [])

lemma break_cyclesG_fst (node_ids : List String)
    (children parents : List (String × List String)) :
    (break_cyclesG node_ids children parents).1
      = break_cycles node_ids children parents := by
  rw [break_cyclesG, break_cycles]
  suffices h : ∀ (fuel : Nat) (l : List String) (st : DfsState)
      (bl : List String),
      (l.foldl (fun r nid =>
        if aget r.1.color nid 0 = 0 then dfsVisitG fuel r.1 r.2 nid
        else r) (st, bl)).1
      = l.foldl (fun st2 nid =>
        if aget st2.color nid 0 = 0 then dfsVisit fuel st2 nid
        else st2) st by
    exact h (node_ids.length + 1) node_ids _ []
  intro fuel l
  induction l with
  | nil =>
    intro st bl
    rw [List.foldl_nil, List.foldl_nil]
  | cons nid l' ih =>
    intro st bl
    rw [List.foldl_cons, List.foldl_cons]
    by_cases h0 : aget st.color nid 0 = 0
    · rw [if_pos h0, if_pos h0]
      have hp : (dfsVisitG fuel st bl nid)
          = ((dfsVisitG fuel st bl nid).1, (dfsVisitG fuel st bl nid).2) :=
        rfl
      rw [hp, ih, dfsVisitG_fst]
    · rw [if_neg h0, if_neg h0]
      exact ih st bl

/-- Invariant of the instrumented DFS state with its black order: black
nodes are exactly the listed ones, the order has no duplicates, every
child of a black node is an earlier black, no self-loops, all edges stay
in the component, child/parent multiplicities agree, colors are
three-valued. -/
structure DInv (comp : List String) (st : DfsState) (bl : List String) :
    Prop where
  blackIff : ∀ u, aget st.color u 0 = 2 ↔ u ∈ bl
  blNodup : bl.Nodup
  rank : ∀ b ∈ bl, ∀ v ∈ aget st.children b [],
    v ∈ bl ∧ listIdx bl v < listIdx bl b
  noSelf : ∀ u, u ∉ aget st.children u []
  closure : ∀ u v, v ∈ aget st.children u [] → u ∈ comp ∧ v ∈ comp
  sym : ∀ u v, (aget st.children u []).count v
    = (aget st.parents v []).count u
  colorRange : ∀ u, aget st.color u 0 = 0 ∨ aget st.color u 0 = 1
    ∨ aget st.color u 0 = 2

/-- The state change of one back-edge reversal in the DFS child loop. -/
def revStep (st : DfsState) (u v : String) : DfsState :=
  { color := st.color
    children := aset (aset st.children u
      (removeFirst (aget st.children u []) v)) v
      (aget st.children v [] ++ [u])
    parents := aset (aset st.parents v
      (removeFirst (aget st.parents v []) u)) u
      (aget st.parents u [] ++ [v])
    reversedEdges := st.reversedEdges ++ [(u, v)] }

lemma revStep_children (st : DfsState) (u v g : String) (huv : u ≠ v) :
    aget (revStep st u v).children g []
      = if g = v then aget st.children v [] ++ [u]
        else if g = u then removeFirst (aget st.children u []) v
        else aget st.children g [] := by
  show aget (aset (aset st.children u
      (removeFirst (aget st.children u []) v)) v
      (aget st.children v [] ++ [u])) g [] = _
  by_cases hgv : g = v
  · rw [if_pos hgv, ← hgv] at *
    rw [aget_aset_self]
  · rw [if_neg hgv, aget_aset_other _ _ _ _ _ (fun h => hgv h.symm)]
    by_cases hgu : g = u
    · rw [if_pos hgu, ← hgu]
      rw [aget_aset_self]
    · rw [if_neg hgu, aget_aset_other _ _ _ _ _ (fun h => hgu h.symm)]

lemma revStep_parents (st : DfsState) (u v g : String) (huv : u ≠ v) :
    aget (revStep st u v).parents g []
      = if g = u then aget st.parents u [] ++ [v]
        else if g = v then removeFirst (aget st.parents v []) u
        else aget st.parents g [] := by
  show aget (aset (aset st.parents v
      (removeFirst (aget st.parents v []) u)) u
      (aget st.parents u [] ++ [v])) g [] = _
  by_cases hgu : g = u
  · rw [if_pos hgu, ← hgu] at *
    rw [aget_aset_self]
  · rw [if_neg hgu, aget_aset_other _ _ _ _ _ (fun h => hgu h.symm)]
    by_cases hgv : g = v
    · rw [if_pos hgv, ← hgv]
      rw [aget_aset_self]
    · rw [if_neg hgv, aget_aset_other _ _ _ _ _ (fun h => hgv h.symm)]

lemma count_singleton_eq (u b : String) :
    ([u] : List String).count b = if b = u then 1 else 0 := by
  by_cases h : b = u
  · rw [if_pos h, h]
    simp [List.count_singleton]
  · rw [if_neg h]
    exact List.count_eq_zero.mpr (fun hm => h (List.mem_singleton.mp hm))

lemma dfsChildrenG_gray (fuel : Nat) (st : DfsState) (bl : List String)
    (u v : String) (rest : List String) (h1 : aget st.color v 0 = 1)
    (huv : u ≠ v) :
    dfsChildrenG fuel st bl u (v :: rest)
      = dfsChildrenG fuel (revStep st u v) bl u rest := by
  have e0 : dfsChildrenG fuel st bl u (v :: rest)
      = dfsChildrenG fuel
          { color := st.color
            children := aset (aset st.children u
              (removeFirst (aget st.children u []) v)) v
              (aget (aset st.children u
                (removeFirst (aget st.children u []) v)) v [] ++ [u])
            parents := aset (aset st.parents v
              (removeFirst (aget st.parents v []) u)) u
              (aget (aset st.parents v
                (removeFirst (aget st.parents v []) u)) u [] ++ [v])
            reversedEdges := st.reversedEdges ++ [(u, v)] }
          bl u rest := by
    rw [dfsChildrenG, if_pos h1]
  rw [e0, aget_aset_other _ _ _ _ _ huv,
    aget_aset_other _ _ _ _ _ (Ne.symm huv)]
  rfl

lemma dfsChildrenG_white (fuel : Nat) (st : DfsState) (bl : List String)
    (u v : String) (rest : List String) (h0 : aget st.color v 0 = 0) :
    dfsChildrenG fuel st bl u (v :: rest)
      = dfsChildrenG fuel (dfsVisitG fuel st bl v).1
          (dfsVisitG fuel st bl v).2 u rest := by
  rw [dfsChildrenG, if_neg (by rw [h0]; omega), if_pos h0]

lemma dfsChildrenG_black (fuel : Nat) (st : DfsState) (bl : List String)
    (u v : String) (rest : List String) (h2 : aget st.color v 0 = 2) :
    dfsChildrenG fuel st bl u (v :: rest)
      = dfsChildrenG fuel st bl u rest := by
  rw [dfsChildrenG, if_neg (by rw [h2]; omega), if_neg (by rw [h2]; omega)]

lemma DInv_gray (comp : List String) (st : DfsState) (bl : List String)
    (u : String) (hinv : DInv comp st bl)
    (hu : aget st.color u 0 ≠ 2) :
    DInv comp { st with color := aset st.color u 1 } bl := by
  have hubl : u ∉ bl := fun h => hu ((hinv.blackIff u).mpr h)
  refine ⟨?_, hinv.blNodup, hinv.rank, hinv.noSelf, hinv.closure,
    hinv.sym, ?_⟩
  · intro w
    by_cases hwu : w = u
    · subst hwu
      show aget (aset st.color w 1) w 0 = 2 ↔ w ∈ bl
      rw [aget_aset_self]
      exact ⟨fun h => absurd h (by omega), fun h => absurd h hubl⟩
    · show aget (aset st.color u 1) w 0 = 2 ↔ w ∈ bl
      rw [aget_aset_other _ _ _ _ _ (fun h => hwu h.symm)]
      exact hinv.blackIff w
  · intro w
    by_cases hwu : w = u
    · subst hwu
      show aget (aset st.color w 1) w 0 = 0 ∨ _ ∨ _
      rw [aget_aset_self]
      exact Or.inr (Or.inl rfl)
    · show aget (aset st.color u 1) w 0 = 0 ∨ _ ∨ _
      rw [aget_aset_other _ _ _ _ _ (fun h => hwu h.symm)]
      exact hinv.colorRange w

lemma DInv_blacken (comp : List String) (st : DfsState) (bl : List String)
    (u : String) (hinv : DInv comp st bl)
    (hu : aget st.color u 0 = 1) (hucomp : u ∈ comp)
    (hch : ∀ v ∈ aget st.children u [], v ∈ bl) :
    DInv comp { st with color := aset st.color u 2 } (bl ++ [u]) := by
  have hubl : u ∉ bl := fun h => by
    have := (hinv.blackIff u).mpr h
    rw [hu] at this
    exact absurd this (by omega)
  refine ⟨?_, ?_, ?_, hinv.noSelf, hinv.closure, hinv.sym, ?_⟩
  · intro w
    by_cases hwu : w = u
    · subst hwu
      show aget (aset st.color w 2) w 0 = 2 ↔ _
      rw [aget_aset_self]
      exact ⟨fun _ => List.mem_append.mpr (Or.inr (List.mem_singleton_self w)),
        fun _ => rfl⟩
    · show aget (aset st.color u 2) w 0 = 2 ↔ _
      rw [aget_aset_other _ _ _ _ _ (fun h => hwu h.symm)]
      refine (hinv.blackIff w).trans ⟨fun h => List.mem_append.mpr (Or.inl h),
        fun h => ?_⟩
      rcases List.mem_append.mp h with h2 | h2
      · exact h2
      · exact absurd (List.mem_singleton.mp h2) hwu
  · rw [List.nodup_append]
    exact ⟨hinv.blNodup, List.nodup_singleton u,
      fun a ha ha2 => hubl ((List.mem_singleton.mp ha2) ▸ ha)⟩
  · intro b hb v hv
    rcases List.mem_append.mp hb with hb1 | hb1
    · obtain ⟨hv1, hv2⟩ := hinv.rank b hb1 v hv
      exact ⟨List.mem_append.mpr (Or.inl hv1),
        by rw [listIdx_append_left bl [u] v hv1,
          listIdx_append_left bl [u] b hb1]; exact hv2⟩
    · have hbu : b = u := List.mem_singleton.mp hb1
      subst hbu
      have hvbl : v ∈ bl := hch v hv
      refine ⟨List.mem_append.mpr (Or.inl hvbl), ?_⟩
      rw [listIdx_append_left bl [b] v hvbl, listIdx_append_self bl b hubl]
      exact listIdx_lt_length bl v hvbl
  · intro w
    by_cases hwu : w = u
    · subst hwu
      show aget (aset st.color w 2) w 0 = 0 ∨ _ ∨ _
      rw [aget_aset_self]
      exact Or.inr (Or.inr rfl)
    · show aget (aset st.color u 2) w 0 = 0 ∨ _ ∨ _
      rw [aget_aset_other _ _ _ _ _ (fun h => hwu h.symm)]
      exact hinv.colorRange w

lemma count_append_singleton (l : List String) (x b : String) :
    (l ++ [x]).count b = l.count b + (if b = x then 1 else 0) := by
  rw [List.count_append, count_singleton_eq]

lemma DInv_revStep (comp : List String) (st : DfsState) (bl : List String)
    (u v : String) (hinv : DInv comp st bl)
    (hu : aget st.color u 0 = 1) (hv : aget st.color v 0 = 1)
    (hucomp : u ∈ comp) (hvcomp : v ∈ comp) (huv : u ≠ v) :
    DInv comp (revStep st u v) bl := by
  have hubl : u ∉ bl := fun h => by
    have h2 := (hinv.blackIff u).mpr h
    rw [hu] at h2
    exact absurd h2 (by omega)
  have hvbl : v ∉ bl := fun h => by
    have h2 := (hinv.blackIff v).mpr h
    rw [hv] at h2
    exact absurd h2 (by omega)
  refine ⟨hinv.blackIff, hinv.blNodup, ?_, ?_, ?_, ?_, hinv.colorRange⟩
  · intro b hb v2 hv2
    have hbu : b ≠ u := fun h => hubl (h ▸ hb)
    have hbv : b ≠ v := fun h => hvbl (h ▸ hb)
    rw [revStep_children st u v b huv, if_neg hbv, if_neg hbu] at hv2
    exact hinv.rank b hb v2 hv2
  · intro g
    rw [revStep_children st u v g huv]
    by_cases hgv : g = v
    · rw [if_pos hgv]
      intro hm
      rcases List.mem_append.mp hm with h2 | h2
      · exact hinv.noSelf v (hgv ▸ h2)
      · exact huv ((List.mem_singleton.mp h2).symm.trans hgv)
    · rw [if_neg hgv]
      by_cases hgu : g = u
      · subst hgu
        rw [if_pos rfl]
        intro hm
        exact hinv.noSelf g (mem_removeFirst _ _ _ hm)
      · rw [if_neg hgu]
        exact hinv.noSelf g
  · intro a b hm
    rw [revStep_children st u v a huv] at hm
    by_cases hav : a = v
    · rw [if_pos hav] at hm
      rcases List.mem_append.mp hm with h2 | h2
      · have h3 := hinv.closure v b h2
        exact ⟨hav ▸ h3.1, h3.2⟩
      · exact ⟨hav ▸ hvcomp, (List.mem_singleton.mp h2) ▸ hucomp⟩
    · rw [if_neg hav] at hm
      by_cases hau : a = u
      · rw [if_pos hau] at hm
        have h3 := hinv.closure u b (mem_removeFirst _ _ _ hm)
        exact ⟨hau ▸ h3.1, h3.2⟩
      · rw [if_neg hau] at hm
        exact hinv.closure a b hm
  · intro a b
    rw [revStep_children st u v a huv, revStep_parents st u v b huv]
    by_cases hav : a = v
    · rw [if_pos hav, count_append_singleton]
      by_cases hbu : b = u
      · rw [if_pos hbu, if_pos hbu, count_append_singleton, if_pos hav,
          hav, hbu, hinv.sym v u]
      · rw [if_neg hbu, if_neg hbu]
        by_cases hbv : b = v
        · rw [if_pos hbv,
            count_removeFirst_other _ _ _ (fun h => huv (h.symm.trans hav)),
            hav, hbv, hinv.sym v v]
          omega
        · rw [if_neg hbv, hav, hinv.sym v b]
          omega
    · rw [if_neg hav]
      by_cases hau : a = u
      · rw [if_pos hau]
        by_cases hbv : b = v
        · rw [hbv, if_neg (fun h => huv h.symm), if_pos rfl,
            count_removeFirst_self, hau, count_removeFirst_self,
            hinv.sym u v]
        · rw [count_removeFirst_other _ _ _ hbv]
          by_cases hbu : b = u
          · rw [if_pos hbu, count_append_singleton, if_neg hav, hbu, hau,
              hinv.sym u u]
            omega
          · rw [if_neg hbu, if_neg hbv, hau, hinv.sym u b]
      · rw [if_neg hau]
        by_cases hbu : b = u
        · rw [if_pos hbu, count_append_singleton, if_neg hav, hbu,
            hinv.sym a u]
          omega
        · rw [if_neg hbu]
          by_cases hbv : b = v
          · rw [if_pos hbv, count_removeFirst_other _ _ _ hau, hbv,
              hinv.sym a v]
          · rw [if_neg hbv, hinv.sym a b]

lemma whiteCount_aset_lt (comp : List String) (col : List (String × Int))
    (u : String) (c : Int) (hu : u ∈ comp) (hw : aget col u 0 = 0)
    (hc : c ≠ 0) :
    whiteCount comp (aset col u c) < whiteCount comp col := by
  rw [whiteCount, whiteCount]
  refine filter_length_lt comp _ _ ?_ u hu ?_ ?_
  · intro x hx hq
    have hq2 := of_decide_eq_true hq
    by_cases hxu : x = u
    · subst hxu
      rw [aget_aset_self] at hq2
      exact absurd hq2 hc
    · rw [aget_aset_other _ _ _ _ _ (fun h => hxu h.symm)] at hq2
      exact decide_eq_true hq2
  · exact decide_eq_true hw
  · refine decide_eq_false ?_
    rw [aget_aset_self]
    exact hc

lemma whiteCount_mono (comp : List String) (col col' : List (String × Int))
    (h : ∀ x, aget col' x 0 = 0 → aget col x 0 = 0) :
    whiteCount comp col' ≤ whiteCount comp col := by
  rw [whiteCount, whiteCount]
  refine filter_length_le comp _ _ ?_
  intro x hx hq
  exact decide_eq_true (h x (of_decide_eq_true hq))

/-- Full specification of one instrumented DFS visit at a given fuel:
the invariant is preserved, the black order grows by freshly blackened
previously-white nodes including the visited one, grays stay gray, no
new grays or whites appear, the white count strictly drops, and child
multiplicities never grow except by nodes blackened during the visit. -/
def VisitSpec (comp : List String) (fuel : Nat) : Prop :=
  ∀ st bl u, DInv comp st bl → aget st.color u 0 = 0 → u ∈ comp →
    whiteCount comp st.color < fuel →
    DInv comp (dfsVisitG fuel st bl u).1 (dfsVisitG fuel st bl u).2
    ∧ (∃ tl, (dfsVisitG fuel st bl u).2 = bl ++ tl)
    ∧ u ∈ (dfsVisitG fuel st bl u).2
    ∧ (∀ w, w ∈ (dfsVisitG fuel st bl u).2 → w ∈ bl ∨ aget st.color w 0 = 0)
    ∧ (∀ w, aget st.color w 0 = 1 →
        aget (dfsVisitG fuel st bl u).1.color w 0 = 1)
    ∧ (∀ w, aget (dfsVisitG fuel st bl u).1.color w 0 = 1 →
        aget st.color w 0 = 1)
    ∧ (∀ w, aget (dfsVisitG fuel st bl u).1.color w 0 = 0 →
        aget st.color w 0 = 0)
    ∧ whiteCount comp (dfsVisitG fuel st bl u).1.color
        < whiteCount comp st.color
    ∧ (∀ g w, w ∉ (dfsVisitG fuel st bl u).2 →
        (aget (dfsVisitG fuel st bl u).1.children g []).count w
          ≤ (aget st.children g []).count w)

lemma dfsChildrenG_spec (comp : List String) (fuel : Nat)
    (ihv : VisitSpec comp fuel) :
    ∀ (cs : List String) (st : DfsState) (bl : List String) (u : String),
    DInv comp st bl → aget st.color u 0 = 1 → u ∈ comp →
    (∀ v ∈ cs, v ∈ comp ∧ v ≠ u) →
    whiteCount comp st.color < fuel →
    (∀ w, w ∉ bl → (aget st.children u []).count w ≤ cs.count w) →
    DInv comp (dfsChildrenG fuel st bl u cs).1
      (dfsChildrenG fuel st bl u cs).2
    ∧ (∃ tl, (dfsChildrenG fuel st bl u cs).2 = bl ++ tl)
    ∧ (∀ w, w ∈ (dfsChildrenG fuel st bl u cs).2 →
        w ∈ bl ∨ aget st.color w 0 = 0)
    ∧ (∀ w, aget st.color w 0 = 1 →
        aget (dfsChildrenG fuel st bl u cs).1.color w 0 = 1)
    ∧ (∀ w, aget (dfsChildrenG fuel st bl u cs).1.color w 0 = 1 →
        aget st.color w 0 = 1)
    ∧ (∀ w, aget (dfsChildrenG fuel st bl u cs).1.color w 0 = 0 →
        aget st.color w 0 = 0)
    ∧ whiteCount comp (dfsChildrenG fuel st bl u cs).1.color
        ≤ whiteCount comp st.color
    ∧ (∀ g w, w ∉ (dfsChildrenG fuel st bl u cs).2 → w ≠ u →
        (aget (dfsChildrenG fuel st bl u cs).1.children g []).count w
          ≤ (aget st.children g []).count w)
    ∧ (∀ w, w ∉ (dfsChildrenG fuel st bl u cs).2 →
        (aget (dfsChildrenG fuel st bl u cs).1.children u []).count w
          = 0) := by
  intro cs
  induction cs with
  | nil =>
    intro st bl u hinv hgray hucomp hcs hwf hcount
    rw [dfsChildrenG]
    refine ⟨hinv, ⟨[], (List.append_nil bl).symm⟩, ?_, ?_, ?_, ?_,
      le_refl _, ?_, ?_⟩
    · intro w hw
      exact Or.inl hw
    · intro w h
      exact h
    · intro w h
      exact h
    · intro w h
      exact h
    · intro g w hw hwu
      exact le_refl _
    · intro w hw
      have h2 := hcount w hw
      rw [List.count_nil] at h2
      exact Nat.le_zero.mp h2
  | cons v rest ih =>
    intro st bl u hinv hgray hucomp hcs hwf hcount
    obtain ⟨hvcomp, hvu⟩ := hcs v (List.mem_cons_self v rest)
    have hcs' : ∀ w ∈ rest, w ∈ comp ∧ w ≠ u :=
      fun w hw => hcs w (List.mem_cons_of_mem v hw)
    by_cases h1 : aget st.color v 0 = 1
    · rw [dfsChildrenG_gray fuel st bl u v rest h1 (Ne.symm hvu)]
      have hinv2 : DInv comp (revStep st u v) bl :=
        DInv_revStep comp st bl u v hinv hgray h1 hucomp hvcomp
          (Ne.symm hvu)
      have hcount2 : ∀ w, w ∉ bl →
          (aget (revStep st u v).children u []).count w ≤ rest.count w := by
        intro w hwbl
        have hbase := hcount w hwbl
        rw [revStep_children st u v u (Ne.symm hvu),
          if_neg (Ne.symm hvu), if_pos rfl]
        by_cases hwv : w = v
        · rw [hwv, count_removeFirst_self]
          rw [hwv, List.count_cons_self] at hbase
          omega
        · rw [count_removeFirst_other _ _ _ hwv]
          rw [List.count_cons_of_ne hwv] at hbase
          exact hbase
      obtain ⟨c1, c2, c3, c4, c5, c6, c7, c8, c9⟩ :=
        ih (revStep st u v) bl u hinv2 hgray hucomp hcs' hwf hcount2
      refine ⟨c1, c2, c3, c4, c5, c6, c7, ?_, c9⟩
      intro g w hw hwu
      refine le_trans (c8 g w hw hwu) ?_
      rw [revStep_children st u v g (Ne.symm hvu)]
      by_cases hgv : g = v
      · rw [if_pos hgv, count_append_singleton, if_neg hwu, hgv]
        omega
      · rw [if_neg hgv]
        by_cases hgu : g = u
        · rw [if_pos hgu]
          by_cases hwv : w = v
          · rw [hwv, count_removeFirst_self, hgu]
            omega
          · rw [count_removeFirst_other _ _ _ hwv, hgu]
        · rw [if_neg hgu]
    · by_cases h0 : aget st.color v 0 = 0
      · rw [dfsChildrenG_white fuel st bl u v rest h0]
        obtain ⟨w1, ⟨tl1, htl1⟩, w3, w4, w5, w6, w7, w8, w9⟩ :=
          ihv st bl v hinv h0 hvcomp hwf
        have hsub1 : ∀ x ∈ bl, x ∈ (dfsVisitG fuel st bl v).2 := by
          intro x hx
          rw [htl1]
          exact List.mem_append.mpr (Or.inl hx)
        have hcount' : ∀ w, w ∉ (dfsVisitG fuel st bl v).2 →
            (aget (dfsVisitG fuel st bl v).1.children u []).count w
              ≤ rest.count w := by
          intro w hw
          have hwbl : w ∉ bl := fun h => hw (hsub1 w h)
          have hwv : w ≠ v := fun h => hw (h ▸ w3)
          have h2 := hcount w hwbl
          rw [List.count_cons_of_ne hwv] at h2
          exact le_trans (w9 u w hw) h2
        obtain ⟨c1, c2, c3, c4, c5, c6, c7, c8, c9⟩ :=
          ih (dfsVisitG fuel st bl v).1 (dfsVisitG fuel st bl v).2 u
            w1 (w5 u hgray) hucomp hcs'
            (lt_trans w8 hwf) hcount'
        obtain ⟨tl2, htl2⟩ := c2
        have hsub2 : ∀ x ∈ (dfsVisitG fuel st bl v).2,
            x ∈ (dfsChildrenG fuel (dfsVisitG fuel st bl v).1
              (dfsVisitG fuel st bl v).2 u rest).2 := by
          intro x hx
          rw [htl2]
          exact List.mem_append.mpr (Or.inl hx)
        refine ⟨c1, ⟨tl1 ++ tl2, by rw [htl2, htl1, List.append_assoc]⟩,
          ?_, ?_, ?_, ?_, ?_, ?_, c9⟩
        · intro w hw
          rcases c3 w hw with h2 | h2
          · exact w4 w h2
          · exact Or.inr (w7 w h2)
        · intro w h2
          exact c4 w (w5 w h2)
        · intro w h2
          exact w6 w (c5 w h2)
        · intro w h2
          exact w7 w (c6 w h2)
        · exact le_trans c7 (le_of_lt w8)
        · intro g w hw hwu
          have hw2 : w ∉ (dfsVisitG fuel st bl v).2 :=
            fun h => hw (hsub2 w h)
          exact le_trans (c8 g w hw hwu) (w9 g w hw2)
      · have h2 : aget st.color v 0 = 2 := by
          rcases hinv.colorRange v with h | h | h
          · exact absurd h h0
          · exact absurd h h1
          · exact h
        rw [dfsChildrenG_black fuel st bl u v rest h2]
        have hvbl : v ∈ bl := (hinv.blackIff v).mp h2
        have hcount' : ∀ w, w ∉ bl →
            (aget st.children u []).count w ≤ rest.count w := by
          intro w hw
          have hwv : w ≠ v := fun h => hw (h ▸ hvbl)
          have h3 := hcount w hw
          rw [List.count_cons_of_ne hwv] at h3
          exact h3
        exact ih st bl u hinv hgray hucomp hcs' hwf hcount'

lemma dfsVisitG_succ (f : Nat) (st : DfsState) (bl : List String)
    (u : String) :
    dfsVisitG (f + 1) st bl u
      = ({ (dfsChildrenG f { st with color := aset st.color u 1 } bl u
            (aget st.children u [])).1 with
          color := aset (dfsChildrenG f
            { st with color := aset st.color u 1 } bl u
            (aget st.children u [])).1.color u 2 },
        (dfsChildrenG f { st with color := aset st.color u 1 } bl u
          (aget st.children u [])).2 ++ [u]) := by
  rw [dfsVisitG]

lemma dfsVisitG_spec (comp : List String) :
    ∀ fuel, VisitSpec comp fuel := by
  intro fuel
  induction fuel with
  | zero =>
    intro st bl u hinv hw hucomp hwf
    exact absurd hwf (Nat.not_lt_zero _)
  | succ f ihf =>
    intro st bl u hinv hw hucomp hwf
    rw [dfsVisitG_succ f st bl u]
    have hinv1 : DInv comp { st with color := aset st.color u 1 } bl :=
      DInv_gray comp st bl u hinv (by rw [hw]; omega)
    have hgray1 : aget (aset st.color u 1) u 0 = 1 := aget_aset_self _ _ _ _
    have hwlt : whiteCount comp (aset st.color u 1) < whiteCount comp st.color :=
      whiteCount_aset_lt comp st.color u 1 hucomp hw (by omega)
    have hwf1 : whiteCount comp (aset st.color u 1) < f := by omega
    have hcs1 : ∀ v ∈ aget st.children u [], v ∈ comp ∧ v ≠ u := by
      intro v hv
      exact ⟨(hinv.closure u v hv).2, fun h => hinv.noSelf u (h ▸ hv)⟩
    have hcount1 : ∀ w, w ∉ bl →
        (aget st.children u []).count w
          ≤ (aget st.children u []).count w :=
      fun w _ => le_refl _
    obtain ⟨c1, ⟨tl, htl⟩, c3, c4, c5, c6, c7, c8, c9⟩ :=
      dfsChildrenG_spec comp f ihf (aget st.children u [])
        { st with color := aset st.color u 1 } bl u
        hinv1 hgray1 hucomp hcs1 hwf1 hcount1
    have hu2 : aget (dfsChildrenG f { st with color := aset st.color u 1 }
        bl u (aget st.children u [])).1.color u 0 = 1 := c4 u hgray1
    have hun : u ∉ (dfsChildrenG f { st with color := aset st.color u 1 }
        bl u (aget st.children u [])).2 := by
      intro h
      have h2 := (c1.blackIff u).mpr h
      rw [hu2] at h2
      exact absurd h2 (by omega)
    have hch : ∀ w ∈ aget (dfsChildrenG f
        { st with color := aset st.color u 1 } bl u
        (aget st.children u [])).1.children u [],
        w ∈ (dfsChildrenG f { st with color := aset st.color u 1 } bl u
          (aget st.children u [])).2 := by
      intro w hwmem
      by_contra hmem
      exact absurd hwmem (List.count_eq_zero.mp (c9 w hmem))
    refine ⟨DInv_blacken comp _ _ u c1 hu2 hucomp hch,
      ⟨tl ++ [u], by rw [htl, List.append_assoc]⟩,
      List.mem_append.mpr (Or.inr (List.mem_singleton_self u)),
      ?_, ?_, ?_, ?_, ?_, ?_⟩
    · intro w hwm
      rcases List.mem_append.mp hwm with h2 | h2
      · rcases c3 w h2 with h3 | h3
        · exact Or.inl h3
        · right
          by_cases hwu : w = u
          · rw [hwu]
            exact hw
          · rw [aget_aset_other _ _ _ _ _ (fun h => hwu h.symm)] at h3
            exact h3
      · rw [List.mem_singleton.mp h2]
        exact Or.inr hw
    · intro w h2
      have hwu : w ≠ u := fun h => by
        rw [h, hw] at h2
        exact absurd h2 (by omega)
      have h3 : aget (aset st.color u 1) w 0 = 1 := by
        rw [aget_aset_other _ _ _ _ _ (fun h => hwu h.symm)]
        exact h2
      have h4 := c4 w h3
      show aget (aset _ u 2) w 0 = 1
      rw [aget_aset_other _ _ _ _ _ (fun h => hwu h.symm)]
      exact h4
    · intro w h2
      have hwu : w ≠ u := by
        intro h
        rw [h] at h2
        have h3 : aget (aset (dfsChildrenG f
            { st with color := aset st.color u 1 } bl u
            (aget st.children u [])).1.color u 2) u 0 = 2 :=
          aget_aset_self _ _ _ _
        rw [h3] at h2
        exact absurd h2 (by omega)
      rw [show aget (aset (dfsChildrenG f
          { st with color := aset st.color u 1 } bl u
          (aget st.children u [])).1.color u 2) w 0
          = aget (dfsChildrenG f { st with color := aset st.color u 1 }
            bl u (aget st.children u [])).1.color w 0 from
          aget_aset_other _ _ _ _ _ (fun h => hwu h.symm)] at h2
      have h4 := c5 w h2
      rw [aget_aset_other _ _ _ _ _ (fun h => hwu h.symm)] at h4
      exact h4
    · intro w h2
      have hwu : w ≠ u := by
        intro h
        rw [h] at h2
        have h3 : aget (aset (dfsChildrenG f
            { st with color := aset st.color u 1 } bl u
            (aget st.children u [])).1.color u 2) u 0 = 2 :=
          aget_aset_self _ _ _ _
        rw [h3] at h2
        exact absurd h2 (by omega)
      rw [show aget (aset (dfsChildrenG f
          { st with color := aset st.color u 1 } bl u
          (aget st.children u [])).1.color u 2) w 0
          = aget (dfsChildrenG f { st with color := aset st.color u 1 }
            bl u (aget st.children u [])).1.color w 0 from
          aget_aset_other _ _ _ _ _ (fun h => hwu h.symm)] at h2
      have h4 := c6 w h2
      rw [aget_aset_other _ _ _ _ _ (fun h => hwu h.symm)] at h4
      exact h4
    · have hm1 : whiteCount comp (aset (dfsChildrenG f
          { st with color := aset st.color u 1 } bl u
          (aget st.children u [])).1.color u 2)
          ≤ whiteCount comp (dfsChildrenG f
            { st with color := aset st.color u 1 } bl u
            (aget st.children u [])).1.color := by
        refine whiteCount_mono comp _ _ ?_
        intro x hx
        by_cases hxu : x = u
        · rw [hxu, aget_aset_self] at hx
          exact absurd hx (by omega)
        · rw [aget_aset_other _ _ _ _ _ (fun h => hxu h.symm)] at hx
          exact hx
      calc whiteCount comp (aset (dfsChildrenG f
            { st with color := aset st.color u 1 } bl u
            (aget st.children u [])).1.color u 2)
          ≤ whiteCount comp (dfsChildrenG f
              { st with color := aset st.color u 1 } bl u
              (aget st.children u [])).1.color := hm1
        _ ≤ whiteCount comp (aset st.color u 1) := c7
        _ < whiteCount comp st.color := hwlt
    · intro g w hwm
      have hw1 : w ∉ (dfsChildrenG f { st with color := aset st.color u 1 }
          bl u (aget st.children u [])).2 :=
        fun h => hwm (List.mem_append.mpr (Or.inl h))
      have hwu : w ≠ u := fun h => hwm (List.mem_append.mpr
        (Or.inr (h ▸ List.mem_singleton_self u)))
      exact c8 g w hw1 hwu

lemma breakFoldG_spec (comp : List String) (fuel : Nat)
    (hfuel : comp.length < fuel) :
    ∀ (l : List String) (st : DfsState) (bl : List String),
    (∀ x ∈ l, x ∈ comp) →
    DInv comp st bl →
    (∀ w, aget st.color w 0 ≠ 1) →
    DInv comp (l.foldl (fun r nid =>
        if aget r.1.color nid 0 = 0 then dfsVisitG fuel r.1 r.2 nid else r)
        (st, bl)).1
      (l.foldl (fun r nid =>
        if aget r.1.color nid 0 = 0 then dfsVisitG fuel r.1 r.2 nid else r)
        (st, bl)).2
    ∧ (∀ w, aget (l.foldl (fun r nid =>
        if aget r.1.color nid 0 = 0 then dfsVisitG fuel r.1 r.2 nid else r)
        (st, bl)).1.color w 0 ≠ 1)
    ∧ (∀ x ∈ l, x ∈ (l.foldl (fun r nid =>
        if aget r.1.color nid 0 = 0 then dfsVisitG fuel r.1 r.2 nid else r)
        (st, bl)).2)
    ∧ (∃ tl, (l.foldl (fun r nid =>
        if aget r.1.color nid 0 = 0 then dfsVisitG fuel r.1 r.2 nid else r)
        (st, bl)).2 = bl ++ tl) := by
  intro l
  induction l with
  | nil =>
    intro st bl hl hinv hng
    rw [List.foldl_nil]
    exact ⟨hinv, hng, fun x hx => absurd hx (List.not_mem_nil x),
      ⟨[], (List.append_nil bl).symm⟩⟩
  | cons nid l' ih =>
    intro st bl hl hinv hng
    rw [List.foldl_cons]
    have hl' : ∀ x ∈ l', x ∈ comp :=
      fun x hx => hl x (List.mem_cons_of_mem nid hx)
    by_cases h0 : aget st.color nid 0 = 0
    · rw [if_pos h0]
      obtain ⟨v1, ⟨tl, htl⟩, v3, v4, v5, v6, v7, v8, v9⟩ :=
        dfsVisitG_spec comp fuel st bl nid hinv h0
          (hl nid (List.mem_cons_self nid l'))
          (lt_of_le_of_lt (whiteCount_le comp st.color) hfuel)
      have hng2 : ∀ w, aget (dfsVisitG fuel st bl nid).1.color w 0 ≠ 1 :=
        fun w h => hng w (v6 w h)
      obtain ⟨i1, i2, i3, i4⟩ := ih (dfsVisitG fuel st bl nid).1
        (dfsVisitG fuel st bl nid).2 hl' v1 hng2
      obtain ⟨tl2, htl2⟩ := i4
      refine ⟨i1, i2, ?_, ⟨tl ++ tl2, by rw [htl2, htl, List.append_assoc]⟩⟩
      intro x hx
      rcases List.mem_cons.mp hx with h2 | h2
      · rw [htl2]
        exact List.mem_append.mpr (Or.inl (h2 ▸ v3))
      · exact i3 x h2
    · rw [if_neg h0]
      have h2 : aget st.color nid 0 = 2 := by
        rcases hinv.colorRange nid with h | h | h
        · exact absurd h h0
        · exact absurd h (hng nid)
        · exact h
      have hmem : nid ∈ bl := (hinv.blackIff nid).mp h2
      obtain ⟨i1, i2, i3, i4⟩ := ih st bl hl' hinv hng
      obtain ⟨tl2, htl2⟩ := i4
      refine ⟨i1, i2, ?_, ⟨tl2, htl2⟩⟩
      intro x hx
      rcases List.mem_cons.mp hx with h3 | h3
      · rw [htl2]
        exact List.mem_append.mpr (Or.inl (h3 ▸ hmem))
      · exact i3 x h3

lemma aget_map_zero (comp : List String) (u : String) :
    aget (comp.map (fun nid => (nid, (0 : Int)))) u 0 = 0 := by
  rw [aget, alookup_map_self]
  by_cases h : u ∈ comp
  · rw [if_pos h]
    rfl
  · rw [if_neg h]
    rfl

lemma break_cyclesG_spec (comp : List String)
    (ch pa : List (String × List String))
    (hnoSelf : ∀ u, u ∉ aget ch u [])
    (hclos : ∀ u v, v ∈ aget ch u [] → u ∈ comp ∧ v ∈ comp)
    (hsym : ∀ u v, (aget ch u []).count v = (aget pa v []).count u) :
    DInv comp (break_cyclesG comp ch pa).1 (break_cyclesG comp ch pa).2
    ∧ (∀ x ∈ comp, x ∈ (break_cyclesG comp ch pa).2) := by
  have heq : break_cyclesG comp ch pa
      = comp.foldl (fun r nid =>
          if aget r.1.color nid 0 = 0 then
            dfsVisitG (comp.length + 1) r.1 r.2 nid
          else r)
        (({ color := comp.map (fun nid => (nid, 0))
            children := ch, parents := pa,
            reversedEdges := [] } : DfsState), []) := by
    rw [break_cyclesG]
  have hinv0 : DInv comp
      { color := comp.map (fun nid => (nid, 0))
        children := ch, parents := pa, reversedEdges := [] } [] := by
    refine ⟨?_, List.nodup_nil, ?_, hnoSelf, hclos, hsym, ?_⟩
    · intro u
      show aget (comp.map (fun nid => (nid, 0))) u 0 = 2 ↔ u ∈ ([] : List String)
      rw [aget_map_zero]
      exact ⟨fun h => absurd h (by omega),
        fun h => absurd h (List.not_mem_nil u)⟩
    · intro b hb
      exact absurd hb (List.not_mem_nil b)
    · intro u
      show aget (comp.map (fun nid => (nid, 0))) u 0 = 0 ∨ _ ∨ _
      rw [aget_map_zero]
      exact Or.inl rfl
  have hng0 : ∀ w, aget (comp.map (fun nid => (nid, (0 : Int)))) w 0 ≠ 1 := by
    intro w
    rw [aget_map_zero]
    omega
  obtain ⟨i1, i2, i3, i4⟩ := breakFoldG_spec comp (comp.length + 1)
    (Nat.lt_succ_self _) comp _ [] (fun x hx => hx) hinv0 hng0
  rw [heq]
  exact ⟨i1, i3⟩

lemma break_cycles_spec (comp : List String)
    (ch pa : List (String × List String))
    (hnoSelf : ∀ u, u ∉ aget ch u [])
    (hclos : ∀ u v, v ∈ aget ch u [] → u ∈ comp ∧ v ∈ comp)
    (hsym : ∀ u v, (aget ch u []).count v = (aget pa v []).count u) :
    ∃ bl, DInv comp (break_cycles comp ch pa) bl
      ∧ ∀ x ∈ comp, x ∈ bl := by
  obtain ⟨h1, h2⟩ := break_cyclesG_spec comp ch pa hnoSelf hclos hsym
  exact ⟨(break_cyclesG comp ch pa).2,
    break_cyclesG_fst comp ch pa ▸ h1, h2⟩

/-! ### C2: the Kahn loop terminates with a complete topological order -/

lemma kahnRemaining_nil (comp : List String)
    (ch : List (String × List String)) (v : String) :
    kahnRemaining comp ch [] v
      = ((comp.map (fun u => ((aget ch u []).count v : Int))).sum) := by
  rw [kahnRemaining,
    List.filter_eq_self.mpr (fun a _ => decide_eq_true (List.not_mem_nil a))]

lemma aget_map_indeg (comp : List String)
    (pa : List (String × List String)) (v : String) :
    aget (comp.map (fun nid => (nid, ((aget pa nid []).length : Int)))) v 0
      = if v ∈ comp then ((aget pa v []).length : Int) else 0 := by
  rw [aget, alookup_map_self]
  by_cases h : v ∈ comp
  · rw [if_pos h, if_pos h]
    rfl
  · rw [if_neg h, if_neg h]
    rfl

lemma KahnInv_init (comp : List String)
    (ch pa : List (String × List String)) (hnd : comp.Nodup)
    (hsym : ∀ u v, (aget ch u []).count v = (aget pa v []).count u)
    (hclos : ∀ u v, v ∈ aget ch u [] → u ∈ comp ∧ v ∈ comp) :
    KahnInv comp ch []
      (comp.map (fun nid => (nid, ((aget pa nid []).length : Int))))
      (comp.filter (fun nid =>
        aget (comp.map (fun nid2 =>
          (nid2, ((aget pa nid2 []).length : Int)))) nid 0 = 0)) := by
  refine ⟨?_, ?_, ?_, ?_, ?_, ?_, ?_⟩
  · intro v hv
    exact absurd hv (List.not_mem_nil v)
  · intro v hv
    exact (List.mem_filter.mp hv).1
  · rw [List.nil_append]
    exact List.Nodup.filter _ hnd
  · intro v hv
    rcases hv with hv | hv
    · exact absurd hv (List.not_mem_nil v)
    · have h2 := of_decide_eq_true (List.mem_filter.mp hv).2
      omega
  · intro v hv hvt hvq
    rw [aget_map_indeg, if_pos hv]
    have hne : ¬ ((aget (comp.map (fun nid2 =>
        (nid2, ((aget pa nid2 []).length : Int)))) v 0) = 0) := by
      intro h0
      exact hvq (List.mem_filter.mpr ⟨hv, decide_eq_true h0⟩)
    rw [aget_map_indeg, if_pos hv] at hne
    omega
  · intro v hv
    rw [aget_map_indeg, if_neg hv]
  · intro v hv
    rw [aget_map_indeg, if_pos hv, kahnRemaining_nil]
    have hsub : ∀ x ∈ aget pa v [], x ∈ comp := by
      intro x hx
      have hcx : (aget pa v []).count x ≠ 0 :=
        fun h => (List.count_eq_zero.mp h) hx
      have hcv : (aget ch x []).count v ≠ 0 := by
        rw [hsym x v]
        exact hcx
      have hvm : v ∈ aget ch x [] := by
        by_contra hm
        exact hcv (List.count_eq_zero.mpr hm)
      exact (hclos x v hvm).1
    have he : comp.map (fun u => ((aget ch u []).count v : Int))
        = comp.map (fun u => ((aget pa v []).count u : Int)) :=
      List.map_congr_left (fun u _ => by rw [hsym u v])
    rw [he, sum_count_eq_length (aget pa v []) comp hsub hnd]

lemma kahnStep_preserves (comp : List String)
    (ch : List (String × List String)) (hnd : comp.Nodup)
    (topo : List String) (indeg : List (String × Int)) (u : String)
    (rest : List String) (lo lo2 : List (String × Int))
    (indeg2 : List (String × Int)) (q2 : List String)
    (hinv : KahnInv comp ch topo indeg (u :: rest))
    (hfold : (aget ch u []).foldl (kahnChildStep u) (lo, indeg, rest)
      = (lo2, indeg2, q2)) :
    KahnInv comp ch (topo ++ [u]) indeg2 q2 := by
  obtain ⟨k1, k2, k3, k4, k5, k6, k7⟩ := hinv
  obtain ⟨f1, f2, f3, f4, f5⟩ :=
    kahnChildFold_spec u (aget ch u []) lo indeg rest lo2 indeg2 q2 hfold
  have hucomp : u ∈ comp := k2 u (List.mem_cons_self u rest)
  obtain ⟨htnd, hqnd, hdisj⟩ := List.nodup_append.mp k3
  have hutopo : u ∉ topo :=
    fun h => hdisj h (List.mem_cons_self u rest)
  have hurest : u ∉ rest := (List.nodup_cons.mp hqnd).1
  have hrestnd : rest.Nodup := (List.nodup_cons.mp hqnd).2
  have hK3rest : ∀ v ∈ rest, aget indeg v 0 ≤ 0 :=
    fun v hv => k4 v (Or.inr (List.mem_cons_of_mem u hv))
  obtain ⟨hq2nd, hq2le⟩ := f5 hrestnd hK3rest
  refine ⟨?_, ?_, ?_, ?_, ?_, ?_, ?_⟩
  · intro v hv
    rcases List.mem_append.mp hv with h | h
    · exact k1 v h
    · exact (List.mem_singleton.mp h) ▸ hucomp
  · intro v hv
    rcases f3 v hv with h | h
    · exact k2 v (List.mem_cons_of_mem u h)
    · by_contra hvc
      have := k6 v hvc
      omega
  · rw [List.nodup_append]
    refine ⟨?_, hq2nd, ?_⟩
    · rw [List.nodup_append]
      exact ⟨htnd, List.nodup_singleton u,
        fun a ha ha2 => hutopo ((List.mem_singleton.mp ha2) ▸ ha)⟩
    · intro a ha ha2
      rcases f3 a ha2 with h | h
      · rcases List.mem_append.mp ha with h2 | h2
        · exact hdisj h2 (List.mem_cons_of_mem u h)
        · exact hurest ((List.mem_singleton.mp h2) ▸ h)
      · have h1le := h.2.1
        rcases List.mem_append.mp ha with h2 | h2
        · have := k4 a (Or.inl h2)
          omega
        · have := k4 a (Or.inr ((List.mem_singleton.mp h2) ▸
            List.mem_cons_self u rest))
          omega
  · intro v hv
    rcases hv with hv | hv
    · have hle : aget indeg v 0 ≤ 0 := by
        rcases List.mem_append.mp hv with h | h
        · exact k4 v (Or.inl h)
        · exact k4 v (Or.inr ((List.mem_singleton.mp h) ▸
            List.mem_cons_self u rest))
      have := f1 v
      have hcnn : (0 : Int) ≤ ((aget ch u []).count v : Int) := by omega
      omega
    · exact hq2le v hv
  · intro v hv hvt hvq
    have hvtopo : v ∉ topo := fun h => hvt (List.mem_append.mpr (Or.inl h))
    have hvu : v ≠ u := fun h => hvt (List.mem_append.mpr
      (Or.inr (h ▸ List.mem_singleton_self u)))
    have hvrest : v ∉ rest := fun h => hvq (f2 v h)
    have hvqueue : v ∉ u :: rest := fun h => by
      rcases List.mem_cons.mp h with h2 | h2
      · exact hvu h2
      · exact hvrest h2
    exact f4 v hvq (k5 v hv hvtopo hvqueue)
  · intro v hv
    have := k6 v hv
    have := f1 v
    have hcnn : (0 : Int) ≤ ((aget ch u []).count v : Int) := by omega
    omega
  · intro v hv
    have h7 := k7 v hv
    have hsnoc := kahnRemaining_snoc comp ch topo u v hucomp hnd hutopo
    have := f1 v
    omega

lemma kahnLoop_spec (comp : List String)
    (ch : List (String × List String)) (hnd : comp.Nodup)
    (bl : List String) (hblsub : ∀ x ∈ comp, x ∈ bl)
    (hrank : ∀ b ∈ bl, ∀ v ∈ aget ch b [],
      v ∈ bl ∧ listIdx bl v < listIdx bl b) :
    ∀ (fuel : Nat) (lo : List (String × Int)) (topo : List String)
      (indeg : List (String × Int)) (queue : List String),
    KahnInv comp ch topo indeg queue →
    comp.length + 1 ≤ fuel + topo.length →
    (∀ v ∈ comp, v ∈ (kahnLoop ch fuel lo topo indeg queue).2)
    ∧ (∀ v ∈ (kahnLoop ch fuel lo topo indeg queue).2, v ∈ comp) := by
  intro fuel
  induction fuel with
  | zero =>
    intro lo topo indeg queue hinv hfc
    obtain ⟨k1, k2, k3, k4, k5, k6, k7⟩ := hinv
    have htnd : topo.Nodup := List.Nodup.of_append_left k3
    have := nodup_subset_length topo comp htnd k1
    omega
  | succ f ihf =>
    intro lo topo indeg queue hinv hfc
    cases queue with
    | nil =>
      obtain ⟨k1, k2, k3, k4, k5, k6, k7⟩ := hinv
      rw [kahnLoop]
      refine ⟨?_, fun v hv => k1 v hv⟩
      intro v hv
      by_contra hvt
      obtain ⟨w, hwS, hwmax⟩ := exists_max_rank
        (comp.filter (fun x => ¬ x ∈ topo)) (listIdx bl)
        (List.ne_nil_of_mem
          (List.mem_filter.mpr ⟨hv, decide_eq_true hvt⟩))
      have hwcomp : w ∈ comp := (List.mem_filter.mp hwS).1
      have hwtopo : w ∉ topo := of_decide_eq_true (List.mem_filter.mp hwS).2
      have hw1 : 1 ≤ aget indeg w 0 :=
        k5 w hwcomp hwtopo (List.not_mem_nil w)
      have hw7 := k7 w hwcomp
      have hexists : ∃ x ∈ comp.filter (fun x => ¬ x ∈ topo),
          ((aget ch x []).count w : Int) ≠ 0 := by
        by_contra hno
        push_neg at hno
        have hz : kahnRemaining comp ch topo w = 0 := by
          rw [kahnRemaining]
          apply List.sum_eq_zero
          intro y hy
          obtain ⟨x, hx, hxe⟩ := List.mem_map.mp hy
          rw [← hxe]
          exact hno x hx
        omega
      obtain ⟨x, hxf, hxc⟩ := hexists
      have hwch : w ∈ aget ch x [] := by
        by_contra hm
        rw [List.count_eq_zero.mpr hm] at hxc
        exact hxc rfl
      have hxcomp : x ∈ comp := (List.mem_filter.mp hxf).1
      obtain ⟨hwbl, hlt⟩ := hrank x (hblsub x hxcomp) w hwch
      have := hwmax x hxf
      omega
    | cons u rest =>
      obtain ⟨⟨lo2, indeg2, q2⟩, hF⟩ :
          ∃ r, (aget ch u []).foldl (kahnChildStep u) (lo, indeg, rest)
            = r := ⟨_, rfl⟩
      rw [kahnLoop, hF]
      have hinv2 := kahnStep_preserves comp ch hnd topo indeg u rest
        lo lo2 indeg2 q2 hinv hF
      have hlen : (topo ++ [u]).length = topo.length + 1 := by
        rw [List.length_append, List.length_singleton]
      exact ihf lo2 (topo ++ [u]) indeg2 q2 hinv2 (by omega)

/-! ### C2: repair and grouping folds of assign_layers -/

lemma repairFold_mem :
    ∀ (l : List String) (lo : List (String × Int)) (tp : List String),
    (∀ x ∈ tp, x ∈ (l.foldl
      (fun (st : List (String × Int) × List String) nid2 =>
        if (alookup st.1 nid2).isNone then (aset st.1 nid2 0, st.2 ++ [nid2])
        else st) (lo, tp)).2)
    ∧ (∀ x ∈ (l.foldl
      (fun (st : List (String × Int) × List String) nid2 =>
        if (alookup st.1 nid2).isNone then (aset st.1 nid2 0, st.2 ++ [nid2])
        else st) (lo, tp)).2, x ∈ tp ∨ x ∈ l) := by
  intro l
  induction l with
  | nil =>
    intro lo tp
    rw [List.foldl_nil]
    exact ⟨fun x hx => hx, fun x hx => Or.inl hx⟩
  | cons nid l' ih =>
    intro lo tp
    rw [List.foldl_cons]
    by_cases h : (alookup lo nid).isNone
    · rw [if_pos h]
      obtain ⟨i1, i2⟩ := ih (aset lo nid 0) (tp ++ [nid])
      refine ⟨?_, ?_⟩
      · intro x hx
        exact i1 x (List.mem_append.mpr (Or.inl hx))
      · intro x hx
        rcases i2 x hx with h2 | h2
        · rcases List.mem_append.mp h2 with h3 | h3
          · exact Or.inl h3
          · exact Or.inr ((List.mem_singleton.mp h3) ▸
              List.mem_cons_self nid l')
        · exact Or.inr (List.mem_cons_of_mem nid h2)
    · rw [if_neg h]
      obtain ⟨i1, i2⟩ := ih lo tp
      refine ⟨i1, ?_⟩
      intro x hx
      rcases i2 x hx with h2 | h2
      · exact Or.inl h2
      · exact Or.inr (List.mem_cons_of_mem nid h2)

lemma mem_layers_iff (L : List (List String)) (y : String) :
    (∃ l ∈ L, y ∈ l) ↔ ∃ j, ∃ h : j < L.length, y ∈ L[j] := by
  constructor
  · rintro ⟨l, hl, hy⟩
    obtain ⟨j, hj, hje⟩ := List.mem_iff_getElem.mp hl
    exact ⟨j, hj, hje ▸ hy⟩
  · rintro ⟨j, hj, hy⟩
    exact ⟨L[j], List.getElem_mem hj, hy⟩

lemma exists_mem_set_iff (ls : List (List String)) (i : Nat)
    (hi : i < ls.length) (ext : List String) (y : String) :
    (∃ l ∈ ls.set i (ls.getD i [] ++ ext), y ∈ l)
      ↔ (∃ l ∈ ls, y ∈ l) ∨ y ∈ ext := by
  rw [mem_layers_iff, mem_layers_iff]
  constructor
  · rintro ⟨j, hj, hy⟩
    rw [List.length_set] at hj
    by_cases hji : i = j
    · subst hji
      rw [List.getElem_set_self] at hy
      rcases List.mem_append.mp hy with h | h
      · left
        refine ⟨i, hj, ?_⟩
        rw [List.getD_eq_getElem ls [] hj] at h
        exact h
      · exact Or.inr h
    · rw [List.getElem_set_ne hji] at hy
      exact Or.inl ⟨j, hj, hy⟩
  · rintro (⟨j, hj, hy⟩ | hy)
    · by_cases hji : i = j
      · subst hji
        refine ⟨i, by rw [List.length_set]; exact hj, ?_⟩
        rw [List.getElem_set_self]
        refine List.mem_append.mpr (Or.inl ?_)
        rw [List.getD_eq_getElem ls [] hj]
        exact hy
      · refine ⟨j, by rw [List.length_set]; exact hj, ?_⟩
        rw [List.getElem_set_ne hji]
        exact hy
    · refine ⟨i, by rw [List.length_set]; exact hi, ?_⟩
      rw [List.getElem_set_self]
      exact List.mem_append.mpr (Or.inr hy)

lemma groupFold_mem (lo2 : List (String × Int)) :
    ∀ (tp : List String) (ls : List (List String)),
    (∀ nid ∈ tp, (aget lo2 nid 0).toNat < ls.length) →
    ∀ y, (∃ l ∈ tp.foldl (fun ls2 nid =>
        ls2.set ((aget lo2 nid 0).toNat)
          (ls2.getD ((aget lo2 nid 0).toNat) [] ++ [nid])) ls, y ∈ l)
      ↔ (∃ l ∈ ls, y ∈ l) ∨ y ∈ tp := by
  intro tp
  induction tp with
  | nil =>
    intro ls hall y
    rw [List.foldl_nil]
    exact ⟨fun h => Or.inl h, fun h => by
      rcases h with h | h
      · exact h
      · exact absurd h (List.not_mem_nil y)⟩
  | cons nid tp' ih =>
    intro ls hall y
    rw [List.foldl_cons]
    have hib : (aget lo2 nid 0).toNat < ls.length :=
      hall nid (List.mem_cons_self nid tp')
    have hall' : ∀ x ∈ tp', (aget lo2 x 0).toNat
        < (ls.set ((aget lo2 nid 0).toNat)
            (ls.getD ((aget lo2 nid 0).toNat) [] ++ [nid])).length := by
      intro x hx
      rw [List.length_set]
      exact hall x (List.mem_cons_of_mem nid hx)
    rw [ih _ hall' y, exists_mem_set_iff ls _ hib [nid] y]
    constructor
    · intro h
      rcases h with (h | h) | h
      · exact Or.inl h
      · exact Or.inr ((List.mem_singleton.mp h) ▸ List.mem_cons_self nid tp')
      · exact Or.inr (List.mem_cons_of_mem nid h)
    · intro h
      rcases h with h | h
      · exact Or.inl (Or.inl h)
      · rcases List.mem_cons.mp h with h2 | h2
        · exact Or.inl (Or.inr (h2 ▸ List.mem_singleton_self nid))
        · exact Or.inr h2

lemma foldMax_ge (m : List (String × Int)) :
    ∀ (a0 : Int), a0 ≤ m.foldl (fun (a : Int) p => max a p.2) a0
    ∧ ∀ p ∈ m, p.2 ≤ m.foldl (fun (a : Int) p => max a p.2) a0 := by
  induction m with
  | nil =>
    intro a0
    exact ⟨le_refl _, fun p hp => absurd hp (List.not_mem_nil p)⟩
  | cons q m' ih =>
    intro a0
    rw [List.foldl_cons]
    obtain ⟨h1, h2⟩ := ih (max a0 q.2)
    refine ⟨le_trans (le_max_left _ _) h1, ?_⟩
    intro p hp
    rcases List.mem_cons.mp hp with h | h
    · rw [h]
      exact le_trans (le_max_right a0 q.2) h1
    · exact h2 p h

lemma aget_le_foldMax (m : List (String × Int)) (k : String) :
    aget m k 0 ≤ m.foldl (fun (a : Int) p => max a p.2) 0 := by
  cases halk : alookup m k with
  | none =>
    rw [aget, halk]
    exact (foldMax_ge m 0).1
  | some w =>
    rw [aget, halk]
    exact (foldMax_ge m 0).2 (k, w) (alookup_mem halk)

lemma assign_layers_mem (comp : List String)
    (ch pa : List (String × List String)) (hnd : comp.Nodup)
    (hsym : ∀ u v, (aget ch u []).count v = (aget pa v []).count u)
    (hclos : ∀ u v, v ∈ aget ch u [] → u ∈ comp ∧ v ∈ comp)
    (bl : List String) (hblsub : ∀ x ∈ comp, x ∈ bl)
    (hrank : ∀ b ∈ bl, ∀ v ∈ aget ch b [],
      v ∈ bl ∧ listIdx bl v < listIdx bl b) :
    ∀ x, (∃ l ∈ assign_layers comp ch pa, x ∈ l) ↔ x ∈ comp := by
  intro x
  show (∃ l ∈ (comp.foldl
      (fun (st : List (String × Int) × List String) nid2 =>
        if (alookup st.1 nid2).isNone then (aset st.1 nid2 0, st.2 ++ [nid2])
        else st)
      (kahnLoop ch
        (comp.length + (comp.map (fun nid =>
          (nid, ((aget pa nid []).length : Int)))).foldl
            (fun (a : Nat) p => a + p.2.toNat) 0 + 1)
        ((comp.filter (fun nid => aget (comp.map (fun nid2 =>
            (nid2, ((aget pa nid2 []).length : Int)))) nid 0 = 0)).map
          (fun nid => (nid, (0 : Int))))
        []
        (comp.map (fun nid => (nid, ((aget pa nid []).length : Int))))
        (comp.filter (fun nid => aget (comp.map (fun nid2 =>
            (nid2, ((aget pa nid2 []).length : Int)))) nid 0 = 0)))).2.foldl
      (fun ls2 nid =>
        ls2.set ((aget (comp.foldl
          (fun (st : List (String × Int) × List String) nid2 =>
            if (alookup st.1 nid2).isNone then
              (aset st.1 nid2 0, st.2 ++ [nid2])
            else st)
          (kahnLoop ch
            (comp.length + (comp.map (fun nid =>
              (nid, ((aget pa nid []).length : Int)))).foldl
                (fun (a : Nat) p => a + p.2.toNat) 0 + 1)
            ((comp.filter (fun nid => aget (comp.map (fun nid2 =>
                (nid2, ((aget pa nid2 []).length : Int)))) nid 0 = 0)).map
              (fun nid => (nid, (0 : Int))))
            []
            (comp.map (fun nid => (nid, ((aget pa nid []).length : Int))))
            (comp.filter (fun nid => aget (comp.map (fun nid2 =>
                (nid2, ((aget pa nid2 []).length : Int)))) nid 0
              = 0)))).1 nid 0).toNat)
          (ls2.getD ((aget (comp.foldl
            (fun (st : List (String × Int) × List String) nid2 =>
              if (alookup st.1 nid2).isNone then
                (aset st.1 nid2 0, st.2 ++ [nid2])
              else st)
            (kahnLoop ch
              (comp.length + (comp.map (fun nid =>
                (nid, ((aget pa nid []).length : Int)))).foldl
                  (fun (a : Nat) p => a + p.2.toNat) 0 + 1)
              ((comp.filter (fun nid => aget (comp.map (fun nid2 =>
                  (nid2, ((aget pa nid2 []).length : Int)))) nid 0
                = 0)).map (fun nid => (nid, (0 : Int))))
              []
              (comp.map (fun nid =>
                (nid, ((aget pa nid []).length : Int))))
              (comp.filter (fun nid => aget (comp.map (fun nid2 =>
                  (nid2, ((aget pa nid2 []).length : Int)))) nid 0
                = 0)))).1 nid 0).toNat) [] ++ [nid]))
      (List.replicate (((comp.foldl
        (fun (st : List (String × Int) × List String) nid2 =>
          if (alookup st.1 nid2).isNone then
            (aset st.1 nid2 0, st.2 ++ [nid2])
          else st)
        (kahnLoop ch
          (comp.length + (comp.map (fun nid =>
            (nid, ((aget pa nid []).length : Int)))).foldl
              (fun (a : Nat) p => a + p.2.toNat) 0 + 1)
          ((comp.filter (fun nid => aget (comp.map (fun nid2 =>
              (nid2, ((aget pa nid2 []).length : Int)))) nid 0 = 0)).map
            (fun nid => (nid, (0 : Int))))
          []
          (comp.map (fun nid => (nid, ((aget pa nid []).length : Int))))
          (comp.filter (fun nid => aget (comp.map (fun nid2 =>
              (nid2, ((aget pa nid2 []).length : Int)))) nid 0
            = 0)))).1.foldl
        (fun (a : Int) p => max a p.2) 0).toNat + 1) []), x ∈ l)
      ↔ x ∈ comp
  obtain ⟨⟨layerOf, topo⟩, hK⟩ : ∃ r, kahnLoop ch
      (comp.length + (comp.map (fun nid =>
        (nid, ((aget pa nid []).length : Int)))).foldl
          (fun (a : Nat) p => a + p.2.toNat) 0 + 1)
      ((comp.filter (fun nid => aget (comp.map (fun nid2 =>
          (nid2, ((aget pa nid2 []).length : Int)))) nid 0 = 0)).map
        (fun nid => (nid, (0 : Int))))
      []
      (comp.map (fun nid => (nid, ((aget pa nid []).length : Int))))
      (comp.filter (fun nid => aget (comp.map (fun nid2 =>
          (nid2, ((aget pa nid2 []).length : Int)))) nid 0 = 0))
      = r := ⟨_, rfl⟩
  obtain ⟨hcompl, hsound⟩ := kahnLoop_spec comp ch hnd bl hblsub hrank
    (comp.length + (comp.map (fun nid =>
      (nid, ((aget pa nid []).length : Int)))).foldl
        (fun (a : Nat) p => a + p.2.toNat) 0 + 1)
    ((comp.filter (fun nid => aget (comp.map (fun nid2 =>
        (nid2, ((aget pa nid2 []).length : Int)))) nid 0 = 0)).map
      (fun nid => (nid, (0 : Int))))
    []
    (comp.map (fun nid => (nid, ((aget pa nid []).length : Int))))
    (comp.filter (fun nid => aget (comp.map (fun nid2 =>
        (nid2, ((aget pa nid2 []).length : Int)))) nid 0 = 0))
    (KahnInv_init comp ch pa hnd hsym hclos)
    (by rw [List.length_nil]; omega)
  rw [hK] at hcompl hsound
  replace hcompl : ∀ v ∈ comp, v ∈ topo := hcompl
  replace hsound : ∀ v ∈ topo, v ∈ comp := hsound
  rw [hK]
  obtain ⟨⟨layerOf2, topo2⟩, hR⟩ : ∃ r, comp.foldl
      (fun (st : List (String × Int) × List String) nid2 =>
        if (alookup st.1 nid2).isNone then (aset st.1 nid2 0, st.2 ++ [nid2])
        else st) (layerOf, topo) = r := ⟨_, rfl⟩
  obtain ⟨r1, r2⟩ := repairFold_mem comp layerOf topo
  rw [hR] at r1 r2
  replace r1 : ∀ v ∈ topo, v ∈ topo2 := r1
  replace r2 : ∀ v ∈ topo2, v ∈ topo ∨ v ∈ comp := r2
  rw [hR]
  show (∃ l ∈ topo2.foldl (fun ls2 nid =>
      ls2.set ((aget layerOf2 nid 0).toNat)
        (ls2.getD ((aget layerOf2 nid 0).toNat) [] ++ [nid]))
      (List.replicate ((layerOf2.foldl (fun (a : Int) p => max a p.2)
        0).toNat + 1) []), x ∈ l) ↔ x ∈ comp
  have hall : ∀ nid ∈ topo2, (aget layerOf2 nid 0).toNat
      < (List.replicate ((layerOf2.foldl (fun (a : Int) p => max a p.2)
          0).toNat + 1) ([] : List String)).length := by
    intro nid _
    rw [List.length_replicate]
    have h1 := aget_le_foldMax layerOf2 nid
    have h2 := (foldMax_ge layerOf2 0).1
    omega
  rw [groupFold_mem layerOf2 topo2 _ hall x]
  have hbase : ¬ ∃ l ∈ List.replicate ((layerOf2.foldl
      (fun (a : Int) p => max a p.2) 0).toNat + 1) ([] : List String),
      x ∈ l := by
    rintro ⟨l, hl, hx⟩
    rw [List.eq_of_mem_replicate hl] at hx
    exact absurd hx (List.not_mem_nil x)
  constructor
  · intro h
    rcases h with h | h
    · exact absurd h hbase
    · rcases r2 x h with h2 | h2
      · exact hsound x h2
      · exact h2
  · intro h
    exact Or.inr (r1 x (hcompl x h))

/-! ### C2: crossing minimisation preserves layer membership -/

lemma mem_insertLe {α : Type} (le : α → α → Bool) (y : α) :
    ∀ (l : List α) (x : α), x ∈ insertLe le y l ↔ x = y ∨ x ∈ l := by
  intro l
  induction l with
  | nil =>
    intro x
    rw [insertLe]
    exact ⟨fun h => Or.inl (List.mem_singleton.mp h),
      fun h => by
        rcases h with h | h
        · exact h ▸ List.mem_singleton_self y
        · exact absurd h (List.not_mem_nil x)⟩
  | cons z zs ih =>
    intro x
    rw [insertLe]
    by_cases h : le z y = true
    · rw [if_pos h]
      constructor
      · intro hm
        rcases List.mem_cons.mp hm with h2 | h2
        · exact Or.inr (by rw [h2]; exact List.mem_cons_self z zs)
        · rcases (ih x).mp h2 with h3 | h3
          · exact Or.inl h3
          · exact Or.inr (List.mem_cons_of_mem z h3)
      · intro hm
        rcases hm with h2 | h2
        · exact List.mem_cons_of_mem z ((ih x).mpr (Or.inl h2))
        · rcases List.mem_cons.mp h2 with h3 | h3
          · exact (by rw [h3]; exact List.mem_cons_self z (insertLe le y zs))
          · exact List.mem_cons_of_mem z ((ih x).mpr (Or.inr h3))
    · rw [if_neg h]
      constructor
      · intro hm
        rcases List.mem_cons.mp hm with h2 | h2
        · exact Or.inl h2
        · exact Or.inr h2
      · intro hm
        rcases hm with h2 | h2
        · exact (by rw [h2]; exact List.mem_cons_self y (z :: zs))
        · exact List.mem_cons_of_mem y h2

lemma mem_sortStable {α : Type} (le : α → α → Bool) :
    ∀ (l acc : List α) (x : α),
    x ∈ l.foldl (fun acc2 y => insertLe le y acc2) acc
      ↔ x ∈ acc ∨ x ∈ l := by
  intro l
  induction l with
  | nil =>
    intro acc x
    rw [List.foldl_nil]
    exact ⟨fun h => Or.inl h, fun h => by
      rcases h with h | h
      · exact h
      · exact absurd h (List.not_mem_nil x)⟩
  | cons y ys ih =>
    intro acc x
    rw [List.foldl_cons]
    rw [ih (insertLe le y acc) x]
    constructor
    · intro h
      rcases h with h | h
      · rcases (mem_insertLe le y acc x).mp h with h2 | h2
        · exact Or.inr (by rw [h2]; exact List.mem_cons_self y ys)
        · exact Or.inl h2
      · exact Or.inr (List.mem_cons_of_mem y h)
    · intro h
      rcases h with h | h
      · exact Or.inl ((mem_insertLe le y acc x).mpr (Or.inr h))
      · rcases List.mem_cons.mp h with h2 | h2
        · exact Or.inl ((mem_insertLe le y acc x).mpr (Or.inl h2))
        · exact Or.inr h2

lemma mem_sortByKey (key : String → Rat) (l : List String) (x : String) :
    x ∈ sortByKey key l ↔ x ∈ l := by
  rw [sortByKey, sortStable, mem_sortStable]
  exact ⟨fun h => by
    rcases h with h | h
    · exact absurd h (List.not_mem_nil x)
    · exact h,
    fun h => Or.inr h⟩

lemma set_of_length_le (ls : List (List String)) :
    ∀ (i : Nat) (v : List String), ls.length ≤ i → ls.set i v = ls := by
  induction ls with
  | nil =>
    intro i v _
    rw [List.set_nil]
  | cons a l ih =>
    intro i v hi
    cases i with
    | zero =>
      rw [List.length_cons] at hi
      omega
    | succ j =>
      rw [List.set_cons_succ,
        ih j v (by rw [List.length_cons] at hi; omega)]

lemma exists_mem_set_sortByKey (ls : List (List String)) (i : Nat)
    (K : String → Rat) (y : String) :
    (∃ l ∈ ls.set i (sortByKey K (ls.getD i [])), y ∈ l)
      ↔ ∃ l ∈ ls, y ∈ l := by
  by_cases hi : i < ls.length
  · rw [mem_layers_iff, mem_layers_iff]
    constructor
    · rintro ⟨j, hj, hy⟩
      rw [List.length_set] at hj
      by_cases hji : i = j
      · subst hji
        rw [List.getElem_set_self] at hy
        rw [mem_sortByKey] at hy
        refine ⟨i, hj, ?_⟩
        rw [List.getD_eq_getElem ls [] hj] at hy
        exact hy
      · rw [List.getElem_set_ne hji] at hy
        exact ⟨j, hj, hy⟩
    · rintro ⟨j, hj, hy⟩
      by_cases hji : i = j
      · subst hji
        refine ⟨i, by rw [List.length_set]; exact hj, ?_⟩
        rw [List.getElem_set_self, mem_sortByKey,
          List.getD_eq_getElem ls [] hj]
        exact hy
      · refine ⟨j, by rw [List.length_set]; exact hj, ?_⟩
        rw [List.getElem_set_ne hji]
        exact hy
  · rw [set_of_length_le ls i _ (by omega)]

lemma baryPassStep_mem (adj : List (String × List String))
    (ls : List (List String)) (i adjIdx : Nat) (y : String) :
    (∃ l ∈ baryPassStep adj ls i adjIdx, y ∈ l) ↔ ∃ l ∈ ls, y ∈ l := by
  rw [baryPassStep]
  exact exists_mem_set_sortByKey ls i _ y

lemma baryFoldDown_mem (adj : List (String × List String)) :
    ∀ (idxs : List Nat) (ls : List (List String)) (y : String),
    (∃ l ∈ idxs.foldl (fun ls2 i => baryPassStep adj ls2 i (i - 1)) ls,
      y ∈ l) ↔ ∃ l ∈ ls, y ∈ l := by
  intro idxs
  induction idxs with
  | nil =>
    intro ls y
    rw [List.foldl_nil]
  | cons i is ih =>
    intro ls y
    rw [List.foldl_cons, ih, baryPassStep_mem]

lemma baryFoldUp_mem (adj : List (String × List String)) :
    ∀ (idxs : List Nat) (ls : List (List String)) (y : String),
    (∃ l ∈ idxs.foldl (fun ls2 i => baryPassStep adj ls2 i (i + 1)) ls,
      y ∈ l) ↔ ∃ l ∈ ls, y ∈ l := by
  intro idxs
  induction idxs with
  | nil =>
    intro ls y
    rw [List.foldl_nil]
  | cons i is ih =>
    intro ls y
    rw [List.foldl_cons, ih, baryPassStep_mem]

lemma minimise_crossings_mem (ch pa : List (String × List String))
    (ls : List (List String)) (y : String) :
    (∃ l ∈ minimise_crossings ch pa ls, y ∈ l) ↔ ∃ l ∈ ls, y ∈ l := by
  rw [minimise_crossings]
  by_cases h : ls.length ≤ 1
  · rw [if_pos h]
  · rw [if_neg h]
    exact (baryFoldDown_mem pa _ _ y).trans
      ((baryFoldUp_mem ch _ _ y).trans (baryFoldDown_mem pa _ _ y))

/-! ### C2: assign_coordinates produces exactly the layered nodes -/

lemma asetFoldKeys (F : String → Box) :
    ∀ (layer : List String) (bs : List (String × Box)) (x : String),
    (alookup (layer.foldl (fun bs2 nid => aset bs2 nid (F nid)) bs) x).isSome
      ↔ ((alookup bs x).isSome ∨ x ∈ layer) := by
  intro layer
  induction layer with
  | nil =>
    intro bs x
    rw [List.foldl_nil]
    exact ⟨fun h => Or.inl h, fun h => by
      rcases h with h | h
      · exact h
      · exact absurd h (List.not_mem_nil x)⟩
  | cons nid rest ih =>
    intro bs x
    rw [List.foldl_cons, ih]
    rw [alookup_aset_isSome]
    constructor
    · intro h
      rcases h with (h | h) | h
      · exact Or.inr (h ▸ List.mem_cons_self nid rest)
      · exact Or.inl h
      · exact Or.inr (List.mem_cons_of_mem nid h)
    · intro h
      rcases h with h | h
      · exact Or.inl (Or.inr h)
      · rcases List.mem_cons.mp h with h2 | h2
        · exact Or.inl (Or.inl h2.symm)
        · exact Or.inr h2

lemma keysFold_iff {α : Type}
    (f : List (String × Box) × α → Nat × List String →
      List (String × Box) × α)
    (hf : ∀ st p x, (alookup (f st p).1 x).isSome
      ↔ ((alookup st.1 x).isSome ∨ x ∈ p.2)) :
    ∀ (eps : List (Nat × List String)) (st : List (String × Box) × α)
      (x : String),
    (alookup ((eps.foldl f st).1) x).isSome
      ↔ ((alookup st.1 x).isSome ∨ ∃ p ∈ eps, x ∈ p.2) := by
  intro eps
  induction eps with
  | nil =>
    intro st x
    rw [List.foldl_nil]
    exact ⟨fun h => Or.inl h, fun h => by
      rcases h with h | h
      · exact h
      · obtain ⟨p, hp, _⟩ := h
        exact absurd hp (List.not_mem_nil p)⟩
  | cons q qs ih =>
    intro st x
    rw [List.foldl_cons, ih, hf]
    constructor
    · intro h
      rcases h with (h | h) | h
      · exact Or.inl h
      · exact Or.inr ⟨q, List.mem_cons_self q qs, h⟩
      · obtain ⟨p, hp, hx⟩ := h
        exact Or.inr ⟨p, List.mem_cons_of_mem q hp, hx⟩
    · intro h
      rcases h with h | h
      · exact Or.inl (Or.inl h)
      · obtain ⟨p, hp, hx⟩ := h
        rcases List.mem_cons.mp hp with h2 | h2
        · exact Or.inl (Or.inr (h2 ▸ hx))
        · exact Or.inr ⟨p, h2, hx⟩

lemma foldFst_mem_iff {α : Type}
    (f : List (List String) × α → Nat → List (List String) × α)
    (hf : ∀ st i y, (∃ l ∈ (f st i).1, y ∈ l) ↔ (∃ l ∈ st.1, y ∈ l)) :
    ∀ (idxs : List Nat) (st : List (List String) × α) (y : String),
    (∃ l ∈ (idxs.foldl f st).1, y ∈ l) ↔ ∃ l ∈ st.1, y ∈ l := by
  intro idxs
  induction idxs with
  | nil =>
    intro st y
    rw [List.foldl_nil]
  | cons i is ih =>
    intro st y
    rw [List.foldl_cons, ih, hf]

lemma exists_enum_iff (L : List (List String)) (x : String) :
    (∃ p ∈ L.enum, x ∈ p.2) ↔ ∃ l ∈ L, x ∈ l := by
  constructor
  · rintro ⟨p, hp, hx⟩
    exact ⟨p.2, (mem_enum_facts hp).2, hx⟩
  · rintro ⟨l, hl, hx⟩
    obtain ⟨j, hj, hje⟩ := List.mem_iff_getElem.mp hl
    refine ⟨(j, L[j]), ?_, ?_⟩
    · rw [List.mem_enum_iff_getElem?]
      exact List.getElem?_eq_some.mpr ⟨hj, rfl⟩
    · show x ∈ L[j]
      rw [hje]
      exact hx

lemma assign_coordinates_keys (layers0 : List (List String))
    (node_sizes : String → Int × Int) (ch pa : List (String × List String))
    (xs ys : Int) (x : String) :
    (alookup (assign_coordinates layers0 node_sizes ch pa xs ys) x).isSome
      ↔ ∃ l ∈ layers0, x ∈ l := by
  rw [assign_coordinates]
  refine Iff.trans (keysFold_iff _ ?_ _ _ x) ?_
  · intro st p z
    obtain ⟨boxes, y⟩ := st
    obtain ⟨li, layer⟩ := p
    exact asetFoldKeys _ layer boxes z
  · refine Iff.trans (or_iff_right (by simp [alookup])) ?_
    refine Iff.trans (exists_enum_iff _ x) ?_
    refine Iff.trans (foldFst_mem_iff _ ?_ _ _ x) ?_
    · intro st i y
      obtain ⟨ls, lx, lc⟩ := st
      exact exists_mem_set_sortByKey ls i _ y
    · exact Iff.rfl

/-! ### C2: component discovery covers and closes off every node -/

/-- Count of node ids not yet visited (the BFS fuel measure). -/
def uvCount (ids visited : List String) : Nat :=
  (ids.filter (fun x => ¬ x ∈ visited)).length

lemma uvCount_le (ids visited : List String) :
    uvCount ids visited ≤ ids.length := by
  rw [uvCount]
  exact List.length_filter_le _ ids

lemma uv_drop (ids : List String) :
    ∀ (d visited : List String),
    (∀ x ∈ d, x ∈ ids ∧ x ∉ visited) → d.Nodup →
    uvCount ids (visited ++ d) + d.length ≤ uvCount ids visited := by
  intro d
  induction d with
  | nil =>
    intro visited _ _
    rw [List.length_nil, List.append_nil]
    omega
  | cons y d' ih =>
    intro visited hd hdn
    have h1 := ih (visited ++ [y]) (fun x hx =>
      ⟨(hd x (List.mem_cons_of_mem y hx)).1, fun hm => by
        rcases List.mem_append.mp hm with h2 | h2
        · exact (hd x (List.mem_cons_of_mem y hx)).2 h2
        · exact (List.nodup_cons.mp hdn).1
            ((List.mem_singleton.mp h2) ▸ hx)⟩)
      (List.nodup_cons.mp hdn).2
    have h2 : uvCount ids (visited ++ [y]) + 1 ≤ uvCount ids visited := by
      rw [uvCount, uvCount]
      have hy := hd y (List.mem_cons_self y d')
      refine filter_length_lt ids _ _ ?_ y hy.1 ?_ ?_
      · intro x hx hq
        refine decide_eq_true (fun hm => (of_decide_eq_true hq)
          (List.mem_append.mpr (Or.inl hm)))
      · exact decide_eq_true hy.2
      · refine decide_eq_false ?_
        intro hm
        exact hm (List.mem_append.mpr (Or.inr (List.mem_singleton_self y)))
    rw [List.length_cons, List.append_cons]
    omega

lemma bfsNbFold_spec :
    ∀ (nbs visited queue : List String),
    ∃ d, nbs.foldl (fun (st2 : List String × List String) nb =>
        if nb ∈ st2.1 then st2 else (st2.1 ++ [nb], st2.2 ++ [nb]))
      (visited, queue) = (visited ++ d, queue ++ d)
    ∧ d.Nodup
    ∧ (∀ y ∈ d, y ∈ nbs ∧ y ∉ visited)
    ∧ (∀ y ∈ nbs, y ∈ visited ++ d) := by
  intro nbs
  induction nbs with
  | nil =>
    intro v q
    exact ⟨[], by rw [List.foldl_nil, List.append_nil, List.append_nil],
      List.nodup_nil, fun y hy => absurd hy (List.not_mem_nil y),
      fun y hy => absurd hy (List.not_mem_nil y)⟩
  | cons nb rest ih =>
    intro v q
    rw [List.foldl_cons]
    by_cases h : nb ∈ v
    · rw [if_pos h]
      obtain ⟨d, hd1, hd2, hd3, hd4⟩ := ih v q
      refine ⟨d, hd1, hd2, ?_, ?_⟩
      · intro y hy
        exact ⟨List.mem_cons_of_mem nb (hd3 y hy).1, (hd3 y hy).2⟩
      · intro y hy
        rcases List.mem_cons.mp hy with h2 | h2
        · rw [h2]
          exact List.mem_append.mpr (Or.inl h)
        · exact hd4 y h2
    · rw [if_neg h]
      obtain ⟨d, hd1, hd2, hd3, hd4⟩ := ih (v ++ [nb]) (q ++ [nb])
      refine ⟨nb :: d, ?_, ?_, ?_, ?_⟩
      · rw [hd1, List.append_cons v nb d, List.append_cons q nb d]
      · refine List.nodup_cons.mpr ⟨?_, hd2⟩
        intro hnb
        exact (hd3 nb hnb).2
          (List.mem_append.mpr (Or.inr (List.mem_singleton_self nb)))
      · intro y hy
        rcases List.mem_cons.mp hy with h2 | h2
        · exact ⟨h2 ▸ List.mem_cons_self nb rest, h2 ▸ h⟩
        · refine ⟨List.mem_cons_of_mem nb (hd3 y h2).1, ?_⟩
          intro hm
          exact (hd3 y h2).2 (List.mem_append.mpr (Or.inl hm))
      · intro y hy
        rcases List.mem_cons.mp hy with h2 | h2
        · rw [List.append_cons v nb d]
          refine List.mem_append.mpr (Or.inl ?_)
          exact List.mem_append.mpr (Or.inr (h2 ▸ List.mem_singleton_self nb))
        · have h3 := hd4 y h2
          rw [List.append_cons v nb d]
          exact h3

lemma bfsLoop_spec (ids : List String) (ch pa : List (String × List String))
    (hrange : ∀ u ∈ ids, ∀ v, v ∈ aget ch u [] ++ aget pa u [] → v ∈ ids)
    (V0 : List String) :
    ∀ (fuel : Nat) (visited queue comp : List String),
    (∀ x ∈ queue, x ∈ visited) →
    (∀ x ∈ comp, x ∈ visited) →
    (comp ++ queue).Nodup →
    visited.Nodup →
    (∀ x, x ∈ visited ↔ (x ∈ V0 ∨ x ∈ comp ∨ x ∈ queue)) →
    (∀ x ∈ comp, x ∈ ids) → (∀ x ∈ queue, x ∈ ids) →
    (∀ x ∈ comp, x ∉ V0) → (∀ x ∈ queue, x ∉ V0) →
    (∀ u, u ∈ visited → u ∉ queue →
      ∀ v, v ∈ aget ch u [] ++ aget pa u [] → v ∈ visited) →
    queue.length + uvCount ids visited < fuel →
    (∀ x, x ∈ (bfsLoop ch pa fuel visited queue comp).1
      ↔ (x ∈ V0 ∨ x ∈ (bfsLoop ch pa fuel visited queue comp).2))
    ∧ (∀ x ∈ (bfsLoop ch pa fuel visited queue comp).2, x ∈ ids)
    ∧ (∀ x ∈ (bfsLoop ch pa fuel visited queue comp).2, x ∉ V0)
    ∧ (bfsLoop ch pa fuel visited queue comp).2.Nodup
    ∧ (∀ u ∈ (bfsLoop ch pa fuel visited queue comp).1,
        ∀ v, v ∈ aget ch u [] ++ aget pa u [] →
          v ∈ (bfsLoop ch pa fuel visited queue comp).1)
    ∧ (∀ x ∈ comp, x ∈ (bfsLoop ch pa fuel visited queue comp).2)
    ∧ (bfsLoop ch pa fuel visited queue comp).1.Nodup
    ∧ (∀ x ∈ visited, x ∈ (bfsLoop ch pa fuel visited queue comp).1) := by
  intro fuel
  induction fuel with
  | zero =>
    intro visited queue comp _ _ _ _ _ _ _ _ _ _ hm
    omega
  | succ f ihf =>
    intro visited queue comp b1 b2 b3 b4 b5 bi1 bi2 bv1 bv2 b7 hm
    cases queue with
    | nil =>
      rw [bfsLoop]
      have hcnd : comp.Nodup := by
        have h := b3
        rw [List.append_nil] at h
        exact h
      refine ⟨?_, bi1, bv1, hcnd, ?_, fun x hx => hx, b4, fun x hx => hx⟩
      · intro x
        constructor
        · intro hx
          rcases (b5 x).mp hx with h | h | h
          · exact Or.inl h
          · exact Or.inr h
          · exact absurd h (List.not_mem_nil x)
        · intro hx
          rcases hx with h | h
          · exact (b5 x).mpr (Or.inl h)
          · exact (b5 x).mpr (Or.inr (Or.inl h))
      · intro u hu v hv
        exact b7 u hu (List.not_mem_nil u) v hv
    | cons cur rest =>
      obtain ⟨d, hd1, hd2, hd3, hd4⟩ := bfsNbFold_spec
        (aget ch cur [] ++ aget pa cur []) visited rest
      have heq : bfsNeighbors (visited, rest)
          (aget ch cur [] ++ aget pa cur []) = (visited ++ d, rest ++ d) :=
        hd1
      rw [bfsLoop, heq]
      have hcur_v : cur ∈ visited := b1 cur (List.mem_cons_self cur rest)
      have hcur_ids : cur ∈ ids := bi2 cur (List.mem_cons_self cur rest)
      have hdids : ∀ y ∈ d, y ∈ ids :=
        fun y hy => hrange cur hcur_ids y (hd3 y hy).1
      have hV0v : ∀ x ∈ V0, x ∈ visited :=
        fun x hx => (b5 x).mpr (Or.inl hx)
      have nb1 : ∀ x ∈ rest ++ d, x ∈ visited ++ d := by
        intro x hx
        rcases List.mem_append.mp hx with h | h
        · exact List.mem_append.mpr
            (Or.inl (b1 x (List.mem_cons_of_mem cur h)))
        · exact List.mem_append.mpr (Or.inr h)
      have nb2 : ∀ x ∈ comp ++ [cur], x ∈ visited ++ d := by
        intro x hx
        rcases List.mem_append.mp hx with h | h
        · exact List.mem_append.mpr (Or.inl (b2 x h))
        · exact List.mem_append.mpr
            (Or.inl ((List.mem_singleton.mp h) ▸ hcur_v))
      have nb3 : ((comp ++ [cur]) ++ (rest ++ d)).Nodup := by
        have hc1 : ((comp ++ [cur]) ++ rest).Nodup := by
          rw [← List.append_cons]
          exact b3
        rw [← List.append_assoc]
        refine List.nodup_append.mpr ⟨hc1, hd2, ?_⟩
        intro a ha had
        have hav : a ∈ visited := by
          rcases List.mem_append.mp ha with h | h
          · rcases List.mem_append.mp h with h2 | h2
            · exact b2 a h2
            · exact (List.mem_singleton.mp h2) ▸ hcur_v
          · exact b1 a (List.mem_cons_of_mem cur h)
        exact (hd3 a had).2 hav
      have nb4 : (visited ++ d).Nodup :=
        List.nodup_append.mpr ⟨b4, hd2, fun a ha had => (hd3 a had).2 ha⟩
      have nb5 : ∀ x, x ∈ visited ++ d
          ↔ (x ∈ V0 ∨ x ∈ comp ++ [cur] ∨ x ∈ rest ++ d) := by
        intro x
        constructor
        · intro hx
          rcases List.mem_append.mp hx with h | h
          · rcases (b5 x).mp h with h2 | h2 | h2
            · exact Or.inl h2
            · exact Or.inr (Or.inl (List.mem_append.mpr (Or.inl h2)))
            · rcases List.mem_cons.mp h2 with h3 | h3
              · exact Or.inr (Or.inl (List.mem_append.mpr
                  (Or.inr (h3 ▸ List.mem_singleton_self cur))))
              · exact Or.inr (Or.inr (List.mem_append.mpr (Or.inl h3)))
          · exact Or.inr (Or.inr (List.mem_append.mpr (Or.inr h)))
        · intro hx
          rcases hx with h | h | h
          · exact List.mem_append.mpr (Or.inl (hV0v x h))
          · exact nb2 x h
          · exact nb1 x h
      have nbi1 : ∀ x ∈ comp ++ [cur], x ∈ ids := by
        intro x hx
        rcases List.mem_append.mp hx with h | h
        · exact bi1 x h
        · exact (List.mem_singleton.mp h) ▸ hcur_ids
      have nbi2 : ∀ x ∈ rest ++ d, x ∈ ids := by
        intro x hx
        rcases List.mem_append.mp hx with h | h
        · exact bi2 x (List.mem_cons_of_mem cur h)
        · exact hdids x h
      have nbv1 : ∀ x ∈ comp ++ [cur], x ∉ V0 := by
        intro x hx
        rcases List.mem_append.mp hx with h | h
        · exact bv1 x h
        · exact (List.mem_singleton.mp h) ▸
            bv2 cur (List.mem_cons_self cur rest)
      have nbv2 : ∀ x ∈ rest ++ d, x ∉ V0 := by
        intro x hx
        rcases List.mem_append.mp hx with h | h
        · exact bv2 x (List.mem_cons_of_mem cur h)
        · exact fun hm => (hd3 x h).2 (hV0v x hm)
      have nb7 : ∀ u, u ∈ visited ++ d → u ∉ rest ++ d →
          ∀ v, v ∈ aget ch u [] ++ aget pa u [] → v ∈ visited ++ d := by
        intro u hu huq v hv
        rcases List.mem_append.mp hu with h | h
        · by_cases hc : u = cur
          · subst hc
            exact hd4 v hv
          · have hur : u ∉ cur :: rest := by
              intro hm
              rcases List.mem_cons.mp hm with h2 | h2
              · exact hc h2
              · exact huq (List.mem_append.mpr (Or.inl h2))
            exact List.mem_append.mpr (Or.inl (b7 u h hur v hv))
        · exact absurd (List.mem_append.mpr (Or.inr h)) huq
      have nmeasure : (rest ++ d).length + uvCount ids (visited ++ d)
          < f := by
        have huv := uv_drop ids d visited
          (fun x hx => ⟨hdids x hx, (hd3 x hx).2⟩) hd2
        rw [List.length_append]
        rw [List.length_cons] at hm
        omega
      obtain ⟨c1, c2, c3, c4, c5, c6, c7, c8⟩ := ihf (visited ++ d)
        (rest ++ d) (comp ++ [cur]) nb1 nb2 nb3 nb4 nb5 nbi1 nbi2
        nbv1 nbv2 nb7 nmeasure
      refine ⟨c1, c2, c3, c4, c5, ?_, c7, ?_⟩
      · intro x hx
        exact c6 x (List.mem_append.mpr (Or.inl hx))
      · intro x hx
        exact c8 x (List.mem_append.mpr (Or.inl hx))

/-- One step of the component-discovery fold, written with projections
(definitionally the step of findComponents). -/
def findStep (ids : List String) (ch pa : List (String × List String))
    (st : List String × List (List String)) (nid : String) :
    List String × List (List String) :=
  if nid ∈ st.1 then st
  else ((bfsLoop ch pa (bfsFuel ids ch pa) (st.1 ++ [nid]) [nid] []).1,
    st.2 ++ [(bfsLoop ch pa (bfsFuel ids ch pa) (st.1 ++ [nid]) [nid] []).2])

lemma findFold_spec (ids : List String) (ch pa : List (String × List String))
    (hrange : ∀ u ∈ ids, ∀ v, v ∈ aget ch u [] ++ aget pa u [] → v ∈ ids)
    (hsymm : ∀ u v, v ∈ aget ch u [] ++ aget pa u [] →
      u ∈ aget ch v [] ++ aget pa v []) :
    ∀ (l : List String) (visited : List String)
      (comps : List (List String)),
    (∀ x ∈ l, x ∈ ids) →
    (∀ x, x ∈ visited ↔ ∃ c ∈ comps, x ∈ c) →
    visited.Nodup →
    (∀ u ∈ visited, ∀ v, v ∈ aget ch u [] ++ aget pa u [] → v ∈ visited) →
    (∀ c ∈ comps, (∀ x ∈ c, x ∈ ids) ∧ c.Nodup
      ∧ (∀ u ∈ c, ∀ v, v ∈ aget ch u [] ++ aget pa u [] → v ∈ c)) →
    (∀ x ∈ l, ∃ c ∈ (l.foldl (findStep ids ch pa) (visited, comps)).2,
      x ∈ c)
    ∧ (∀ c ∈ comps, c ∈ (l.foldl (findStep ids ch pa) (visited, comps)).2)
    ∧ (∀ c ∈ (l.foldl (findStep ids ch pa) (visited, comps)).2,
        (∀ x ∈ c, x ∈ ids) ∧ c.Nodup
        ∧ (∀ u ∈ c, ∀ v, v ∈ aget ch u [] ++ aget pa u [] → v ∈ c)) := by
  intro l
  induction l with
  | nil =>
    intro visited comps _ _ _ _ ho4
    rw [List.foldl_nil]
    exact ⟨fun x hx => absurd hx (List.not_mem_nil x),
      fun c hc => hc, ho4⟩
  | cons nid l' ih =>
    intro visited comps hl ho1 ho2 ho3 ho4
    rw [List.foldl_cons, findStep]
    have hl' : ∀ x ∈ l', x ∈ ids :=
      fun x hx => hl x (List.mem_cons_of_mem nid hx)
    by_cases h : nid ∈ visited
    · rw [if_pos h]
      obtain ⟨i1, i2, i3⟩ := ih visited comps hl' ho1 ho2 ho3 ho4
      refine ⟨?_, i2, i3⟩
      intro x hx
      rcases List.mem_cons.mp hx with h2 | h2
      · obtain ⟨c, hc, hxc⟩ := (ho1 x).mp (h2 ▸ h)
        exact ⟨c, i2 c hc, hxc⟩
      · exact i1 x h2
    · rw [if_neg h]
      have hnid_ids : nid ∈ ids := hl nid (List.mem_cons_self nid l')
      have hmeas : ([nid] : List String).length
          + uvCount ids (visited ++ [nid]) < bfsFuel ids ch pa := by
        have huv := uvCount_le ids (visited ++ [nid])
        rw [List.length_singleton, bfsFuel]
        omega
      obtain ⟨c1, c2, c3, c4, c5, c6, c7, c8⟩ := bfsLoop_spec ids ch pa
        hrange visited (bfsFuel ids ch pa) (visited ++ [nid]) [nid] []
        (fun x hx => List.mem_append.mpr (Or.inr hx))
        (fun x hx => absurd hx (List.not_mem_nil x))
        (by
          rw [List.nil_append]
          exact List.nodup_singleton nid)
        (List.nodup_append.mpr ⟨ho2, List.nodup_singleton nid,
          fun a ha ha2 => h ((List.mem_singleton.mp ha2) ▸ ha)⟩)
        (by
          intro x
          constructor
          · intro hx
            rcases List.mem_append.mp hx with h2 | h2
            · exact Or.inl h2
            · exact Or.inr (Or.inr h2)
          · intro hx
            rcases hx with h2 | h2 | h2
            · exact List.mem_append.mpr (Or.inl h2)
            · exact absurd h2 (List.not_mem_nil x)
            · exact List.mem_append.mpr (Or.inr h2))
        (fun x hx => absurd hx (List.not_mem_nil x))
        (fun x hx => (List.mem_singleton.mp hx) ▸ hnid_ids)
        (fun x hx => absurd hx (List.not_mem_nil x))
        (fun x hx hm => h ((List.mem_singleton.mp hx) ▸ hm))
        (by
          intro u hu huq v hv
          rcases List.mem_append.mp hu with h2 | h2
          · exact List.mem_append.mpr (Or.inl (ho3 u h2 v hv))
          · exact absurd h2 huq)
        hmeas
      have hnid_comp : nid ∈ (bfsLoop ch pa (bfsFuel ids ch pa)
          (visited ++ [nid]) [nid] []).2 := by
        have hm : nid ∈ (bfsLoop ch pa (bfsFuel ids ch pa)
            (visited ++ [nid]) [nid] []).1 :=
          c8 nid (List.mem_append.mpr (Or.inr (List.mem_singleton_self nid)))
        rcases (c1 nid).mp hm with h2 | h2
        · exact absurd h2 h
        · exact h2
      have no1 : ∀ x, x ∈ (bfsLoop ch pa (bfsFuel ids ch pa)
          (visited ++ [nid]) [nid] []).1
          ↔ ∃ c ∈ comps ++ [(bfsLoop ch pa (bfsFuel ids ch pa)
              (visited ++ [nid]) [nid] []).2], x ∈ c := by
        intro x
        constructor
        · intro hx
          rcases (c1 x).mp hx with h2 | h2
          · obtain ⟨c, hc, hxc⟩ := (ho1 x).mp h2
            exact ⟨c, List.mem_append.mpr (Or.inl hc), hxc⟩
          · exact ⟨_, List.mem_append.mpr
              (Or.inr (List.mem_singleton_self _)), h2⟩
        · rintro ⟨c, hc, hxc⟩
          rcases List.mem_append.mp hc with h2 | h2
          · exact c8 x (List.mem_append.mpr
              (Or.inl ((ho1 x).mpr ⟨c, h2, hxc⟩)))
          · rw [List.mem_singleton.mp h2] at hxc
            exact (c1 x).mpr (Or.inr hxc)
      have no4 : ∀ c ∈ comps ++ [(bfsLoop ch pa (bfsFuel ids ch pa)
          (visited ++ [nid]) [nid] []).2],
          (∀ x ∈ c, x ∈ ids) ∧ c.Nodup
          ∧ (∀ u ∈ c, ∀ v, v ∈ aget ch u [] ++ aget pa u [] → v ∈ c) := by
        intro c hc
        rcases List.mem_append.mp hc with h2 | h2
        · exact ho4 c h2
        · rw [List.mem_singleton.mp h2]
          refine ⟨c2, c4, ?_⟩
          intro u hu v hv
          have huv2 : v ∈ (bfsLoop ch pa (bfsFuel ids ch pa)
              (visited ++ [nid]) [nid] []).1 :=
            c5 u ((c1 u).mpr (Or.inr hu)) v hv
          rcases (c1 v).mp huv2 with h3 | h3
          · have hu_vis : u ∈ visited := ho3 v h3 u (hsymm u v hv)
            exact absurd hu_vis (c3 u hu)
          · exact h3
      obtain ⟨i1, i2, i3⟩ := ih _ _ hl' no1 c7 c5 no4
      refine ⟨?_, ?_, i3⟩
      · intro x hx
        rcases List.mem_cons.mp hx with h2 | h2
        · refine ⟨(bfsLoop ch pa (bfsFuel ids ch pa)
            (visited ++ [nid]) [nid] []).2, ?_, h2 ▸ hnid_comp⟩
          exact i2 _ (List.mem_append.mpr
            (Or.inr (List.mem_singleton_self _)))
        · exact i1 x h2
      · intro c hc
        exact i2 c (List.mem_append.mpr (Or.inl hc))

lemma findComponents_spec (ids : List String)
    (ch pa : List (String × List String))
    (hrange : ∀ u ∈ ids, ∀ v, v ∈ aget ch u [] ++ aget pa u [] → v ∈ ids)
    (hsymm : ∀ u v, v ∈ aget ch u [] ++ aget pa u [] →
      u ∈ aget ch v [] ++ aget pa v []) :
    (∀ x ∈ ids, ∃ c ∈ findComponents ids ch pa, x ∈ c)
    ∧ (∀ c ∈ findComponents ids ch pa, (∀ x ∈ c, x ∈ ids) ∧ c.Nodup
        ∧ (∀ u ∈ c, ∀ v, v ∈ aget ch u [] ++ aget pa u [] → v ∈ c)) := by
  obtain ⟨h1, h2, h3⟩ := findFold_spec ids ch pa hrange hsymm ids [] []
    (fun x hx => hx)
    (fun x => ⟨fun hx => absurd hx (List.not_mem_nil x),
      fun hx => by
        obtain ⟨c, hc, _⟩ := hx
        exact absurd hc (List.not_mem_nil c)⟩)
    List.nodup_nil
    (fun u hu => absurd hu (List.not_mem_nil u))
    (fun c hc => absurd hc (List.not_mem_nil c))
  exact ⟨h1, h3⟩

/-! ### C2: key set of the per-component pipeline -/

lemma aget_comp_map (comp : List String) (m : List (String × List String))
    (u : String) :
    aget (comp.map (fun nid => (nid, aget m nid []))) u []
      = if u ∈ comp then aget m u [] else [] := by
  rw [aget, alookup_map_self]
  by_cases h : u ∈ comp
  · rw [if_pos h, if_pos h]
    rfl
  · rw [if_neg h, if_neg h]
    rfl

lemma alookup_isSome_iff_exists {α : Type} (m : List (String × α))
    (x : String) :
    (alookup m x).isSome ↔ ∃ p ∈ m, p.1 = x := by
  induction m with
  | nil =>
    rw [alookup]
    constructor
    · intro h
      exact absurd h (by simp)
    · rintro ⟨p, hp, _⟩
      exact absurd hp (List.not_mem_nil p)
  | cons q rest ih =>
    obtain ⟨k, v⟩ := q
    rw [alookup]
    by_cases h : k = x
    · rw [if_pos h]
      exact ⟨fun _ => ⟨(k, v), List.mem_cons_self _ _, h⟩,
        fun _ => rfl⟩
    · rw [if_neg h, ih]
      constructor
      · rintro ⟨p, hp, hpe⟩
        exact ⟨p, List.mem_cons_of_mem _ hp, hpe⟩
      · rintro ⟨p, hp, hpe⟩
        rcases List.mem_cons.mp hp with h2 | h2
        · exact absurd (by rw [h2] at hpe; exact hpe) h
        · exact ⟨p, h2, hpe⟩

lemma asetMergeKeys :
    ∀ (l : List (String × Box)) (m : List (String × Box)) (x : String),
    (alookup (l.foldl (fun m2 p => aset m2 p.1 p.2) m) x).isSome
      ↔ ((alookup m x).isSome ∨ ∃ p ∈ l, p.1 = x) := by
  intro l
  induction l with
  | nil =>
    intro m x
    rw [List.foldl_nil]
    exact ⟨fun h => Or.inl h, fun h => by
      rcases h with h | h
      · exact h
      · obtain ⟨p, hp, _⟩ := h
        exact absurd hp (List.not_mem_nil p)⟩
  | cons q rest ih =>
    intro m x
    rw [List.foldl_cons, ih, alookup_aset_isSome]
    constructor
    · intro h
      rcases h with (h | h) | h
      · exact Or.inr ⟨q, List.mem_cons_self q rest, h⟩
      · exact Or.inl h
      · obtain ⟨p, hp, hpe⟩ := h
        exact Or.inr ⟨p, List.mem_cons_of_mem q hp, hpe⟩
    · intro h
      rcases h with h | h
      · exact Or.inl (Or.inr h)
      · obtain ⟨p, hp, hpe⟩ := h
        rcases List.mem_cons.mp hp with h2 | h2
        · exact Or.inl (Or.inl (by rw [← h2]; exact hpe))
        · exact Or.inr ⟨p, h2, hpe⟩

lemma alookup_map_box_isSome (m : List (String × Box))
    (F G : String × Box → Int) (x : String) :
    (alookup (m.map (fun p =>
        (p.1, Box.mk (F p) (G p) p.2.w p.2.h))) x).isSome
      ↔ (alookup m x).isSome := by
  induction m with
  | nil =>
    rw [List.map_nil]
  | cons q rest ih =>
    rw [List.map_cons, alookup, alookup]
    by_cases h : q.1 = x
    · rw [if_pos h, if_pos h]
      simp only [Option.isSome_some]
    · rw [if_neg h, if_neg h, ih]

/-- One step of the per-component fold of layoutGeneral, written with
projections (definitionally the step of layoutGeneral). -/
def compStep (children parents : List (String × List String))
    (node_sizes : String → Int × Int)
    (st : List (String × Box) × Int) (comp_ids : List String) :
    List (String × Box) × Int :=
  let compChildren := comp_ids.map (fun nid => (nid, aget children nid []))
  let compParents := comp_ids.map (fun nid => (nid, aget parents nid []))
  let stD := break_cycles comp_ids compChildren compParents
  let layers := assign_layers comp_ids stD.children stD.parents
  let layers2 := minimise_crossings stD.children stD.parents layers
  let boxes := assign_coordinates layers2 node_sizes stD.children
    stD.parents 4 2
  let boxes2 :=
    if st.2 > 0 then
      let minX := listMin (boxes.map (fun p => p.2.x))
      let shift := st.2 - minX + 4
      boxes.map (fun p => (p.1, Box.mk (p.2.x + shift) p.2.y p.2.w p.2.h))
    else boxes
  let maxX := listMax (boxes2.map (fun p => p.2.x + p.2.w))
  (boxes2.foldl (fun m p => aset m p.1 p.2) st.1, maxX)

lemma compStep_keys (children parents : List (String × List String))
    (node_sizes : String → Int × Int)
    (hnoSelf : ∀ u, u ∉ aget children u [])
    (hsymG : ∀ u v, (aget children u []).count v
      = (aget parents v []).count u)
    (st : List (String × Box) × Int) (c : List String) (x : String)
    (hnd : c.Nodup)
    (hcl : ∀ u ∈ c, ∀ v,
      v ∈ aget children u [] ++ aget parents u [] → v ∈ c) :
    (alookup (compStep children parents node_sizes st c).1 x).isSome
      ↔ ((alookup st.1 x).isSome ∨ x ∈ c) := by
  have hNS : ∀ u, u ∉ aget (c.map (fun nid =>
      (nid, aget children nid []))) u [] := by
    intro u
    rw [aget_comp_map]
    by_cases h : u ∈ c
    · rw [if_pos h]
      exact hnoSelf u
    · rw [if_neg h]
      exact List.not_mem_nil u
  have hCL : ∀ u v, v ∈ aget (c.map (fun nid =>
      (nid, aget children nid []))) u [] → u ∈ c ∧ v ∈ c := by
    intro u v hv
    rw [aget_comp_map] at hv
    by_cases h : u ∈ c
    · rw [if_pos h] at hv
      exact ⟨h, hcl u h v (List.mem_append.mpr (Or.inl hv))⟩
    · rw [if_neg h] at hv
      exact absurd hv (List.not_mem_nil v)
  have hSY : ∀ u v, (aget (c.map (fun nid =>
      (nid, aget children nid []))) u []).count v
      = (aget (c.map (fun nid => (nid, aget parents nid []))) v []).count u := by
    intro u v
    rw [aget_comp_map, aget_comp_map]
    by_cases hu : u ∈ c
    · rw [if_pos hu]
      by_cases hv : v ∈ c
      · rw [if_pos hv]
        exact hsymG u v
      · rw [if_neg hv]
        rw [List.count_nil]
        refine List.count_eq_zero.mpr ?_
        intro hm
        exact hv (hcl u hu v (List.mem_append.mpr (Or.inl hm)))
    · rw [if_neg hu]
      rw [List.count_nil]
      by_cases hv : v ∈ c
      · rw [if_pos hv]
        refine (List.count_eq_zero.mpr ?_).symm
        intro hm
        have hum : u ∈ aget children v [] ++ aget parents v [] :=
          List.mem_append.mpr (Or.inr hm)
        exact hu (hcl v hv u hum)
      · rw [if_neg hv, List.count_nil]
  obtain ⟨bl, hDInv, hblsub⟩ := break_cycles_spec c
    (c.map (fun nid => (nid, aget children nid [])))
    (c.map (fun nid => (nid, aget parents nid []))) hNS hCL hSY
  have hlay := assign_layers_mem c
    (break_cycles c (c.map (fun nid => (nid, aget children nid [])))
      (c.map (fun nid => (nid, aget parents nid [])))).children
    (break_cycles c (c.map (fun nid => (nid, aget children nid [])))
      (c.map (fun nid => (nid, aget parents nid [])))).parents
    hnd hDInv.sym hDInv.closure bl hblsub hDInv.rank
  rw [compStep]
  rw [asetMergeKeys]
  refine or_congr Iff.rfl ?_
  rw [← alookup_isSome_iff_exists]
  by_cases hoff : st.2 > 0
  · rw [if_pos hoff, alookup_map_box_isSome, assign_coordinates_keys,
      minimise_crossings_mem, hlay]
  · rw [if_neg hoff, assign_coordinates_keys,
      minimise_crossings_mem, hlay]

lemma layoutCompFold_keys (children parents : List (String × List String))
    (node_sizes : String → Int × Int)
    (hnoSelf : ∀ u, u ∉ aget children u [])
    (hsymG : ∀ u v, (aget children u []).count v
      = (aget parents v []).count u) :
    ∀ (cs : List (List String)) (st : List (String × Box) × Int)
      (x : String),
    (∀ c ∈ cs, c.Nodup ∧ (∀ u ∈ c, ∀ v,
      v ∈ aget children u [] ++ aget parents u [] → v ∈ c)) →
    ((alookup (cs.foldl (compStep children parents node_sizes) st).1
        x).isSome
      ↔ ((alookup st.1 x).isSome ∨ ∃ c ∈ cs, x ∈ c)) := by
  intro cs
  induction cs with
  | nil =>
    intro st x _
    rw [List.foldl_nil]
    exact ⟨fun h => Or.inl h, fun h => by
      rcases h with h | h
      · exact h
      · obtain ⟨c, hc, _⟩ := h
        exact absurd hc (List.not_mem_nil c)⟩
  | cons c cs' ih =>
    intro st x hcs
    rw [List.foldl_cons,
      ih _ x (fun c2 hc2 => hcs c2 (List.mem_cons_of_mem c hc2)),
      compStep_keys children parents node_sizes hnoSelf hsymG st c x
        (hcs c (List.mem_cons_self c cs')).1
        (hcs c (List.mem_cons_self c cs')).2]
    constructor
    · intro h
      rcases h with (h | h) | h
      · exact Or.inl h
      · exact Or.inr ⟨c, List.mem_cons_self c cs', h⟩
      · obtain ⟨c2, hc2, hx⟩ := h
        exact Or.inr ⟨c2, List.mem_cons_of_mem c hc2, hx⟩
    · intro h
      rcases h with h | h
      · exact Or.inl (Or.inl h)
      · obtain ⟨c2, hc2, hx⟩ := h
        rcases List.mem_cons.mp hc2 with h2 | h2
        · exact Or.inl (Or.inr (by rw [← h2]; exact hx))
        · exact Or.inr ⟨c2, h2, hx⟩

lemma layoutGeneral_keys (nodes : List AsciiNode) (edges : List AsciiEdge)
    (node_sizes : String → Int × Int) (padding : Int) (x : String) :
    (alookup (layoutGeneral nodes edges node_sizes padding) x).isSome
      ↔ x ∈ nodes.map (fun n => n.id) := by
  obtain ⟨⟨children, parents⟩, hA⟩ :
      ∃ r, layoutAdj (nodes.map (fun n => n.id)) edges = r := ⟨_, rfl⟩
  have hInv := layoutAdj_spec (nodes.map (fun n => n.id)) edges
  rw [hA] at hInv
  obtain ⟨a1, a2, a3, a4, a5, a6⟩ := hInv
  replace a3 : ∀ u v, (aget children u []).count v
      = (aget parents v []).count u := a3
  replace a4 : ∀ u v, v ∈ aget children u [] →
      u ∈ nodes.map (fun n => n.id) ∧ v ∈ nodes.map (fun n => n.id) := a4
  replace a5 : ∀ u v, v ∈ aget parents u [] →
      u ∈ nodes.map (fun n => n.id) ∧ v ∈ nodes.map (fun n => n.id) := a5
  replace a6 : ∀ u, u ∉ aget children u [] ∧ u ∉ aget parents u [] := a6
  have hrange : ∀ u ∈ nodes.map (fun n => n.id), ∀ v,
      v ∈ aget children u [] ++ aget parents u [] →
      v ∈ nodes.map (fun n => n.id) := by
    intro u _ v hv
    rcases List.mem_append.mp hv with h | h
    · exact (a4 u v h).2
    · exact (a5 u v h).2
  have hsymm : ∀ u v, v ∈ aget children u [] ++ aget parents u [] →
      u ∈ aget children v [] ++ aget parents v [] := by
    intro u v hv
    rcases List.mem_append.mp hv with h | h
    · refine List.mem_append.mpr (Or.inr ?_)
      have hc : (aget children u []).count v ≠ 0 :=
        fun hz => (List.count_eq_zero.mp hz) h
      rw [a3 u v] at hc
      by_contra hm
      exact hc (List.count_eq_zero.mpr hm)
    · refine List.mem_append.mpr (Or.inl ?_)
      have hc : (aget parents u []).count v ≠ 0 :=
        fun hz => (List.count_eq_zero.mp hz) h
      rw [← a3 v u] at hc
      by_contra hm
      exact hc (List.count_eq_zero.mpr hm)
  obtain ⟨f1, f2⟩ := findComponents_spec (nodes.map (fun n => n.id))
    children parents hrange hsymm
  obtain ⟨AB, hAB⟩ : ∃ r,
      ((findComponents (nodes.map (fun n => n.id)) children
        parents).foldl (compStep children parents node_sizes)
        (([] : List (String × Box)), (0 : Int))).1 = r := ⟨_, rfl⟩
  have hLG : layoutGeneral nodes edges node_sizes padding
      = AB.map (fun p => (p.1, Box.mk
          (p.2.x + (padding - listMin (AB.map (fun q => q.2.x))))
          (p.2.y + (padding - listMin (AB.map (fun q => q.2.y))))
          p.2.w p.2.h)) := by
    simp only [layoutGeneral]
    rw [hA, ← hAB]
    rfl
  rw [hLG, alookup_map_box_isSome, ← hAB,
    layoutCompFold_keys children parents node_sizes
      (fun u => (a6 u).1) a3
      (findComponents (nodes.map (fun n => n.id)) children parents)
      ([], 0) x (fun c hc => ⟨(f2 c hc).2.1, (f2 c hc).2.2⟩)]
  refine Iff.trans (or_iff_right (by simp [alookup])) ?_
  constructor
  · rintro ⟨c, hc, hx⟩
    exact (f2 c hc).1 x hx
  · intro hx
    exact f1 x hx

lemma layout_keys (nodes : List AsciiNode) (edges : List AsciiEdge)
    (node_sizes : String → Int × Int) (padding : Int) (x : String) :
    (alookup (layout nodes edges node_sizes padding) x).isSome
      ↔ x ∈ nodes.map (fun n => n.id) := by
  cases nodes with
  | nil =>
    rw [layout]
    exact layoutGeneral_keys [] edges node_sizes padding x
  | cons n1 rest =>
    cases rest with
    | nil =>
      rw [layout, List.map_cons, List.map_nil, alookup]
      by_cases h : n1.id = x
      · rw [if_pos h]
        simp only [Option.isSome_some]
        exact ⟨fun _ => List.mem_singleton.mpr h.symm, fun _ => trivial⟩
      · rw [if_neg h, alookup]
        constructor
        · intro h2
          exact absurd h2 (by simp)
        · intro h2
          exact absurd (List.mem_singleton.mp h2).symm h
    | cons n2 rest2 =>
      rw [layout]
      exact layoutGeneral_keys (n1 :: n2 :: rest2) edges node_sizes
        padding x

/-- C2: for every node list and every edge list — including cycles,
self-loops and edges with endpoints that are not node ids — layout
terminates and returns a box map whose key set is exactly the set of
input node ids, each box carrying exactly the given node size; and
self-loop edges are excluded from the adjacency build entirely, so the
whole layout is unchanged when they are dropped. -/
theorem C2_layout_total (nodes : List AsciiNode) (edges : List AsciiEdge)
    (node_sizes : String → Int × Int) (padding : Int) :
    (∀ x, (alookup (layout nodes edges node_sizes padding) x).isSome
      ↔ x ∈ nodes.map (fun n => n.id))
    ∧ (∀ p ∈ layout nodes edges node_sizes padding,
        p.2.w = (node_sizes p.1).1 ∧ p.2.h = (node_sizes p.1).2)
    ∧ layoutAdj (nodes.map (fun n => n.id)) edges
      = layoutAdj (nodes.map (fun n => n.id))
        (edges.filter (fun e => e.source ≠ e.target))
    ∧ layout nodes edges node_sizes padding
      = layout nodes (edges.filter (fun e => e.source ≠ e.target))
        node_sizes padding := by
  refine ⟨layout_keys nodes edges node_sizes padding, ?_,
    layoutAdj_filter_selfloops _ _, layout_filter_selfloops _ _ _ _⟩
  intro p hp
  cases nodes with
  | nil =>
    rw [layout] at hp
    exact boxSizesOK_layoutGeneral [] edges node_sizes padding p hp
  | cons n1 rest =>
    cases rest with
    | nil =>
      rw [layout] at hp
      rw [List.mem_singleton.mp hp]
      exact ⟨rfl, rfl⟩
    | cons n2 r2 =>
      rw [layout] at hp
      exact boxSizesOK_layoutGeneral (n1 :: n2 :: r2) edges node_sizes
        padding p hp

/-! ### C4: the layout is normalised to the padding -/

lemma listMin_map_add_pairs (f : String × Box → Int) (d : Int) :
    ∀ (l : List (String × Box)), l ≠ [] →
    listMin (l.map (fun p => f p + d)) = listMin (l.map f) + d := by
  have haux : ∀ (rest : List (String × Box)) (a : Int),
      (rest.map (fun p => f p + d)).foldl min (a + d)
        = (rest.map f).foldl min a + d := by
    intro rest
    induction rest with
    | nil =>
      intro a
      rfl
    | cons b rb ih =>
      intro a
      rw [List.map_cons, List.foldl_cons, List.map_cons, List.foldl_cons]
      have hm : min (a + d) (f b + d) = min a (f b) + d := by omega
      rw [hm, ih]
  intro l hl
  cases l with
  | nil => exact absurd rfl hl
  | cons a rest =>
    rw [List.map_cons, List.map_cons, listMin, listMin]
    exact haux rest (f a)

lemma layoutGeneral_min (nodes : List AsciiNode) (edges : List AsciiEdge)
    (node_sizes : String → Int × Int) (padding : Int)
    (hne : nodes.map (fun n => n.id) ≠ []) :
    listMin ((layoutGeneral nodes edges node_sizes padding).map
      (fun p => p.2.x)) = padding
    ∧ listMin ((layoutGeneral nodes edges node_sizes padding).map
      (fun p => p.2.y)) = padding := by
  obtain ⟨x0, hx0⟩ : ∃ x0, x0 ∈ nodes.map (fun n => n.id) := by
    cases h : nodes.map (fun n => n.id) with
    | nil => exact absurd h hne
    | cons a rest => exact ⟨a, h ▸ List.mem_cons_self a rest⟩
  have hk := (layoutGeneral_keys nodes edges node_sizes padding x0).mpr hx0
  obtain ⟨⟨children, parents⟩, hA⟩ :
      ∃ r, layoutAdj (nodes.map (fun n => n.id)) edges = r := ⟨_, rfl⟩
  obtain ⟨AB, hAB⟩ : ∃ r,
      ((findComponents (nodes.map (fun n => n.id)) children
        parents).foldl (compStep children parents node_sizes)
        (([] : List (String × Box)), (0 : Int))).1 = r := ⟨_, rfl⟩
  have hLG : layoutGeneral nodes edges node_sizes padding
      = AB.map (fun p => (p.1, Box.mk
          (p.2.x + (padding - listMin (AB.map (fun q => q.2.x))))
          (p.2.y + (padding - listMin (AB.map (fun q => q.2.y))))
          p.2.w p.2.h)) := by
    simp only [layoutGeneral]
    rw [hA, ← hAB]
    rfl
  rw [hLG] at hk
  have hABne : AB ≠ [] := by
    intro hnil
    rw [hnil, List.map_nil, alookup] at hk
    exact absurd hk (by simp)
  rw [hLG]
  constructor
  · rw [List.map_map]
    show listMin (AB.map (fun p =>
      p.2.x + (padding - listMin (AB.map (fun q => q.2.x))))) = padding
    rw [listMin_map_add_pairs (fun p => p.2.x)
      (padding - listMin (AB.map (fun q => q.2.x))) AB hABne]
    omega
  · rw [List.map_map]
    show listMin (AB.map (fun p =>
      p.2.y + (padding - listMin (AB.map (fun q => q.2.y))))) = padding
    rw [listMin_map_add_pairs (fun p => p.2.y)
      (padding - listMin (AB.map (fun q => q.2.y))) AB hABne]
    omega

/-- C4: for every non-empty node list the returned layout is normalised
to the padding: both the minimum x and the minimum y over all boxes
equal the padding argument, including the single-node special case. -/
theorem C4_layout_normalized (nodes : List AsciiNode)
    (edges : List AsciiEdge) (node_sizes : String → Int × Int)
    (padding : Int) (hne : nodes ≠ []) :
    listMin ((layout nodes edges node_sizes padding).map
      (fun p => p.2.x)) = padding
    ∧ listMin ((layout nodes edges node_sizes padding).map
      (fun p => p.2.y)) = padding := by
  cases nodes with
  | nil => exact absurd rfl hne
  | cons n1 rest =>
    cases rest with
    | nil =>
      rw [layout]
      exact ⟨rfl, rfl⟩
    | cons n2 r2 =>
      rw [layout]
      exact layoutGeneral_min (n1 :: n2 :: r2) edges node_sizes padding
        (by simp)

/-- Witness for C4 at a concrete two-node graph with one edge and unit
sizes: both minima equal the padding 2. -/
theorem C4_layout_normalized_witness :
    (([AsciiNode.mk "a" "a" "" "" none,
       AsciiNode.mk "b" "b" "" "" none] : List AsciiNode) ≠ [])
    ∧ (listMin ((layout
        [AsciiNode.mk "a" "a" "" "" none, AsciiNode.mk "b" "b" "" "" none]
        [AsciiEdge.mk "a" "b" none] (fun _ => (3, 3)) 2).map
        (fun p => p.2.x)) = 2
      ∧ listMin ((layout
        [AsciiNode.mk "a" "a" "" "" none, AsciiNode.mk "b" "b" "" "" none]
        [AsciiEdge.mk "a" "b" none] (fun _ => (3, 3)) 2).map
        (fun p => p.2.y)) = 2) :=
  ⟨by simp, C4_layout_normalized
    [AsciiNode.mk "a" "a" "" "" none, AsciiNode.mk "b" "b" "" "" none]
    [AsciiEdge.mk "a" "b" none] (fun _ => (3, 3)) 2 (by simp)⟩

/-! ## C8: edges with a missing endpoint are skipped everywhere -/

lemma layoutAdj_skip_dangling (node_ids : List String)
    (l1 l2 : List AsciiEdge) (e : AsciiEdge)
    (he : e.source ∉ node_ids ∨ e.target ∉ node_ids) :
    layoutAdj node_ids (l1 ++ e :: l2) = layoutAdj node_ids (l1 ++ l2) := by
  rw [layoutAdj, layoutAdj]
  generalize (node_ids.map (fun nid => (nid, ([] : List String))),
    node_ids.map (fun nid => (nid, ([] : List String)))) = st0
  induction l1 generalizing st0 with
  | nil =>
    rw [List.nil_append, List.nil_append, List.foldl_cons]
    obtain ⟨ch, pa⟩ := st0
    have hid : (if e.source ∈ node_ids ∧ e.target ∈ node_ids
          ∧ e.source ≠ e.target then
        (aset ch e.source (aget ch e.source [] ++ [e.target]),
          aset pa e.target (aget pa e.target [] ++ [e.source]))
        else (ch, pa)) = (ch, pa) := by
      refine if_neg (fun hk => ?_)
      rcases he with h | h
      · exact h hk.1
      · exact h hk.2.1
    show List.foldl _ (if e.source ∈ node_ids ∧ e.target ∈ node_ids
          ∧ e.source ≠ e.target then
        (aset ch e.source (aget ch e.source [] ++ [e.target]),
          aset pa e.target (aget pa e.target [] ++ [e.source]))
        else (ch, pa)) l2 = _
    rw [hid]
  | cons f l1' ih =>
    rw [List.cons_append, List.cons_append, List.foldl_cons, List.foldl_cons]
    exact ih _

lemma layout_skip_dangling (nodes : List AsciiNode)
    (l1 l2 : List AsciiEdge) (e : AsciiEdge)
    (he : e.source ∉ nodes.map (fun n => n.id)
      ∨ e.target ∉ nodes.map (fun n => n.id))
    (node_sizes : String → Int × Int) (padding : Int) :
    layout nodes (l1 ++ e :: l2) node_sizes padding
      = layout nodes (l1 ++ l2) node_sizes padding := by
  cases nodes with
  | nil =>
    simp only [layout]
    exact layoutGeneral_edges_congr [] _ _ node_sizes padding
      (layoutAdj_skip_dangling _ l1 l2 e he)
  | cons n1 rest =>
    cases rest with
    | nil => rfl
    | cons n2 rest2 =>
      simp only [layout]
      exact layoutGeneral_edges_congr (n1 :: n2 :: rest2) _ _ node_sizes padding
        (layoutAdj_skip_dangling _ l1 l2 e he)

lemma foldl_insert_skip {α β : Type} (f : α → β → α) (b : β)
    (hb : ∀ a, f a b = a) (l1 l2 : List β) (a : α) :
    (l1 ++ b :: l2).foldl f a = (l1 ++ l2).foldl f a := by
  rw [List.foldl_append, List.foldl_append, List.foldl_cons, hb]

lemma foldAppend_decomp {σ : Type}
    (step : List (Option Int) × σ → AsciiEdge → List (Option Int) × σ)
    (hstep : ∀ (s : σ) (e2 : AsciiEdge), ∃ v s2,
      ∀ acc2 : List (Option Int), step (acc2, s) e2 = (acc2 ++ [v], s2)) :
    ∀ (l : List AsciiEdge) (s : σ),
    ∃ vs s2, vs.length = l.length ∧ ∀ acc2 : List (Option Int),
      l.foldl step (acc2, s) = (acc2 ++ vs, s2) := by
  intro l
  induction l with
  | nil =>
    intro s
    exact ⟨[], s, rfl, fun acc2 => by rw [List.foldl_nil, List.append_nil]⟩
  | cons e2 rest ih =>
    intro s
    obtain ⟨v, s1, hv⟩ := hstep s e2
    obtain ⟨vs, s2, hlen, hvs⟩ := ih s1
    refine ⟨v :: vs, s2, by rw [List.length_cons, List.length_cons, hlen], ?_⟩
    intro acc2
    rw [List.foldl_cons, hv acc2, hvs (acc2 ++ [v]), List.append_assoc,
      List.singleton_append]

lemma foldSkip_decomp
    (step : List (Option Int) × Nat → AsciiEdge → List (Option Int) × Nat)
    (hstep : ∀ (s : Nat) (e2 : AsciiEdge), ∃ v s2,
      ∀ acc2 : List (Option Int), step (acc2, s) e2 = (acc2 ++ [v], s2))
    (e : AsciiEdge) (hdang : ∀ st, step st e = (st.1 ++ [none], st.2))
    (l1 l2 : List AsciiEdge) :
    ∃ A B, A.length = l1.length
      ∧ ((l1 ++ e :: l2).foldl step ([], 0)).1 = A ++ none :: B
      ∧ ((l1 ++ l2).foldl step ([], 0)).1 = A ++ B := by
  obtain ⟨A, s1, hAlen, hA⟩ := foldAppend_decomp step hstep l1 0
  obtain ⟨B, s2, hBlen, hB⟩ := foldAppend_decomp step hstep l2 s1
  refine ⟨A, B, hAlen, ?_, ?_⟩
  · rw [List.foldl_append, List.foldl_cons, hA []]
    show (l2.foldl step (step (A, s1) e)).1 = A ++ none :: B
    rw [hdang (A, s1)]
    show (l2.foldl step (A ++ [none], s1)).1 = A ++ none :: B
    rw [hB (A ++ [none]), List.append_assoc, List.singleton_append]
  · rw [List.foldl_append, hA []]
    show (l2.foldl step (A, s1)).1 = A ++ B
    rw [hB A]

/-- Local obstacle scan of one backward corridor step (the localMaxRight
fold of _backward_edge_corridors). -/
def bwdRoute (boxes : List (String × Box)) (src tgt : Box) : Int :=
  let srcMidY := src.y + src.h / 2
  let tgtMidY := tgt.y + tgt.h / 2
  let yMin := min srcMidY tgtMidY
  let yMax := max srcMidY tgtMidY
  boxes.foldl
    (fun m p =>
      let b := p.2
      if b.y < yMax ∧ b.y + b.h > yMin then max m (b.x + b.w) else m)
    0

/-- One step of the backward-corridor fold, named for reasoning; its
body is definitionally the step lambda of backward_edge_corridors. -/
def bwdStep (boxes : List (String × Box))
    (st : List (Option Int) × Nat) (e : AsciiEdge) :
    List (Option Int) × Nat :=
  match alookup boxes e.source, alookup boxes e.target with
  | some src, some tgt =>
    if tgt.bottom < src.top then
      (st.1 ++ [some (bwdRoute boxes src tgt + 3 + (st.2 : Int) * 3)],
        st.2 + 1)
    else (st.1 ++ [none], st.2)
  | _, _ => (st.1 ++ [none], st.2)

/-- Collision scan of one forward skip-corridor step (the scan fold of
_forward_skip_corridors). -/
def fwdScan (boxes : List (String × Box)) (src tgt : Box) : Bool × Int :=
  let edgeX := tgt.cx
  let srcBottom := src.bottom
  let tgtTop := tgt.top
  boxes.foldl
    (fun (cl : Bool × Int) p =>
      let b := p.2
      if b = src ∨ b = tgt then cl
      else
        let bBottom := b.y + b.h
        if bBottom ≤ srcBottom ∨ b.y ≥ tgtTop then cl
        else
          let bRight := b.x + b.w
          let collides := cl.1 ∨ (b.x ≤ edgeX ∧ edgeX < bRight)
          let localMax := if bRight > cl.2 then bRight else cl.2
          (collides, localMax))
    (false, 0)

/-- One step of the forward skip-corridor fold, named for reasoning; its
body is definitionally the step lambda of forward_skip_corridors. -/
def fwdStep (boxes : List (String × Box)) (minRouteX : Int)
    (st : List (Option Int) × Nat) (e : AsciiEdge) :
    List (Option Int) × Nat :=
  match alookup boxes e.source, alookup boxes e.target with
  | some src, some tgt =>
    if src.bottom ≥ tgt.top then (st.1 ++ [none], st.2)
    else if |src.cx - tgt.cx| > STRAIGHT_TOLERANCE then (st.1 ++ [none], st.2)
    else
      if (fwdScan boxes src tgt).1 then
        (st.1 ++ [some (max ((fwdScan boxes src tgt).2 + 3) minRouteX
          + (st.2 : Int) * 3)], st.2 + 1)
      else (st.1 ++ [none], st.2)
  | _, _ => (st.1 ++ [none], st.2)

/-- Label-width accumulator of the backward corridor margin. -/
def labelW (m : Int) (p : AsciiEdge × Option Int) : Int :=
  match p.2 with
  | some _ =>
    match p.1.label with
    | some lbl => if lbl ≠ "" then max m ((lbl.length : Int) + 2) else m
    | none => m
  | none => m

/-- Label-width accumulator of the forward corridor margin. -/
def labelW2 (m : Int) (p : AsciiEdge × Option Int) : Int :=
  match p.2 with
  | some _ =>
    match p.1.label with
    | some lbl =>
      if lbl ≠ "" ∧ (lbl.length : Int) + 2 > m then (lbl.length : Int) + 2
      else m
    | none => m
  | none => m

/-- Common margin postprocessing of both corridor passes: the corridor
list together with the extra right margin it requires. -/
def corridorPost (edges : List AsciiEdge) (boxes : List (String × Box))
    (corr : List (Option Int)) (lw : Int → AsciiEdge × Option Int → Int) :
    List (Option Int) × Int :=
  match corr.filterMap id with
  | [] => (corr, 0)
  | v :: vs =>
    (corr, max 0 (vs.foldl max v + (edges.zip corr).foldl lw 0
      - listMax (boxes.map (fun p => p.2.x + p.2.w)) + 3))

lemma bwd_eq (edges : List AsciiEdge) (boxes : List (String × Box)) :
    backward_edge_corridors edges boxes
      = corridorPost edges boxes
          ((edges.foldl (bwdStep boxes) ([], 0)).1) labelW := by
  rw [backward_edge_corridors]
  rfl

lemma fwd_eq (edges : List AsciiEdge) (boxes : List (String × Box))
    (minRouteX : Int) :
    forward_skip_corridors edges boxes minRouteX
      = corridorPost edges boxes
          ((edges.foldl (fwdStep boxes minRouteX) ([], 0)).1) labelW2 := by
  rw [forward_skip_corridors]
  rfl

lemma bwdStep_some (boxes : List (String × Box))
    (st : List (Option Int) × Nat) (e : AsciiEdge) (src tgt : Box)
    (h1 : alookup boxes e.source = some src)
    (h2 : alookup boxes e.target = some tgt) :
    bwdStep boxes st e
      = if tgt.bottom < src.top then
          (st.1 ++ [some (bwdRoute boxes src tgt + 3 + (st.2 : Int) * 3)],
            st.2 + 1)
        else (st.1 ++ [none], st.2) := by
  rw [bwdStep, h1, h2]

lemma bwdStep_dangling (boxes : List (String × Box))
    (st : List (Option Int) × Nat) (e : AsciiEdge)
    (hnone : alookup boxes e.source = none
      ∨ alookup boxes e.target = none) :
    bwdStep boxes st e = (st.1 ++ [none], st.2) := by
  rw [bwdStep]
  rcases hnone with h | h
  · rw [h]
  · cases h1 : alookup boxes e.source with
    | none => rfl
    | some src => rw [h]

lemma bwdStep_shape (boxes : List (String × Box)) :
    ∀ (s : Nat) (e2 : AsciiEdge), ∃ v s2,
    ∀ acc2 : List (Option Int),
      bwdStep boxes (acc2, s) e2 = (acc2 ++ [v], s2) := by
  intro s e2
  cases h1 : alookup boxes e2.source with
  | none =>
    exact ⟨none, s, fun acc2 =>
      bwdStep_dangling boxes (acc2, s) e2 (Or.inl h1)⟩
  | some src =>
    cases h2 : alookup boxes e2.target with
    | none =>
      exact ⟨none, s, fun acc2 =>
        bwdStep_dangling boxes (acc2, s) e2 (Or.inr h2)⟩
    | some tgt =>
      by_cases hc : tgt.bottom < src.top
      · refine ⟨some (bwdRoute boxes src tgt + 3 + (s : Int) * 3), s + 1,
          fun acc2 => ?_⟩
        rw [bwdStep_some boxes (acc2, s) e2 src tgt h1 h2, if_pos hc]
      · refine ⟨none, s, fun acc2 => ?_⟩
        rw [bwdStep_some boxes (acc2, s) e2 src tgt h1 h2, if_neg hc]

lemma fwdStep_some (boxes : List (String × Box)) (minRouteX : Int)
    (st : List (Option Int) × Nat) (e : AsciiEdge) (src tgt : Box)
    (h1 : alookup boxes e.source = some src)
    (h2 : alookup boxes e.target = some tgt) :
    fwdStep boxes minRouteX st e
      = if src.bottom ≥ tgt.top then (st.1 ++ [none], st.2)
        else if |src.cx - tgt.cx| > STRAIGHT_TOLERANCE then
          (st.1 ++ [none], st.2)
        else
          if (fwdScan boxes src tgt).1 then
            (st.1 ++ [some (max ((fwdScan boxes src tgt).2 + 3) minRouteX
              + (st.2 : Int) * 3)], st.2 + 1)
          else (st.1 ++ [none], st.2) := by
  rw [fwdStep, h1, h2]

lemma fwdStep_dangling (boxes : List (String × Box)) (minRouteX : Int)
    (st : List (Option Int) × Nat) (e : AsciiEdge)
    (hnone : alookup boxes e.source = none
      ∨ alookup boxes e.target = none) :
    fwdStep boxes minRouteX st e = (st.1 ++ [none], st.2) := by
  rw [fwdStep]
  rcases hnone with h | h
  · rw [h]
  · cases h1 : alookup boxes e.source with
    | none => rfl
    | some src => rw [h]

lemma fwdStep_shape (boxes : List (String × Box)) (minRouteX : Int) :
    ∀ (s : Nat) (e2 : AsciiEdge), ∃ v s2,
    ∀ acc2 : List (Option Int),
      fwdStep boxes minRouteX (acc2, s) e2 = (acc2 ++ [v], s2) := by
  intro s e2
  cases h1 : alookup boxes e2.source with
  | none =>
    exact ⟨none, s, fun acc2 =>
      fwdStep_dangling boxes minRouteX (acc2, s) e2 (Or.inl h1)⟩
  | some src =>
    cases h2 : alookup boxes e2.target with
    | none =>
      exact ⟨none, s, fun acc2 =>
        fwdStep_dangling boxes minRouteX (acc2, s) e2 (Or.inr h2)⟩
    | some tgt =>
      by_cases hc1 : src.bottom ≥ tgt.top
      · refine ⟨none, s, fun acc2 => ?_⟩
        rw [fwdStep_some boxes minRouteX (acc2, s) e2 src tgt h1 h2,
          if_pos hc1]
      · by_cases hc2 : |src.cx - tgt.cx| > STRAIGHT_TOLERANCE
        · refine ⟨none, s, fun acc2 => ?_⟩
          rw [fwdStep_some boxes minRouteX (acc2, s) e2 src tgt h1 h2,
            if_neg hc1, if_pos hc2]
        · by_cases hc3 : (fwdScan boxes src tgt).1
          · refine ⟨some (max ((fwdScan boxes src tgt).2 + 3) minRouteX
              + (s : Int) * 3), s + 1, fun acc2 => ?_⟩
            rw [fwdStep_some boxes minRouteX (acc2, s) e2 src tgt h1 h2,
              if_neg hc1, if_neg hc2, if_pos hc3]
          · refine ⟨none, s, fun acc2 => ?_⟩
            rw [fwdStep_some boxes minRouteX (acc2, s) e2 src tgt h1 h2,
              if_neg hc1, if_neg hc2, if_neg hc3]

lemma corridorPost_fst (edges : List AsciiEdge)
    (boxes : List (String × Box)) (corr : List (Option Int))
    (lw : Int → AsciiEdge × Option Int → Int) :
    (corridorPost edges boxes corr lw).1 = corr := by
  rw [corridorPost]
  cases h : corr.filterMap id <;> rfl

lemma corridorPost_skip (l1 l2 : List AsciiEdge) (e : AsciiEdge)
    (boxes : List (String × Box)) (A B : List (Option Int))
    (hAlen : A.length = l1.length)
    (lw : Int → AsciiEdge × Option Int → Int)
    (hlw : ∀ m, lw m (e, none) = m) :
    corridorPost (l1 ++ e :: l2) boxes (A ++ none :: B) lw
      = (A ++ none :: B,
          (corridorPost (l1 ++ l2) boxes (A ++ B) lw).2) := by
  have hfm : (A ++ none :: B).filterMap id = (A ++ B).filterMap id := by
    rw [List.filterMap_append, List.filterMap_append]
    rfl
  have hzip : (l1 ++ e :: l2).zip (A ++ none :: B)
      = l1.zip A ++ (e, none) :: l2.zip B := by
    rw [List.zip_append hAlen.symm, List.zip_cons_cons]
  have hzip2 : (l1 ++ l2).zip (A ++ B) = l1.zip A ++ l2.zip B :=
    List.zip_append hAlen.symm
  have hlwfold : ∀ z : Int,
      (l1.zip A ++ (e, none) :: l2.zip B).foldl lw z
        = (l1.zip A ++ l2.zip B).foldl lw z := by
    intro z
    rw [List.foldl_append, List.foldl_append, List.foldl_cons, hlw]
  rw [corridorPost, corridorPost, hfm, hzip, hzip2]
  cases h : (A ++ B).filterMap id with
  | nil => rfl
  | cons v vs =>
    rw [hlwfold]

lemma bwd_skip (boxes : List (String × Box)) (l1 l2 : List AsciiEdge)
    (e : AsciiEdge)
    (hnone : alookup boxes e.source = none
      ∨ alookup boxes e.target = none) :
    ∃ A B ex, A.length = l1.length
      ∧ backward_edge_corridors (l1 ++ e :: l2) boxes = (A ++ none :: B, ex)
      ∧ backward_edge_corridors (l1 ++ l2) boxes = (A ++ B, ex) := by
  obtain ⟨A, B, hAlen, hW, hWO⟩ := foldSkip_decomp (bwdStep boxes)
    (bwdStep_shape boxes) e
    (fun st => bwdStep_dangling boxes st e hnone) l1 l2
  refine ⟨A, B, (backward_edge_corridors (l1 ++ l2) boxes).2, hAlen, ?_, ?_⟩
  · rw [bwd_eq (l1 ++ e :: l2) boxes, hW,
      corridorPost_skip l1 l2 e boxes A B hAlen labelW (fun m => rfl),
      bwd_eq (l1 ++ l2) boxes, hWO]
  · rw [bwd_eq (l1 ++ l2) boxes, hWO]
    exact Prod.ext_iff.mpr ⟨corridorPost_fst _ _ _ _, rfl⟩

lemma fwd_skip (boxes : List (String × Box)) (l1 l2 : List AsciiEdge)
    (e : AsciiEdge) (minRouteX : Int)
    (hnone : alookup boxes e.source = none
      ∨ alookup boxes e.target = none) :
    ∃ A B ex, A.length = l1.length
      ∧ forward_skip_corridors (l1 ++ e :: l2) boxes minRouteX
          = (A ++ none :: B, ex)
      ∧ forward_skip_corridors (l1 ++ l2) boxes minRouteX
          = (A ++ B, ex) := by
  obtain ⟨A, B, hAlen, hW, hWO⟩ := foldSkip_decomp (fwdStep boxes minRouteX)
    (fwdStep_shape boxes minRouteX) e
    (fun st => fwdStep_dangling boxes minRouteX st e hnone) l1 l2
  refine ⟨A, B, (forward_skip_corridors (l1 ++ l2) boxes minRouteX).2,
    hAlen, ?_, ?_⟩
  · rw [fwd_eq (l1 ++ e :: l2) boxes minRouteX, hW,
      corridorPost_skip l1 l2 e boxes A B hAlen labelW2 (fun m => rfl),
      fwd_eq (l1 ++ l2) boxes minRouteX, hWO]
  · rw [fwd_eq (l1 ++ l2) boxes minRouteX, hWO]
    exact Prod.ext_iff.mpr ⟨corridorPost_fst _ _ _ _, rfl⟩

/-- Minimum forward-corridor x derived from the backward corridors (the
minFwd computation of _do_render_canvas). -/
def minFwdOf (corr : List (Option Int)) : Int :=
  match corr.filterMap id with
  | [] => 0
  | v :: vs => (vs.foldl max v) + 3

/-- Merge of backward and forward corridor maps: a forward route wins
over a backward one at the same edge index. -/
def mergeCorr (c1 c2 : List (Option Int)) : List (Option Int) :=
  (c1.zip c2).map (fun p => match p.2 with
    | some v => some v
    | none => p.1)

/-- One step of the edge-drawing fold of _do_render_canvas: edges whose
source or target has no laid-out box are skipped. -/
def edgeDrawStep (options : RenderOptions) (boxes : List (String × Box))
    (nbc : List (String × Option String)) (cv : Canvas)
    (p : AsciiEdge × Option Int) : Canvas :=
  match alookup boxes p.1.source, alookup boxes p.1.target with
  | some srcBox, some tgtBox =>
    draw_edge cv srcBox tgtBox p.1.label options.use_unicode
      (optStr options.theme.edge) (optStr options.theme.edge_label) p.2 boxes
      ((alookup nbc p.1.source).getD none)
  | _, _ => cv

/-- The option record used for subgraph rendering (padding zeroed). -/
def subOpts (options : RenderOptions) : RenderOptions :=
  { use_unicode := options.use_unicode, show_types := options.show_types
    padding := 0, theme := options.theme, max_width := options.max_width }

/-- The tail of _do_render_canvas after sizing: corridors, canvas
allocation, node drawing and edge drawing, with the laid-out boxes an
explicit parameter. -/
def renderStage2 (options : RenderOptions) (boxes : List (String × Box))
    (node_content : List (String × List String))
    (subgraph_meta : List (String × (Nat × Int × Int)))
    (subgraphCanvases : List (String × Canvas)) (nodes : List AsciiNode)
    (edges : List AsciiEdge) : Canvas :=
  let bwd := backward_edge_corridors edges boxes
  let fwd := forward_skip_corridors edges boxes (minFwdOf bwd.1)
  let corridorMap := mergeCorr bwd.1 fwd.1
  let extraRight := max bwd.2 fwd.2
  let canvas0 := Canvas.init
    (listMax (boxes.map (fun p => p.2.x + p.2.w)) + extraRight
      + options.padding)
    (listMax (boxes.map (fun p => p.2.y + p.2.h)) + options.padding)
  let drawn := drawNodes options options.theme boxes node_content
    subgraph_meta subgraphCanvases canvas0 nodes
  (edges.zip corridorMap).foldl (edgeDrawStep options boxes drawn.2) drawn.1

lemma do_render_canvas_stage2 (nodes : List AsciiNode)
    (options : RenderOptions) (mm : Int) :
    ∃ NS nc sm sc, ∀ edges : List AsciiEdge,
      do_render_canvas ⟨nodes, edges⟩ options mm
        = renderStage2 options (layout nodes edges NS options.padding)
            nc sm sc nodes edges := by
  refine ⟨fun nid => aget (nodeSizing (renderSubCanvases (subOpts options)
      mm nodes) options.show_types mm nodes).1 nid (0, 0),
    (nodeSizing (renderSubCanvases (subOpts options) mm nodes)
      options.show_types mm nodes).2.1,
    (nodeSizing (renderSubCanvases (subOpts options) mm nodes)
      options.show_types mm nodes).2.2,
    renderSubCanvases (subOpts options) mm nodes,
    fun edges => ?_⟩
  rw [do_render_canvas]
  rfl

lemma minFwdOf_skip (A B : List (Option Int)) :
    minFwdOf (A ++ none :: B) = minFwdOf (A ++ B) := by
  rw [minFwdOf, minFwdOf, List.filterMap_append, List.filterMap_append,
    List.filterMap_cons_none rfl]

lemma mergeCorr_skip1 (A B A2 B2 : List (Option Int))
    (h : A.length = A2.length) :
    mergeCorr (A ++ none :: B) (A2 ++ none :: B2)
      = mergeCorr A A2 ++ none :: mergeCorr B B2 := by
  simp only [mergeCorr]
  rw [List.zip_append h, List.zip_cons_cons, List.map_append, List.map_cons]

lemma mergeCorr_skip2 (A B A2 B2 : List (Option Int))
    (h : A.length = A2.length) :
    mergeCorr (A ++ B) (A2 ++ B2)
      = mergeCorr A A2 ++ mergeCorr B B2 := by
  simp only [mergeCorr]
  rw [List.zip_append h, List.map_append]

lemma mergeCorr_length (c1 c2 : List (Option Int)) :
    (mergeCorr c1 c2).length = min c1.length c2.length := by
  rw [mergeCorr, List.length_map, List.length_zip]

lemma edgeDrawStep_dangling (options : RenderOptions)
    (boxes : List (String × Box)) (nbc : List (String × Option String))
    (e : AsciiEdge)
    (hnone : alookup boxes e.source = none
      ∨ alookup boxes e.target = none) :
    ∀ (cv : Canvas) (c : Option Int),
      edgeDrawStep options boxes nbc cv (e, c) = cv := by
  intro cv c
  rcases hnone with h | h
  · cases h2 : alookup boxes e.target <;> simp only [edgeDrawStep, h, h2]
  · cases h1 : alookup boxes e.source <;> simp only [edgeDrawStep, h1, h]

lemma renderStage2_skip (options : RenderOptions)
    (boxes : List (String × Box)) (nc : List (String × List String))
    (sm : List (String × (Nat × Int × Int))) (sc : List (String × Canvas))
    (nodes : List AsciiNode) (l1 l2 : List AsciiEdge) (e : AsciiEdge)
    (hnone : alookup boxes e.source = none
      ∨ alookup boxes e.target = none) :
    renderStage2 options boxes nc sm sc nodes (l1 ++ e :: l2)
      = renderStage2 options boxes nc sm sc nodes (l1 ++ l2) := by
  obtain ⟨A, B, exb, hAlen, hbW, hbO⟩ := bwd_skip boxes l1 l2 e hnone
  obtain ⟨A2, B2, exf, hAlen2, hfW, hfO⟩ :=
    fwd_skip boxes l1 l2 e (minFwdOf (A ++ B)) hnone
  have hlenA : A.length = A2.length := by rw [hAlen, hAlen2]
  have hmc1 := mergeCorr_skip1 A B A2 B2 hlenA
  have hmc2 := mergeCorr_skip2 A B A2 B2 hlenA
  have hlen : l1.length = (mergeCorr A A2).length := by
    rw [mergeCorr_length, hAlen, hAlen2, min_self]
  simp only [renderStage2, hbW, hbO, minFwdOf_skip, hfW, hfO, hmc1, hmc2]
  rw [List.zip_append hlen, List.zip_cons_cons, List.zip_append hlen,
    List.foldl_append, List.foldl_cons,
    edgeDrawStep_dangling options boxes _ e hnone, ← List.foldl_append]

lemma do_render_skip (nodes : List AsciiNode) (l1 l2 : List AsciiEdge)
    (e : AsciiEdge) (options : RenderOptions) (mm : Int)
    (he : e.source ∉ nodes.map (fun n => n.id)
      ∨ e.target ∉ nodes.map (fun n => n.id)) :
    do_render_canvas ⟨nodes, l1 ++ e :: l2⟩ options mm
      = do_render_canvas ⟨nodes, l1 ++ l2⟩ options mm := by
  obtain ⟨NS, nc, sm, sc, hst⟩ := do_render_canvas_stage2 nodes options mm
  rw [hst (l1 ++ e :: l2), hst (l1 ++ l2),
    layout_skip_dangling nodes l1 l2 e he NS options.padding]
  refine renderStage2_skip options _ nc sm sc nodes l1 l2 e ?_
  rcases he with h | h
  · refine Or.inl (Option.not_isSome_iff_eq_none.mp ?_)
    rw [layout_keys]
    exact h
  · refine Or.inr (Option.not_isSome_iff_eq_none.mp ?_)
    rw [layout_keys]
    exact h

lemma render_canvas_skip (nodes : List AsciiNode) (l1 l2 : List AsciiEdge)
    (e : AsciiEdge) (options : RenderOptions)
    (he : e.source ∉ nodes.map (fun n => n.id)
      ∨ e.target ∉ nodes.map (fun n => n.id)) :
    ∀ (k : Nat) (mm : Int),
    render_canvas ⟨nodes, l1 ++ e :: l2⟩ options k mm
      = render_canvas ⟨nodes, l1 ++ l2⟩ options k mm := by
  intro k
  induction k with
  | zero =>
    intro mm
    simp only [render_canvas]
    exact do_render_skip nodes l1 l2 e options mm he
  | succ k ih =>
    intro mm
    cases hmw : options.max_width with
    | none =>
      simp only [render_canvas, hmw]
      exact do_render_skip nodes l1 l2 e options mm he
    | some mw =>
      simp only [render_canvas, hmw]
      rw [do_render_skip nodes l1 l2 e options mm he, ih]

/-- C8: an edge whose source or target id does not belong to the node
list leaves the rendered output unchanged — dangling edges are skipped
by the layout adjacency, by both corridor passes (which record an empty
slot without advancing the corridor counter), and by the edge-drawing
loop. -/
theorem C8_dangling_edge_skipped (nodes : List AsciiNode)
    (l1 l2 : List AsciiEdge) (e : AsciiEdge) (options : RenderOptions)
    (he : e.source ∉ nodes.map (fun n => n.id)
      ∨ e.target ∉ nodes.map (fun n => n.id)) :
    render ⟨nodes, l1 ++ e :: l2⟩ options = render ⟨nodes, l1 ++ l2⟩ options := by
  simp only [render, AsciiGraph.nodes]
  by_cases hne : nodes.isEmpty = true
  · rw [if_pos hne, if_pos hne]
  · rw [if_neg hne, if_neg hne,
      render_canvas_skip nodes l1 l2 e options he 3 META_MAX_LINE]

/-- Witness for C8: a single node "a" with one edge to the absent id
"zzz" renders identically to the same graph without that edge. -/
theorem C8_dangling_edge_skipped_witness :
    ((AsciiEdge.mk "a" "zzz" none).source
        ∉ [AsciiNode.mk "a" "a" "" "" none].map (fun n => n.id)
      ∨ (AsciiEdge.mk "a" "zzz" none).target
        ∉ [AsciiNode.mk "a" "a" "" "" none].map (fun n => n.id))
    ∧ render ⟨[AsciiNode.mk "a" "a" "" "" none],
        [] ++ AsciiEdge.mk "a" "zzz" none :: []⟩
        (RenderOptions.mk true true 2 DEFAULT none)
      = render ⟨[AsciiNode.mk "a" "a" "" "" none], [] ++ []⟩
        (RenderOptions.mk true true 2 DEFAULT none) :=
  ⟨Or.inr (by decide),
    C8_dangling_edge_skipped [AsciiNode.mk "a" "a" "" "" none] [] []
      (AsciiEdge.mk "a" "zzz" none)
      (RenderOptions.mk true true 2 DEFAULT none) (Or.inr (by decide))⟩
